import Mathlib

/-!
# simpleStrat: position state machine and market-data store

A shallow embedding of the Go sources `trader.go`, `ws.go`, `data.go` and `main.go`.

Modelling conventions.

* `float64` values that live in the program state (prices, sizes) are modelled as exact
  rationals: finite values, no rounding, no negative zero.  The only place where the Go
  code can leave the finite values is a division by zero, so the quotient of two state
  values is modelled by `F64`, which keeps the IEEE results `NaN`, `+Inf` and `-Inf` apart.
* The exchange is outside the program.  It is modelled by a `Gateway`: a function that,
  given the orders submitted so far and the new order, tells whether the call returns
  without error.  The trace of submitted orders is kept in the `Trader` value.
* Log output is not modelled.
* Where the rounding of `float64` arithmetic decides the outcome (the repeated quarter
  reductions of C25), the control loop is taken with every arithmetic result rounded:
  `tickFl roundF64`, which is `tick` when the rounding is the identity.
-/

namespace SimpleStrat

/-! ## Quotients of `float64` values -/

/-- Result of a `float64` division of two finite values. -/
inductive F64 where
  | nan : F64
  | posInf : F64
  | negInf : F64
  | fin (q : ℚ) : F64
  deriving DecidableEq

/-- IEEE division `a / b` of finite values: a zero divisor gives `NaN` or an infinity. -/
def fdiv (a b : ℚ) : F64 :=
  if b = 0 then
    if a = 0 then F64.nan else if 0 < a then F64.posInf else F64.negInf
  else F64.fin (a / b)

/-- The Go comparison `x >= c` for a finite constant `c` (false on `NaN`). -/
def F64.ge (x : F64) (c : ℚ) : Bool :=
  match x with
  | F64.nan => false
  | F64.posInf => true
  | F64.negInf => false
  | F64.fin q => decide (c ≤ q)

/-- The Go comparison `x <= c` for a finite constant `c` (false on `NaN`). -/
def F64.le (x : F64) (c : ℚ) : Bool :=
  match x with
  | F64.nan => false
  | F64.posInf => false
  | F64.negInf => true
  | F64.fin q => decide (q ≤ c)

/-! ## Rendering of quantities -/

/-- Rounding of a non-negative rational to the nearest natural number, ties to even. -/
def roundHalfEven (q : ℚ) : Nat :=
  let f := (Int.toNat ⌊q⌋)
  let r := q - (f : ℚ)
  if r < 1 / 2 then f
  else if 1 / 2 < r then f + 1
  else if f % 2 = 0 then f else f + 1

/-- Left padding with the character `0` up to a width of `w`. -/
def padZeros (w : Nat) (ds : List Char) : List Char :=
  List.replicate (w - ds.length) '0' ++ ds

/-- The text `%.8f` of a finite value: sign, integer part, point, eight decimals. -/
def fixed8 (q : ℚ) : String :=
  let n := roundHalfEven (|q| * 100000000)
  let body := Nat.toDigits 10 (n / 100000000) ++ ['.'] ++ padZeros 8 (Nat.toDigits 10 (n % 100000000))
  String.mk ((if q < 0 then ['-'] else []) ++ body)

/-- The text that `fmt.Sprintf("%.8f", x)` and `strconv.FormatFloat(x, 'f', 8, 64)` produce. -/
def sprintf8 (x : F64) : String :=
  match x with
  | F64.nan => "NaN"
  | F64.posInf => "+Inf"
  | F64.negInf => "-Inf"
  | F64.fin q => fixed8 q

/-- The Go function `strings.TrimRight(s, cutset)`: drops every trailing character of the cutset. -/
def trimRight (s : String) (cutset : List Char) : String :=
  String.mk (s.data.reverse.dropWhile (fun c => decide (c ∈ cutset))).reverse

/-- Source: `formatQuantity` in trader.go. -/
def formatQuantity (quantity : F64) : String :=
  let quantityStr := sprintf8 quantity
  let quantityStr := trimRight quantityStr ['0']
  let quantityStr := trimRight quantityStr ['.']
  quantityStr

/-! ## The trader -/

/-- Source: `TraderState` in trader.go. -/
inductive TraderState where
  | Idle : TraderState
  | InitialEntry : TraderState
  | SecondaryEntry : TraderState
  deriving DecidableEq, Repr

/-- Source: `Config` in main.go (the fields the trader and the ingestor read). -/
structure Config where
  Pair : String
  Market : String
  EntrySignal : String
  MaxPosition : ℚ
  deriving DecidableEq

/-- Side of an order (`binance.SideTypeBuy`, `binance.SideTypeSell`). -/
inductive Side where
  | Buy : Side
  | Sell : Side
  deriving DecidableEq, Repr

/-- A market order as it reaches the exchange client selected by `market`. -/
structure Order where
  market : String
  symbol : String
  side : Side
  quantity : String
  deriving DecidableEq

/-- The exchange: given the orders submitted before and the new order, does the call succeed. -/
abbrev Gateway := List Order → Order → Bool

/-- Source: `Trader` in trader.go, with the trace of the orders submitted so far. -/
structure Trader where
  config : Config
  state : TraderState
  entryPrice : ℚ
  entrySize : ℚ
  currentSize : ℚ
  isLong : Bool
  orders : List Order
  deriving DecidableEq

/-- Source: `NewTrader` in trader.go (the fields it sets; the rest are zero values). -/
def NewTrader (config : Config) (isBuy : Bool) : Trader :=
  { config := config, state := TraderState.Idle, entryPrice := 0, entrySize := 0,
    currentSize := 0, isLong := isBuy, orders := [] }

/-- The markets for which the order switch has a case. -/
def supportedMarket (m : String) : Bool :=
  m == "spot" || m == "usdm" || m == "coinm"

/-- The switch over `config.Market` around a `NewCreateOrderService` call: an unsupported
market gives an error without a call, otherwise the exchange decides.  The result is the
success flag (`err == nil`) and the trader with the order appended to its trace. -/
def submitOrder (gw : Gateway) (t : Trader) (symbol : String) (side : Side) (quantity : String) :
    Bool × Trader :=
  if supportedMarket t.config.Market then
    let o : Order := Order.mk t.config.Market symbol side quantity
    (gw t.orders o, { t with orders := t.orders ++ [o] })
  else (false, t)

/-- Source: `PlaceMarketOrder` in trader.go. -/
def PlaceMarketOrder (gw : Gateway) (t : Trader) (side : Side) (quantity : String) : Bool × Trader :=
  submitOrder gw t t.config.Pair side quantity

/-- The Go function `strings.ToUpper` (letters of the ASCII range). -/
def toUpper (s : String) : String := String.mk (s.data.map Char.toUpper)

/-- The Go function `strings.ToLower` (letters of the ASCII range). -/
def toLower (s : String) : String := String.mk (s.data.map Char.toLower)

/-- Source: `enterLongPosition` in trader.go. -/
def enterLongPosition (gw : Gateway) (t : Trader) (currentPrice : ℚ) : Trader :=
  let symbol := toUpper t.config.Pair
  if symbol = "" then t
  else if currentPrice ≤ 0 then t
  else
    let quantity := fdiv t.config.MaxPosition currentPrice
    let quantityStr := formatQuantity quantity
    let r := submitOrder gw t symbol Side.Buy quantityStr
    if r.1 = false then r.2
    else
      { r.2 with entryPrice := currentPrice, entrySize := t.config.MaxPosition,
                 currentSize := t.config.MaxPosition, isLong := true,
                 state := TraderState.InitialEntry }

/-- Source: `enterShortPosition` in trader.go. -/
def enterShortPosition (gw : Gateway) (t : Trader) (currentPrice : ℚ) : Trader :=
  let symbol := toUpper t.config.Pair
  if symbol = "" then t
  else
    let quantity := fdiv t.config.MaxPosition currentPrice
    let quantityStr := formatQuantity quantity
    let r := submitOrder gw t symbol Side.Sell quantityStr
    if r.1 = false then r.2
    else
      { r.2 with entryPrice := currentPrice, entrySize := t.config.MaxPosition,
                 currentSize := t.config.MaxPosition, isLong := false,
                 state := TraderState.InitialEntry }

/-- The notional that `reducePosition` takes off: the fraction of `entrySize`, capped. -/
def reduceSizeOf (t : Trader) (percentage : ℚ) : ℚ :=
  let reduceSize := t.entrySize * percentage
  if reduceSize > t.currentSize then t.currentSize else reduceSize

/-- Source: `reducePosition` in trader.go. -/
def reducePosition (gw : Gateway) (t : Trader) (percentage : ℚ) : Trader :=
  let reduceSize := reduceSizeOf t percentage
  let quantity := sprintf8 (fdiv reduceSize t.entryPrice)
  let r := PlaceMarketOrder gw t (if t.isLong then Side.Sell else Side.Buy) quantity
  if r.1 = false then r.2
  else
    let t1 : Trader := { r.2 with currentSize := t.currentSize - reduceSize }
    if t1.currentSize ≤ 0 then { t1 with state := TraderState.Idle } else t1

/-- Source: `closePosition` in trader.go. -/
def closePosition (gw : Gateway) (t : Trader) : Trader :=
  let quantity := sprintf8 (fdiv t.currentSize t.entryPrice)
  let r := PlaceMarketOrder gw t (if t.isLong then Side.Sell else Side.Buy) quantity
  if r.1 = false then r.2
  else
    let t1 : Trader := { r.2 with currentSize := 0 }
    if t1.state = TraderState.InitialEntry then { t1 with state := TraderState.SecondaryEntry }
    else { t1 with state := TraderState.Idle }

/-- Source: `handleLongPosition` in trader.go. -/
def handleLongPosition (gw : Gateway) (t : Trader) (currentPrice : ℚ) : Trader :=
  let priceDiff := fdiv (currentPrice - t.entryPrice) t.entryPrice
  if priceDiff.ge (4 / 100) then reducePosition gw t (25 / 100)
  else if priceDiff.ge (3 / 100) then reducePosition gw t (25 / 100)
  else if priceDiff.ge (2 / 100) then reducePosition gw t (25 / 100)
  else if priceDiff.ge (1 / 100) then reducePosition gw t (25 / 100)
  else if priceDiff.le (-(1 / 100)) then enterShortPosition gw (closePosition gw t) currentPrice
  else t

/-- Source: `handleShortPosition` in trader.go. -/
def handleShortPosition (gw : Gateway) (t : Trader) (currentPrice : ℚ) : Trader :=
  let priceDiff := fdiv (t.entryPrice - currentPrice) t.entryPrice
  if priceDiff.ge (4 / 100) then reducePosition gw t (25 / 100)
  else if priceDiff.ge (3 / 100) then reducePosition gw t (25 / 100)
  else if priceDiff.ge (2 / 100) then reducePosition gw t (25 / 100)
  else if priceDiff.ge (1 / 100) then reducePosition gw t (25 / 100)
  else if priceDiff.le (-(1 / 100)) then enterLongPosition gw (closePosition gw t) currentPrice
  else t

/-- Source: `handleSecondaryLongPosition` in trader.go. -/
def handleSecondaryLongPosition (gw : Gateway) (t : Trader) (currentPrice : ℚ) : Trader :=
  let priceDiff := fdiv (currentPrice - t.entryPrice) t.entryPrice
  if priceDiff.ge (3 / 100) then reducePosition gw t (25 / 100)
  else if priceDiff.ge (2 / 100) then reducePosition gw t (25 / 100)
  else if priceDiff.ge (1 / 100) then reducePosition gw t (5 / 10)
  else if priceDiff.le (-(1 / 100)) then { closePosition gw t with state := TraderState.Idle }
  else t

/-- Source: `handleSecondaryShortPosition` in trader.go. -/
def handleSecondaryShortPosition (gw : Gateway) (t : Trader) (currentPrice : ℚ) : Trader :=
  let priceDiff := fdiv (t.entryPrice - currentPrice) t.entryPrice
  if priceDiff.ge (3 / 100) then reducePosition gw t (25 / 100)
  else if priceDiff.ge (2 / 100) then reducePosition gw t (25 / 100)
  else if priceDiff.ge (1 / 100) then reducePosition gw t (5 / 10)
  else if priceDiff.le (-(1 / 100)) then { closePosition gw t with state := TraderState.Idle }
  else t

/-- The library function `strconv.ParseFloat(s, 64)`: the value and whether an error is
returned.  It is a parameter of the model. -/
abbrev FloatParser := String → ℚ × Bool

/-- Source: `handleIdleState` in trader.go. -/
def handleIdleState (pf : FloatParser) (gw : Gateway) (t : Trader) (currentPrice : ℚ) : Trader :=
  if t.config.EntrySignal = "market" then
    if t.isLong then enterLongPosition gw t currentPrice
    else enterShortPosition gw t currentPrice
  else
    let r := pf t.config.EntrySignal
    if r.2 then t
    else
      let entryPrice := r.1
      if t.isLong ∧ currentPrice ≤ entryPrice then enterLongPosition gw t currentPrice
      else if ¬ t.isLong ∧ currentPrice ≥ entryPrice then enterShortPosition gw t currentPrice
      else t

/-- Source: `handleInitialEntryState` in trader.go. -/
def handleInitialEntryState (gw : Gateway) (t : Trader) (currentPrice : ℚ) : Trader :=
  if t.isLong then handleLongPosition gw t currentPrice
  else handleShortPosition gw t currentPrice

/-- Source: `handleSecondaryEntryState` in trader.go. -/
def handleSecondaryEntryState (gw : Gateway) (t : Trader) (currentPrice : ℚ) : Trader :=
  if t.isLong then handleSecondaryLongPosition gw t currentPrice
  else handleSecondaryShortPosition gw t currentPrice

/-- The body of one iteration of the loop of `Run` in trader.go, for a snapshot price. -/
def tick (pf : FloatParser) (gw : Gateway) (t : Trader) (currentPrice : ℚ) : Trader :=
  match t.state with
  | TraderState.Idle => handleIdleState pf gw t currentPrice
  | TraderState.InitialEntry => handleInitialEntryState gw t currentPrice
  | TraderState.SecondaryEntry => handleSecondaryEntryState gw t currentPrice

/-- The fields of the position state machine (phase, direction, entry price and sizes). -/
structure PositionState where
  phase : TraderState
  isLong : Bool
  entryPrice : ℚ
  entrySize : ℚ
  currentSize : ℚ
  deriving DecidableEq

/-- The position state held in a trader value. -/
def Trader.position (t : Trader) : PositionState :=
  { phase := t.state, isLong := t.isLong, entryPrice := t.entryPrice,
    entrySize := t.entrySize, currentSize := t.currentSize }

/-- The percentage move `priceDiff` as the four position handlers compute it. -/
def priceDiff (t : Trader) (currentPrice : ℚ) : F64 :=
  if t.isLong then fdiv (currentPrice - t.entryPrice) t.entryPrice
  else fdiv (t.entryPrice - currentPrice) t.entryPrice

/-! ## The market-data store -/

/-- A `time.Time`: `none` is the zero value, `some n` is `time.Unix(0, n)`. -/
abbrev GoTime := Option Int

/-- Wrap-around of a mathematical integer into the range of `int64`. -/
def wrap64 (i : Int) : Int := (i + 2 ^ 63) % 2 ^ 64 - 2 ^ 63

/-- The conversion `int64(x)` of a `float64`: truncation toward zero; a value outside the
range of `int64` gives the smallest `int64` (the result on amd64, the Go specification
leaves it to the implementation). -/
def toInt64 (x : ℚ) : Int :=
  let n : Int := if 0 ≤ x then ⌊x⌋ else ⌈x⌉
  if -(2 ^ 63) ≤ n ∧ n < 2 ^ 63 then n else -(2 ^ 63)

/-- The expression `time.Unix(0, int64(x)*int64(time.Millisecond))`. -/
def unixMilli (x : ℚ) : GoTime := some (wrap64 (toInt64 x * 1000000))

/-- A value that `json.Unmarshal` stores in an `interface{}`. -/
inductive JVal where
  | null : JVal
  | bool (b : Bool) : JVal
  | num (x : ℚ) : JVal
  | str (s : String) : JVal
  | arr (xs : List JVal) : JVal
  | obj (fields : List (String × JVal)) : JVal

/-- A decoded message body, `map[string]interface{}`. -/
abbrev JMap := List (String × JVal)

/-- The type assertion `v.(float64)`; `none` is the run-time panic. -/
def asFloat64 : Option JVal → Option ℚ
  | some (JVal.num x) => some x
  | _ => none

/-- The type assertion `v.(string)`; `none` is the run-time panic. -/
def asString : Option JVal → Option String
  | some (JVal.str s) => some s
  | _ => none

/-- The type assertion `v.(bool)`; `none` is the run-time panic. -/
def asBool : Option JVal → Option Bool
  | some (JVal.bool b) => some b
  | _ => none

/-- The type assertion `v.([]interface{})`; `none` is the run-time panic. -/
def asSlice : Option JVal → Option (List JVal)
  | some (JVal.arr xs) => some xs
  | _ => none

/-- The two-value assertion `s, _ := v.(string)`: the empty string when `v` is no string. -/
def asStringOrEmpty : JVal → String
  | JVal.str s => s
  | _ => ""

/-- Source: `MarketData` in data.go (without the lock). -/
structure MarketData where
  Symbol : String
  EventTime : GoTime
  TradeID : Int
  Price : ℚ
  Quantity : ℚ
  TradeTime : GoTime
  IsBuyerMM : Bool
  AggTradeID : Int
  FirstTradeID : Int
  LastTradeID : Int
  IsBuyerMaker : Bool
  LastUpdateID : Int
  Bids : List (ℚ × ℚ)
  Asks : List (ℚ × ℚ)
  deriving DecidableEq

/-- The composite literal `&MarketData{Symbol: symbol}`. -/
def MarketData.new (symbol : String) : MarketData :=
  { Symbol := symbol, EventTime := none, TradeID := 0, Price := 0, Quantity := 0,
    TradeTime := none, IsBuyerMM := false, AggTradeID := 0, FirstTradeID := 0,
    LastTradeID := 0, IsBuyerMaker := false, LastUpdateID := 0, Bids := [], Asks := [] }

/-- Source: `DataStore` in data.go: the map from symbol to snapshot, as an association list
with one entry per key. -/
structure DataStore where
  data : List (String × MarketData)
  deriving DecidableEq

/-- Source: `NewDataStore` in data.go. -/
def NewDataStore : DataStore := { data := [] }

/-- Source: `GetMarketData` in data.go (`none` is the nil pointer). -/
def GetMarketData (ds : DataStore) (symbol : String) : Option MarketData :=
  ds.data.lookup symbol

/-- Writing a snapshot back under its key: in place when the key exists, a new entry otherwise. -/
def upsert (symbol : String) (md : MarketData) :
    List (String × MarketData) → List (String × MarketData)
  | [] => [(symbol, md)]
  | (k, v) :: rest => if k = symbol then (k, md) :: rest else (k, v) :: upsert symbol md rest

/-- The lookup-or-create step that opens each update function. -/
def snapshotOf (ds : DataStore) (symbol : String) : MarketData :=
  match ds.data.lookup symbol with
  | some md => md
  | none => MarketData.new symbol

/-- Source: `parseFloat` in main.go. -/
def parseFloat (pf : FloatParser) (s : String) : ℚ := (pf s).1

/-- One iteration of the loop of `parseOrders`; `none` is the run-time panic. -/
def parseOrder (pf : FloatParser) (order : JVal) : Option (ℚ × ℚ) :=
  match asSlice (some order) with
  | none => none
  | some orderData =>
    match orderData.get? 0, orderData.get? 1 with
    | some p, some q =>
      some (parseFloat pf (asStringOrEmpty p), parseFloat pf (asStringOrEmpty q))
    | _, _ => none

/-- Source: `parseOrders` in data.go; `none` is the run-time panic. -/
def parseOrders (pf : FloatParser) : List JVal → Option (List (ℚ × ℚ))
  | [] => some []
  | order :: rest =>
    match parseOrder pf order with
    | none => none
    | some r =>
      match parseOrders pf rest with
      | none => none
      | some rs => some (r :: rs)

/-- Source: `UpdateTrade` in data.go; `none` is the run-time panic of a failed assertion. -/
def UpdateTrade (pf : FloatParser) (ds : DataStore) (symbol : String) (data : JMap) :
    Option DataStore := do
  let md := snapshotOf ds symbol
  let e ← asFloat64 (data.lookup "E")
  let t ← asFloat64 (data.lookup "t")
  let p ← asString (data.lookup "p")
  let q ← asString (data.lookup "q")
  let tt ← asFloat64 (data.lookup "T")
  let m ← asBool (data.lookup "m")
  let md := { md with EventTime := unixMilli e, TradeID := toInt64 t, Price := (pf p).1,
                      Quantity := (pf q).1, TradeTime := unixMilli tt, IsBuyerMM := m }
  pure { data := upsert symbol md ds.data }

/-- Source: `UpdateAggTrade` in data.go; `none` is the run-time panic of a failed assertion. -/
def UpdateAggTrade (pf : FloatParser) (ds : DataStore) (symbol : String) (data : JMap) :
    Option DataStore := do
  let md := snapshotOf ds symbol
  let e ← asFloat64 (data.lookup "E")
  let a ← asFloat64 (data.lookup "a")
  let p ← asString (data.lookup "p")
  let q ← asString (data.lookup "q")
  let f ← asFloat64 (data.lookup "f")
  let l ← asFloat64 (data.lookup "l")
  let tt ← asFloat64 (data.lookup "T")
  let m ← asBool (data.lookup "m")
  let md := { md with EventTime := unixMilli e, AggTradeID := toInt64 a, Price := (pf p).1,
                      Quantity := (pf q).1, FirstTradeID := toInt64 f, LastTradeID := toInt64 l,
                      TradeTime := unixMilli tt, IsBuyerMaker := m }
  pure { data := upsert symbol md ds.data }

/-- Source: `UpdateDepth` in data.go; `none` is the run-time panic of a failed assertion. -/
def UpdateDepth (pf : FloatParser) (ds : DataStore) (symbol : String) (data : JMap) :
    Option DataStore := do
  let md := snapshotOf ds symbol
  let u ← asFloat64 (data.lookup "lastUpdateId")
  let bids ← asSlice (data.lookup "bids")
  let bids ← parseOrders pf bids
  let asks ← asSlice (data.lookup "asks")
  let asks ← parseOrders pf asks
  let md := { md with LastUpdateID := toInt64 u, Bids := bids, Asks := asks }
  pure { data := upsert symbol md ds.data }

/-! ## The stream ingestor -/

/-- The Go function `strings.HasSuffix`. -/
def hasSuffix (s suffix : String) : Bool := suffix.data.isSuffixOf s.data

/-- Source: `processMessage` in ws.go; `none` is a run-time panic inside the store update,
which ends the process. -/
def processMessage (pf : FloatParser) (cfg : Config) (ds : DataStore) (stream : String)
    (data : JMap) : Option DataStore :=
  let symbol := cfg.Pair
  if hasSuffix stream "@trade" then UpdateTrade pf ds symbol data
  else if hasSuffix stream "@aggTrade" then UpdateAggTrade pf ds symbol data
  else if hasSuffix stream "@depth10" then UpdateDepth pf ds symbol data
  else some ds

/-- Source: `getStreams` in ws.go. -/
def getStreams (cfg : Config) : List String :=
  if cfg.Market = "spot" then
    [toLower cfg.Pair ++ "@trade", toLower cfg.Pair ++ "@depth10"]
  else if cfg.Market = "usdm" ∨ cfg.Market = "coinm" then
    [toLower cfg.Pair ++ "@aggTrade", toLower cfg.Pair ++ "@depth10@100ms"]
  else []

/-! ## Runs of the control loop and of the ingestor -/

/-- Source: the loop of `Run` in trader.go, unrolled over its successive iterations.  Each
iteration comes with the exchange as it answers during that iteration and with the price of
the snapshot, `none` when `GetMarketData` returns nil (the iteration is then skipped). -/
def Run (pf : FloatParser) (t : Trader) : List (Gateway × Option ℚ) → Trader
  | [] => t
  | (_, none) :: rest => Run pf t rest
  | (gw, some price) :: rest => Run pf (tick pf gw t price) rest

/-- One call of a store update function: its kind, the symbol and the decoded message. -/
inductive StoreEvent where
  | trade (symbol : String) (data : JMap) : StoreEvent
  | aggTrade (symbol : String) (data : JMap) : StoreEvent
  | depth (symbol : String) (data : JMap) : StoreEvent

/-- The symbol an update call writes to. -/
def StoreEvent.symbol : StoreEvent → String
  | StoreEvent.trade s _ => s
  | StoreEvent.aggTrade s _ => s
  | StoreEvent.depth s _ => s

/-- Whether the call is `UpdateTrade` or `UpdateAggTrade` (the trade-type updates). -/
def StoreEvent.isTradeType : StoreEvent → Bool
  | StoreEvent.trade _ _ => true
  | StoreEvent.aggTrade _ _ => true
  | StoreEvent.depth _ _ => false

/-- The update call that an event stands for. -/
def applyEvent (pf : FloatParser) (ds : DataStore) : StoreEvent → Option DataStore
  | StoreEvent.trade s data => UpdateTrade pf ds s data
  | StoreEvent.aggTrade s data => UpdateAggTrade pf ds s data
  | StoreEvent.depth s data => UpdateDepth pf ds s data

/-- A sequence of update calls, in order; `none` as soon as one of them panics. -/
def applyEvents (pf : FloatParser) : DataStore → List StoreEvent → Option DataStore
  | ds, [] => some ds
  | ds, e :: rest =>
    match applyEvent pf ds e with
    | none => none
    | some ds1 => applyEvents pf ds1 rest

/-- The fields that both trade-type updates write: event time, price, quantity, trade time. -/
def MarketData.tradeGroup (md : MarketData) : GoTime × ℚ × ℚ × GoTime :=
  (md.EventTime, md.Price, md.Quantity, md.TradeTime)

/-- The fields that the depth update writes: last update id, bids, asks. -/
def MarketData.depthGroup (md : MarketData) : Int × List (ℚ × ℚ) × List (ℚ × ℚ) :=
  (md.LastUpdateID, md.Bids, md.Asks)

/-- The message of an update call. -/
def StoreEvent.data : StoreEvent → JMap
  | StoreEvent.trade _ d => d
  | StoreEvent.aggTrade _ d => d
  | StoreEvent.depth _ d => d

/-- The trade group that a trade-type message carries, read as `UpdateTrade` and
`UpdateAggTrade` read it (fields `E`, `p`, `q`, `T`). -/
def tradeGroupOf (pf : FloatParser) (data : JMap) : Option (GoTime × ℚ × ℚ × GoTime) := do
  let e ← asFloat64 (data.lookup "E")
  let p ← asString (data.lookup "p")
  let q ← asString (data.lookup "q")
  let tt ← asFloat64 (data.lookup "T")
  pure (unixMilli e, (pf p).1, (pf q).1, unixMilli tt)

/-- The depth group that a depth message carries, read as `UpdateDepth` reads it. -/
def depthGroupOf (pf : FloatParser) (data : JMap) :
    Option (Int × List (ℚ × ℚ) × List (ℚ × ℚ)) := do
  let u ← asFloat64 (data.lookup "lastUpdateId")
  let bids ← asSlice (data.lookup "bids")
  let bids ← parseOrders pf bids
  let asks ← asSlice (data.lookup "asks")
  let asks ← parseOrders pf asks
  pure (toInt64 u, bids, asks)

/-- What an update of `symbol` keeps of the store: the snapshot found under every other
symbol, and the number of entries, but for one new entry when `symbol` had none. -/
def othersKept (ds ds' : DataStore) (symbol : String) : Prop :=
  (∀ k, k ≠ symbol → GetMarketData ds' k = GetMarketData ds k) ∧
    ds'.data.length = ds.data.length + (if (GetMarketData ds symbol).isSome then 0 else 1)

/-- The percentage move from the entry price in the direction of the position: the value
of `priceDiff` when the entry price is not zero. -/
def move (t : Trader) (currentPrice : ℚ) : ℚ :=
  if t.isLong then (currentPrice - t.entryPrice) / t.entryPrice
  else (t.entryPrice - currentPrice) / t.entryPrice

/-- The two trimming steps of `formatQuantity`, applied to a rendered text. -/
def trimQuantity (s : String) : String :=
  trimRight (trimRight s ['0']) ['.']

/-- The natural number that a list of decimal digits denotes. -/
def digitsValue (ds : List Char) : ℕ :=
  ds.foldl (fun acc c => 10 * acc + (c.toNat - 48)) 0

/-- The number that a decimal text denotes: the integer digits up to the point, plus the
digits after the point as a fraction. -/
def decimalValue (s : String) : ℚ :=
  let ip := s.data.takeWhile (fun c => c != '.')
  let fr := (s.data.dropWhile (fun c => c != '.')).drop 1
  (digitsValue ip : ℚ) + (digitsValue fr : ℚ) / 10 ^ fr.length

/-! ## The control loop with rounded arithmetic

The definitions of this section repeat the trader of `trader.go` with a rounding function
`fl` applied to the result of every `float64` operation (difference, product, quotient) and
to every decimal constant.  With `fl = roundF64` they follow the IEEE arithmetic of the
code; with the identity they are the definitions above. -/

/-- Rounding of a rational to `float64`: to nearest, ties to even, with a significand of 53
bits.  The exponent range is not bounded (no overflow to infinity, no subnormal values). -/
def roundF64 (x : ℚ) : ℚ :=
  if x = 0 then 0
  else
    let ulp : ℚ := 2 ^ (Int.log 2 |x| - 52)
    let m : ℚ := (roundHalfEven (|x| / ulp) : ℚ) * ulp
    if x < 0 then -m else m

/-- IEEE division with the quotient rounded by `fl`. -/
def fdivFl (fl : ℚ → ℚ) (a b : ℚ) : F64 :=
  match fdiv a b with
  | F64.fin q => F64.fin (fl q)
  | r => r

/-- Source: `enterLongPosition` in trader.go, quotient rounded by `fl`. -/
def enterLongPositionFl (fl : ℚ → ℚ) (gw : Gateway) (t : Trader) (currentPrice : ℚ) : Trader :=
  let symbol := toUpper t.config.Pair
  if symbol = "" then t
  else if currentPrice ≤ 0 then t
  else
    let quantity := fdivFl fl t.config.MaxPosition currentPrice
    let quantityStr := formatQuantity quantity
    let r := submitOrder gw t symbol Side.Buy quantityStr
    if r.1 = false then r.2
    else
      { r.2 with entryPrice := currentPrice, entrySize := t.config.MaxPosition,
                 currentSize := t.config.MaxPosition, isLong := true,
                 state := TraderState.InitialEntry }

/-- Source: `enterShortPosition` in trader.go, quotient rounded by `fl`. -/
def enterShortPositionFl (fl : ℚ → ℚ) (gw : Gateway) (t : Trader) (currentPrice : ℚ) : Trader :=
  let symbol := toUpper t.config.Pair
  if symbol = "" then t
  else
    let quantity := fdivFl fl t.config.MaxPosition currentPrice
    let quantityStr := formatQuantity quantity
    let r := submitOrder gw t symbol Side.Sell quantityStr
    if r.1 = false then r.2
    else
      { r.2 with entryPrice := currentPrice, entrySize := t.config.MaxPosition,
                 currentSize := t.config.MaxPosition, isLong := false,
                 state := TraderState.InitialEntry }

/-- The notional that `reducePosition` takes off, with the product rounded by `fl`. -/
def reduceSizeOfFl (fl : ℚ → ℚ) (t : Trader) (percentage : ℚ) : ℚ :=
  let reduceSize := fl (t.entrySize * percentage)
  if reduceSize > t.currentSize then t.currentSize else reduceSize

/-- Source: `reducePosition` in trader.go, with product, quotient and difference rounded by
`fl`; `percentage` is one of the `float64` values 0.25 and 0.5. -/
def reducePositionFl (fl : ℚ → ℚ) (gw : Gateway) (t : Trader) (percentage : ℚ) : Trader :=
  let reduceSize := reduceSizeOfFl fl t percentage
  let quantity := sprintf8 (fdivFl fl reduceSize t.entryPrice)
  let r := PlaceMarketOrder gw t (if t.isLong then Side.Sell else Side.Buy) quantity
  if r.1 = false then r.2
  else
    let t1 : Trader := { r.2 with currentSize := fl (t.currentSize - reduceSize) }
    if t1.currentSize ≤ 0 then { t1 with state := TraderState.Idle } else t1

/-- Source: `closePosition` in trader.go, quotient rounded by `fl`. -/
def closePositionFl (fl : ℚ → ℚ) (gw : Gateway) (t : Trader) : Trader :=
  let quantity := sprintf8 (fdivFl fl t.currentSize t.entryPrice)
  let r := PlaceMarketOrder gw t (if t.isLong then Side.Sell else Side.Buy) quantity
  if r.1 = false then r.2
  else
    let t1 : Trader := { r.2 with currentSize := 0 }
    if t1.state = TraderState.InitialEntry then { t1 with state := TraderState.SecondaryEntry }
    else { t1 with state := TraderState.Idle }

/-- Source: `handleLongPosition` in trader.go, arithmetic and constants rounded by `fl`. -/
def handleLongPositionFl (fl : ℚ → ℚ) (gw : Gateway) (t : Trader) (currentPrice : ℚ) : Trader :=
  let priceDiff := fdivFl fl (fl (currentPrice - t.entryPrice)) t.entryPrice
  if priceDiff.ge (fl (4 / 100)) then reducePositionFl fl gw t (25 / 100)
  else if priceDiff.ge (fl (3 / 100)) then reducePositionFl fl gw t (25 / 100)
  else if priceDiff.ge (fl (2 / 100)) then reducePositionFl fl gw t (25 / 100)
  else if priceDiff.ge (fl (1 / 100)) then reducePositionFl fl gw t (25 / 100)
  else if priceDiff.le (fl (-(1 / 100))) then
    enterShortPositionFl fl gw (closePositionFl fl gw t) currentPrice
  else t

/-- Source: `handleShortPosition` in trader.go, arithmetic and constants rounded by `fl`. -/
def handleShortPositionFl (fl : ℚ → ℚ) (gw : Gateway) (t : Trader) (currentPrice : ℚ) :
    Trader :=
  let priceDiff := fdivFl fl (fl (t.entryPrice - currentPrice)) t.entryPrice
  if priceDiff.ge (fl (4 / 100)) then reducePositionFl fl gw t (25 / 100)
  else if priceDiff.ge (fl (3 / 100)) then reducePositionFl fl gw t (25 / 100)
  else if priceDiff.ge (fl (2 / 100)) then reducePositionFl fl gw t (25 / 100)
  else if priceDiff.ge (fl (1 / 100)) then reducePositionFl fl gw t (25 / 100)
  else if priceDiff.le (fl (-(1 / 100))) then
    enterLongPositionFl fl gw (closePositionFl fl gw t) currentPrice
  else t

/-- Source: `handleSecondaryLongPosition` in trader.go, arithmetic and constants rounded by
`fl`. -/
def handleSecondaryLongPositionFl (fl : ℚ → ℚ) (gw : Gateway) (t : Trader) (currentPrice : ℚ) :
    Trader :=
  let priceDiff := fdivFl fl (fl (currentPrice - t.entryPrice)) t.entryPrice
  if priceDiff.ge (fl (3 / 100)) then reducePositionFl fl gw t (25 / 100)
  else if priceDiff.ge (fl (2 / 100)) then reducePositionFl fl gw t (25 / 100)
  else if priceDiff.ge (fl (1 / 100)) then reducePositionFl fl gw t (5 / 10)
  else if priceDiff.le (fl (-(1 / 100))) then
    { closePositionFl fl gw t with state := TraderState.Idle }
  else t

/-- Source: `handleSecondaryShortPosition` in trader.go, arithmetic and constants rounded by
`fl`. -/
def handleSecondaryShortPositionFl (fl : ℚ → ℚ) (gw : Gateway) (t : Trader)
    (currentPrice : ℚ) : Trader :=
  let priceDiff := fdivFl fl (fl (t.entryPrice - currentPrice)) t.entryPrice
  if priceDiff.ge (fl (3 / 100)) then reducePositionFl fl gw t (25 / 100)
  else if priceDiff.ge (fl (2 / 100)) then reducePositionFl fl gw t (25 / 100)
  else if priceDiff.ge (fl (1 / 100)) then reducePositionFl fl gw t (5 / 10)
  else if priceDiff.le (fl (-(1 / 100))) then
    { closePositionFl fl gw t with state := TraderState.Idle }
  else t

/-- Source: `handleIdleState` in trader.go, with the rounded entry functions. -/
def handleIdleStateFl (fl : ℚ → ℚ) (pf : FloatParser) (gw : Gateway) (t : Trader)
    (currentPrice : ℚ) : Trader :=
  if t.config.EntrySignal = "market" then
    if t.isLong then enterLongPositionFl fl gw t currentPrice
    else enterShortPositionFl fl gw t currentPrice
  else
    let r := pf t.config.EntrySignal
    if r.2 then t
    else
      let entryPrice := r.1
      if t.isLong ∧ currentPrice ≤ entryPrice then enterLongPositionFl fl gw t currentPrice
      else if ¬ t.isLong ∧ currentPrice ≥ entryPrice then
        enterShortPositionFl fl gw t currentPrice
      else t

/-- Source: `handleInitialEntryState` in trader.go, with the rounded handlers. -/
def handleInitialEntryStateFl (fl : ℚ → ℚ) (gw : Gateway) (t : Trader) (currentPrice : ℚ) :
    Trader :=
  if t.isLong then handleLongPositionFl fl gw t currentPrice
  else handleShortPositionFl fl gw t currentPrice

/-- Source: `handleSecondaryEntryState` in trader.go, with the rounded handlers. -/
def handleSecondaryEntryStateFl (fl : ℚ → ℚ) (gw : Gateway) (t : Trader) (currentPrice : ℚ) :
    Trader :=
  if t.isLong then handleSecondaryLongPositionFl fl gw t currentPrice
  else handleSecondaryShortPositionFl fl gw t currentPrice

/-- The body of one iteration of the loop of `Run`, with rounded arithmetic. -/
def tickFl (fl : ℚ → ℚ) (pf : FloatParser) (gw : Gateway) (t : Trader) (currentPrice : ℚ) :
    Trader :=
  match t.state with
  | TraderState.Idle => handleIdleStateFl fl pf gw t currentPrice
  | TraderState.InitialEntry => handleInitialEntryStateFl fl gw t currentPrice
  | TraderState.SecondaryEntry => handleSecondaryEntryStateFl fl gw t currentPrice

/-- Source: the loop of `Run` in trader.go, unrolled as `Run` above, with rounded
arithmetic. -/
def RunFl (fl : ℚ → ℚ) (pf : FloatParser) (t : Trader) : List (Gateway × Option ℚ) → Trader
  | [] => t
  | (_, none) :: rest => RunFl fl pf t rest
  | (gw, some price) :: rest => RunFl fl pf (tickFl fl pf gw t price) rest

/-- The percentage move `priceDiff` as the rounded position handlers compute it. -/
def priceDiffFl (fl : ℚ → ℚ) (t : Trader) (currentPrice : ℚ) : F64 :=
  if t.isLong then fdivFl fl (fl (currentPrice - t.entryPrice)) t.entryPrice
  else fdivFl fl (fl (t.entryPrice - currentPrice)) t.entryPrice

/-! ## Sample values -/

/-- An exchange that accepts every order. -/
def acceptAll : Gateway := fun _ _ => true

/-- An exchange that rejects every order. -/
def rejectAll : Gateway := fun _ _ => false

/-- An exchange that rejects the first order it sees and accepts the later ones. -/
def rejectFirst : Gateway := fun history _ => !history.isEmpty

/-- A parser that reports an error on every input. -/
def noParser : FloatParser := fun _ => (0, true)

/-- A parser that reads every input as the value 100. -/
def parser100 : FloatParser := fun _ => (100, false)

/-- A spot configuration with a market entry signal and a notional of 100. -/
def sampleConfig : Config :=
  { Pair := "BTCUSDT", Market := "spot", EntrySignal := "market", MaxPosition := 100 }

/-- A long position of notional 100 opened at price 100, in InitialEntry. -/
def sampleLong : Trader :=
  { config := sampleConfig, state := TraderState.InitialEntry, entryPrice := 100,
    entrySize := 100, currentSize := 100, isLong := true, orders := [] }

/-- A short position of notional 100 opened at price 100, in InitialEntry. -/
def sampleShort : Trader := { sampleLong with isLong := false }

/-- A long position opened at price 100 with notional 50 of 100 left, in SecondaryEntry. -/
def sampleSecondaryLong : Trader :=
  { sampleLong with state := TraderState.SecondaryEntry, currentSize := 50 }

/-- A long position opened at price 100 with notional 25 of 100 left, in InitialEntry. -/
def sampleLastSlice : Trader := { sampleLong with currentSize := 25 }

/-- The trader right after start-up, long, with the sample configuration. -/
def sampleIdle : Trader := NewTrader sampleConfig true

/-- A well-formed depth message with one bid level. -/
def sampleDepth : JMap :=
  [("lastUpdateId", JVal.num 7),
   ("bids", JVal.arr [JVal.arr [JVal.str "100", JVal.str "2"]]),
   ("asks", JVal.arr [])]

/-- A trade message in which the price field `p` is missing. -/
def tradeWithoutPrice : JMap :=
  [("E", JVal.num 1), ("t", JVal.num 1), ("q", JVal.str "1"), ("T", JVal.num 1),
   ("m", JVal.bool true)]

/-- A depth message whose only bid level is an array with one element. -/
def depthShortLevel : JMap :=
  [("lastUpdateId", JVal.num 7), ("bids", JVal.arr [JVal.arr [JVal.str "100"]]),
   ("asks", JVal.arr [])]

/-- A depth message whose only bid level is a string, not an array. -/
def depthScalarLevel : JMap :=
  [("lastUpdateId", JVal.num 7), ("bids", JVal.arr [JVal.str "100"]), ("asks", JVal.arr [])]

/-- A well-formed trade message: price "100", quantity "2". -/
def sampleTrade : JMap :=
  [("E", JVal.num 1), ("t", JVal.num 5), ("p", JVal.str "100"), ("q", JVal.str "2"),
   ("T", JVal.num 1), ("m", JVal.bool true)]

/-- A trade, a depth update and a second trade for the same symbol. -/
def sampleEvents : List StoreEvent :=
  [StoreEvent.trade "BTCUSDT" sampleTrade, StoreEvent.depth "BTCUSDT" sampleDepth,
   StoreEvent.trade "BTCUSDT" sampleTrade]

/-- The store after the sample depth message has been applied to the empty store. -/
def sampleStore1 : DataStore :=
  ⟨[("BTCUSDT", { MarketData.new "BTCUSDT" with LastUpdateID := 7, Bids := [(100, 100)] })]⟩

/-- The store after the sample trade message has been applied to `sampleStore1`. -/
def sampleStore2 : DataStore :=
  ⟨[("BTCUSDT",
    { MarketData.new "BTCUSDT" with
      LastUpdateID := 7, Bids := [(100, 100)], EventTime := unixMilli 1, TradeID := toInt64 5,
      Price := 100, Quantity := 100, TradeTime := unixMilli 1, IsBuyerMM := true })]⟩

/-- An exchange that accepts an order exactly when one order was submitted before it. -/
def acceptSecondOnly : Gateway := fun history _ => history.length == 1

/-- The `float64` value nearest to 1000.1, the value that the decimal 1000.1 has in a
configuration file: 8796972631510221 / 2^43. -/
def size1000_1 : ℚ := 8796972631510221 / 8796093022208

/-- A long position in InitialEntry, opened at price 100, with entry size and current size
the `float64` value of 1000.1. -/
def sampleLongDust : Trader :=
  { config := { sampleConfig with MaxPosition := size1000_1 },
    state := TraderState.InitialEntry, entryPrice := 100, entrySize := size1000_1,
    currentSize := size1000_1, isLong := true, orders := [] }

/-! ## Theorems -/

/-! ### Auxiliary facts -/

theorem fdiv_of_ne (a b : ℚ) (h : b ≠ 0) : fdiv a b = F64.fin (a / b) := by
  simp [fdiv, h]

theorem reduceSizeOf_eq_min (t : Trader) (p : ℚ) :
    reduceSizeOf t p = min (p * t.entrySize) t.currentSize := by
  unfold reduceSizeOf
  simp only [gt_iff_lt]
  rw [mul_comm p]
  split_ifs with h
  · exact (min_eq_right (le_of_lt h)).symm
  · exact (min_eq_left (not_lt.mp h)).symm

/-- The order that `reducePosition` hands to `PlaceMarketOrder`. -/
theorem reducePosition_of_success (gw : Gateway) (t : Trader) (p : ℚ)
    (hm : supportedMarket t.config.Market = true)
    (hok : gw t.orders (Order.mk t.config.Market t.config.Pair
      (if t.isLong then Side.Sell else Side.Buy)
      (sprintf8 (fdiv (reduceSizeOf t p) t.entryPrice))) = true) :
    reducePosition gw t p =
      { t with
        orders := t.orders ++ [Order.mk t.config.Market t.config.Pair
          (if t.isLong then Side.Sell else Side.Buy)
          (sprintf8 (fdiv (reduceSizeOf t p) t.entryPrice))],
        currentSize := t.currentSize - reduceSizeOf t p,
        state := if t.currentSize - reduceSizeOf t p ≤ 0 then TraderState.Idle else t.state } := by
  unfold reducePosition PlaceMarketOrder submitOrder
  simp only [hm, if_true, hok]
  split_ifs <;> simp_all

theorem reducePosition_of_failure (gw : Gateway) (t : Trader) (p : ℚ)
    (hfail : supportedMarket t.config.Market = false ∨ ∀ o, gw t.orders o = false) :
    (reducePosition gw t p).position = t.position := by
  unfold reducePosition PlaceMarketOrder submitOrder
  rcases hfail with h | h
  · simp [h, Trader.position]
  · by_cases hm : supportedMarket t.config.Market = true
    · simp [hm, h, Trader.position]
    · simp [hm, Trader.position]

theorem handleLongPosition_of_favorable (gw : Gateway) (t : Trader) (price : ℚ)
    (h : (fdiv (price - t.entryPrice) t.entryPrice).ge (1 / 100) = true) :
    handleLongPosition gw t price = reducePosition gw t (25 / 100) := by
  unfold handleLongPosition
  simp only [h, if_true]
  split_ifs <;> rfl

theorem handleShortPosition_of_favorable (gw : Gateway) (t : Trader) (price : ℚ)
    (h : (fdiv (t.entryPrice - price) t.entryPrice).ge (1 / 100) = true) :
    handleShortPosition gw t price = reducePosition gw t (25 / 100) := by
  unfold handleShortPosition
  simp only [h, if_true]
  split_ifs <;> rfl

theorem handleInitialEntryState_of_favorable (gw : Gateway) (t : Trader) (price : ℚ)
    (h : (priceDiff t price).ge (1 / 100) = true) :
    handleInitialEntryState gw t price = reducePosition gw t (25 / 100) := by
  unfold handleInitialEntryState
  unfold priceDiff at h
  cases hl : t.isLong
  · rw [hl] at h
    simpa using handleShortPosition_of_favorable gw t price (by simpa using h)
  · rw [hl] at h
    simpa using handleLongPosition_of_favorable gw t price (by simpa using h)

theorem priceDiff_ge_of_pos (t : Trader) (price c : ℚ) (hp : 0 < t.entryPrice)
    (h : c ≤ (if t.isLong then (price - t.entryPrice) / t.entryPrice
              else (t.entryPrice - price) / t.entryPrice)) :
    (priceDiff t price).ge c = true := by
  unfold priceDiff
  cases hl : t.isLong <;> simp [hl] at h ⊢ <;> simp [fdiv_of_ne _ _ (ne_of_gt hp), F64.ge, h]

/-! ### C1 -/

/-- C1: in InitialEntry (PrimaryEntry) with `entryPrice > 0`, a tick at a price whose
favorable move is at least 1% and whose order succeeds places exactly one market order
(sell for a long, buy for a short), lowers `currentSize` by exactly
`min (0.25 * entrySize) currentSize`, keeps `entryPrice`, `entrySize` and `isLong`, and
ends in Idle when the new `currentSize` is `≤ 0` and in InitialEntry otherwise. -/
theorem C1_primary_favorable_reduces (gw : Gateway) (t : Trader) (price : ℚ)
    (hs : t.state = TraderState.InitialEntry)
    (hp : 0 < t.entryPrice)
    (hfav : 1 / 100 ≤ (if t.isLong then (price - t.entryPrice) / t.entryPrice
                        else (t.entryPrice - price) / t.entryPrice))
    (hm : supportedMarket t.config.Market = true)
    (hok : gw t.orders (Order.mk t.config.Market t.config.Pair
      (if t.isLong then Side.Sell else Side.Buy)
      (sprintf8 (fdiv (min (25 / 100 * t.entrySize) t.currentSize) t.entryPrice))) = true) :
    (handleInitialEntryState gw t price).orders =
        t.orders ++ [Order.mk t.config.Market t.config.Pair
          (if t.isLong then Side.Sell else Side.Buy)
          (sprintf8 (fdiv (min (25 / 100 * t.entrySize) t.currentSize) t.entryPrice))] ∧
      (handleInitialEntryState gw t price).currentSize =
        t.currentSize - min (25 / 100 * t.entrySize) t.currentSize ∧
      (handleInitialEntryState gw t price).entryPrice = t.entryPrice ∧
      (handleInitialEntryState gw t price).entrySize = t.entrySize ∧
      (handleInitialEntryState gw t price).isLong = t.isLong ∧
      (handleInitialEntryState gw t price).state =
        (if (handleInitialEntryState gw t price).currentSize ≤ 0 then TraderState.Idle
         else TraderState.InitialEntry) := by
  rw [handleInitialEntryState_of_favorable gw t price (priceDiff_ge_of_pos t price _ hp hfav)]
  rw [← reduceSizeOf_eq_min] at hok ⊢
  rw [reducePosition_of_success gw t _ hm hok]
  simp [hs]

/-- Witness for C1: the sample long position at price 101 with every order accepted. -/
theorem C1_primary_favorable_reduces_witness :
    (handleInitialEntryState acceptAll sampleLong 101).currentSize = 75 ∧
    (handleInitialEntryState acceptAll sampleLong 101).state = TraderState.InitialEntry := by
  have h := C1_primary_favorable_reduces acceptAll sampleLong 101 rfl (by norm_num [sampleLong])
    (by norm_num [sampleLong]) (by decide) rfl
  obtain ⟨-, h2, -, -, -, h6⟩ := h
  rw [h6, h2]
  norm_num [sampleLong]

/-! ### Entering and closing -/

theorem toUpper_eq_empty_iff (s : String) : toUpper s = "" ↔ s = "" := by
  unfold toUpper
  constructor
  · intro h
    have h1 : (String.mk (s.data.map Char.toUpper)).data = ("" : String).data := by rw [h]
    have h2 : s.data = [] := by simpa using h1
    exact String.ext h2
  · intro h
    subst h
    rfl

theorem enterLongPosition_of_success (gw : Gateway) (t : Trader) (price : ℚ)
    (hpair : t.config.Pair ≠ "") (hprice : 0 < price)
    (hm : supportedMarket t.config.Market = true)
    (hok : gw t.orders (Order.mk t.config.Market (toUpper t.config.Pair) Side.Buy
      (formatQuantity (fdiv t.config.MaxPosition price))) = true) :
    enterLongPosition gw t price =
      { t with
        orders := t.orders ++ [Order.mk t.config.Market (toUpper t.config.Pair) Side.Buy
          (formatQuantity (fdiv t.config.MaxPosition price))],
        entryPrice := price, entrySize := t.config.MaxPosition,
        currentSize := t.config.MaxPosition, isLong := true,
        state := TraderState.InitialEntry } := by
  unfold enterLongPosition submitOrder
  simp [toUpper_eq_empty_iff, hpair, not_le.mpr hprice, hm, hok]

theorem enterShortPosition_of_success (gw : Gateway) (t : Trader) (price : ℚ)
    (hpair : t.config.Pair ≠ "")
    (hm : supportedMarket t.config.Market = true)
    (hok : gw t.orders (Order.mk t.config.Market (toUpper t.config.Pair) Side.Sell
      (formatQuantity (fdiv t.config.MaxPosition price))) = true) :
    enterShortPosition gw t price =
      { t with
        orders := t.orders ++ [Order.mk t.config.Market (toUpper t.config.Pair) Side.Sell
          (formatQuantity (fdiv t.config.MaxPosition price))],
        entryPrice := price, entrySize := t.config.MaxPosition,
        currentSize := t.config.MaxPosition, isLong := false,
        state := TraderState.InitialEntry } := by
  unfold enterShortPosition submitOrder
  simp [toUpper_eq_empty_iff, hpair, hm, hok]

theorem enterLongPosition_of_failure (gw : Gateway) (t : Trader) (price : ℚ)
    (hfail : supportedMarket t.config.Market = false ∨ ∀ o, gw t.orders o = false) :
    (enterLongPosition gw t price).position = t.position := by
  unfold enterLongPosition submitOrder
  by_cases hm : supportedMarket t.config.Market = true
  · have h : ∀ o, gw t.orders o = false := by
      rcases hfail with h | h
      · rw [hm] at h; exact absurd h (by decide)
      · exact h
    simp only [hm, h]
    split_ifs <;> simp_all [Trader.position]
  · simp only [hm]
    split_ifs <;> simp_all [Trader.position]

theorem enterShortPosition_of_failure (gw : Gateway) (t : Trader) (price : ℚ)
    (hfail : supportedMarket t.config.Market = false ∨ ∀ o, gw t.orders o = false) :
    (enterShortPosition gw t price).position = t.position := by
  unfold enterShortPosition submitOrder
  by_cases hm : supportedMarket t.config.Market = true
  · have h : ∀ o, gw t.orders o = false := by
      rcases hfail with h | h
      · rw [hm] at h; exact absurd h (by decide)
      · exact h
    simp only [hm, h]
    split_ifs <;> simp_all [Trader.position]
  · simp only [hm]
    split_ifs <;> simp_all [Trader.position]

theorem closePosition_of_success (gw : Gateway) (t : Trader)
    (hm : supportedMarket t.config.Market = true)
    (hok : gw t.orders (Order.mk t.config.Market t.config.Pair
      (if t.isLong then Side.Sell else Side.Buy)
      (sprintf8 (fdiv t.currentSize t.entryPrice))) = true) :
    closePosition gw t =
      { t with
        orders := t.orders ++ [Order.mk t.config.Market t.config.Pair
          (if t.isLong then Side.Sell else Side.Buy)
          (sprintf8 (fdiv t.currentSize t.entryPrice))],
        currentSize := 0,
        state := if t.state = TraderState.InitialEntry then TraderState.SecondaryEntry
                 else TraderState.Idle } := by
  unfold closePosition PlaceMarketOrder submitOrder
  simp only [hm, if_true, hok]
  split_ifs <;> simp_all

theorem closePosition_of_failure (gw : Gateway) (t : Trader)
    (hfail : supportedMarket t.config.Market = false ∨ ∀ o, gw t.orders o = false) :
    (closePosition gw t).position = t.position ∧ (closePosition gw t).config = t.config ∧
      ((closePosition gw t).orders = t.orders ∨
        ∃ o, (closePosition gw t).orders = t.orders ++ [o]) := by
  unfold closePosition PlaceMarketOrder submitOrder
  rcases hfail with h | h
  · simp [h, Trader.position]
  · by_cases hm : supportedMarket t.config.Market = true
    · simp [hm, h, Trader.position]
    · simp [hm, Trader.position]

/-! ### C2 -/

theorem handleLongPosition_of_adverse (gw : Gateway) (t : Trader) (price : ℚ)
    (hp : 0 < t.entryPrice) (hadv : (price - t.entryPrice) / t.entryPrice ≤ -(1 / 100)) :
    handleLongPosition gw t price = enterShortPosition gw (closePosition gw t) price := by
  unfold handleLongPosition
  have h4 : ¬ ((4 : ℚ) / 100 ≤ (price - t.entryPrice) / t.entryPrice) := by
    intro h; linarith
  have h3 : ¬ ((3 : ℚ) / 100 ≤ (price - t.entryPrice) / t.entryPrice) := by
    intro h; linarith
  have h2 : ¬ ((2 : ℚ) / 100 ≤ (price - t.entryPrice) / t.entryPrice) := by
    intro h; linarith
  have h1 : ¬ ((1 : ℚ) / 100 ≤ (price - t.entryPrice) / t.entryPrice) := by
    intro h; linarith
  simp only [fdiv_of_ne _ _ (ne_of_gt hp), F64.ge, F64.le, decide_eq_true_eq, h4, h3, h2, h1,
    hadv, if_true, if_false]

theorem handleShortPosition_of_adverse (gw : Gateway) (t : Trader) (price : ℚ)
    (hp : 0 < t.entryPrice) (hadv : (t.entryPrice - price) / t.entryPrice ≤ -(1 / 100)) :
    handleShortPosition gw t price = enterLongPosition gw (closePosition gw t) price := by
  unfold handleShortPosition
  have h4 : ¬ ((4 : ℚ) / 100 ≤ (t.entryPrice - price) / t.entryPrice) := by
    intro h; linarith
  have h3 : ¬ ((3 : ℚ) / 100 ≤ (t.entryPrice - price) / t.entryPrice) := by
    intro h; linarith
  have h2 : ¬ ((2 : ℚ) / 100 ≤ (t.entryPrice - price) / t.entryPrice) := by
    intro h; linarith
  have h1 : ¬ ((1 : ℚ) / 100 ≤ (t.entryPrice - price) / t.entryPrice) := by
    intro h; linarith
  simp only [fdiv_of_ne _ _ (ne_of_gt hp), F64.ge, F64.le, decide_eq_true_eq, h4, h3, h2, h1,
    hadv, if_true, if_false]

/-- What the code does on the adverse tick of a long position in InitialEntry when both
orders succeed: the close sets SecondaryEntry, the entry that follows sets InitialEntry. -/
theorem adverse_flip_of_long (gw : Gateway) (t : Trader) (price : ℚ)
    (hl : t.isLong = true) (hp : 0 < t.entryPrice)
    (hadv : (price - t.entryPrice) / t.entryPrice ≤ -(1 / 100))
    (hpair : t.config.Pair ≠ "") (hm : supportedMarket t.config.Market = true)
    (hok : ∀ h o, gw h o = true) :
    (handleInitialEntryState gw t price).position =
      { phase := TraderState.InitialEntry, isLong := false, entryPrice := price,
        entrySize := t.config.MaxPosition, currentSize := t.config.MaxPosition } := by
  unfold handleInitialEntryState
  have hcfg : (closePosition gw t).config = t.config := by
    rw [closePosition_of_success gw t hm (hok _ _)]
  rw [if_pos hl, handleLongPosition_of_adverse gw t price hp hadv,
    enterShortPosition_of_success gw (closePosition gw t) price (by rw [hcfg]; exact hpair)
      (by rw [hcfg]; exact hm) (hok _ _)]
  simp [Trader.position, hcfg]

/-- C2 (evaluation of the code): a long position opened at 100 in InitialEntry, tick at
price 99 with both orders accepted.  The tick ends in InitialEntry, not in SecondaryEntry,
with a short of the configured notional at price 99; the mirrored short position ends in
InitialEntry as a long. -/
theorem C2_flip_ends_in_InitialEntry :
    (tick noParser acceptAll sampleLong 99).position =
      { phase := TraderState.InitialEntry, isLong := false, entryPrice := 99,
        entrySize := 100, currentSize := 100 } ∧
    (tick noParser acceptAll sampleShort 101).position =
      { phase := TraderState.InitialEntry, isLong := true, entryPrice := 101,
        entrySize := 100, currentSize := 100 } := by
  constructor
  · simp [tick, handleInitialEntryState, handleLongPosition, sampleLong, sampleConfig, fdiv,
      F64.ge, F64.le, closePosition, enterShortPosition, PlaceMarketOrder, submitOrder,
      acceptAll, supportedMarket, Trader.position, toUpper_eq_empty_iff]
    norm_num
  · simp [tick, handleInitialEntryState, handleShortPosition, sampleShort, sampleLong,
      sampleConfig, fdiv, F64.ge, F64.le, closePosition, enterLongPosition, PlaceMarketOrder,
      submitOrder, acceptAll, supportedMarket, Trader.position, toUpper_eq_empty_iff]
    norm_num

/-! ### C3 -/

/-- C3 (evaluation of the code): the close order is rejected on an adverse tick.  In
SecondaryEntry the phase still becomes Idle while `currentSize` stays 50; in InitialEntry the
entry order that follows is accepted and replaces direction, entry price and sizes. -/
theorem C3_failed_close_changes_state :
    (tick noParser rejectAll sampleSecondaryLong 99).position =
      { phase := TraderState.Idle, isLong := true, entryPrice := 100,
        entrySize := 100, currentSize := 50 } ∧
    sampleSecondaryLong.position =
      { phase := TraderState.SecondaryEntry, isLong := true, entryPrice := 100,
        entrySize := 100, currentSize := 50 } ∧
    (tick noParser rejectFirst sampleLastSlice 99).position =
      { phase := TraderState.InitialEntry, isLong := false, entryPrice := 99,
        entrySize := 100, currentSize := 100 } ∧
    sampleLastSlice.position =
      { phase := TraderState.InitialEntry, isLong := true, entryPrice := 100,
        entrySize := 100, currentSize := 25 } := by
  refine ⟨?_, ?_, ?_, ?_⟩
  · simp [tick, handleSecondaryEntryState, handleSecondaryLongPosition, sampleSecondaryLong,
      sampleLong, sampleConfig, fdiv, F64.ge, F64.le, closePosition, PlaceMarketOrder,
      submitOrder, rejectAll, supportedMarket, Trader.position]
    norm_num
  · simp [sampleSecondaryLong, sampleLong, Trader.position]
  · simp [tick, handleInitialEntryState, handleLongPosition, sampleLastSlice, sampleLong,
      sampleConfig, fdiv, F64.ge, F64.le, closePosition, enterShortPosition, PlaceMarketOrder,
      submitOrder, rejectFirst, supportedMarket, Trader.position, toUpper_eq_empty_iff]
    norm_num
  · simp [sampleLastSlice, sampleLong, Trader.position]

/-! ### C4 -/

theorem handleIdleState_of_failure (pf : FloatParser) (gw : Gateway) (t : Trader) (price : ℚ)
    (hfail : supportedMarket t.config.Market = false ∨ ∀ o, gw t.orders o = false) :
    (handleIdleState pf gw t price).position = t.position := by
  unfold handleIdleState
  simp only []
  split_ifs
  all_goals first
    | rfl
    | exact enterLongPosition_of_failure gw t price hfail
    | exact enterShortPosition_of_failure gw t price hfail

theorem F64.ge_mono (x : F64) (c d : ℚ) (hcd : c ≤ d) (h : x.ge d = true) : x.ge c = true := by
  cases x <;> simp_all [F64.ge]
  exact le_trans hcd h

theorem handleSecondaryEntryState_of_ge_two (gw : Gateway) (t : Trader) (price : ℚ)
    (h : (priceDiff t price).ge (2 / 100) = true) :
    handleSecondaryEntryState gw t price = reducePosition gw t (25 / 100) := by
  unfold handleSecondaryEntryState
  unfold priceDiff at h
  cases hl : t.isLong
  · rw [hl] at h
    simp only [Bool.false_eq_true, if_false] at h ⊢
    unfold handleSecondaryShortPosition
    simp only [h, if_true]
    split_ifs <;> rfl
  · rw [hl] at h
    simp only [if_true] at h ⊢
    unfold handleSecondaryLongPosition
    simp only [h, if_true]
    split_ifs <;> rfl

theorem handleSecondaryEntryState_of_ge_one_lt_two (gw : Gateway) (t : Trader) (price : ℚ)
    (h1 : (priceDiff t price).ge (1 / 100) = true)
    (h2 : (priceDiff t price).ge (2 / 100) = false) :
    handleSecondaryEntryState gw t price = reducePosition gw t (5 / 10) := by
  have h3 : (priceDiff t price).ge (3 / 100) = false := by
    cases h : (priceDiff t price).ge (3 / 100)
    · rfl
    · rw [F64.ge_mono _ (2 / 100) (3 / 100) (by norm_num) h] at h2
      exact absurd h2 (by decide)
  unfold handleSecondaryEntryState
  unfold priceDiff at h1 h2 h3
  cases hl : t.isLong
  · rw [hl] at h1 h2 h3
    simp only [Bool.false_eq_true, if_false] at h1 h2 h3 ⊢
    unfold handleSecondaryShortPosition
    simp only [h1, h2, h3, if_true, Bool.false_eq_true, if_false]
  · rw [hl] at h1 h2 h3
    simp only [if_true] at h1 h2 h3 ⊢
    unfold handleSecondaryLongPosition
    simp only [h1, h2, h3, if_true, Bool.false_eq_true, if_false]

/-- C4: when the order of the tick fails (the market has no order client, or the exchange
rejects the order), an Idle tick and a favorable-move tick (move at least 1%) in InitialEntry
or in SecondaryEntry leave the whole position state (phase, direction, entry price, entry
size, current size) as it was. -/
theorem C4_failed_order_keeps_state (pf : FloatParser) (gw : Gateway) (t : Trader) (price : ℚ)
    (hfail : supportedMarket t.config.Market = false ∨ ∀ o, gw t.orders o = false) :
    (t.state = TraderState.Idle → (tick pf gw t price).position = t.position) ∧
    (t.state = TraderState.InitialEntry → (priceDiff t price).ge (1 / 100) = true →
      (tick pf gw t price).position = t.position) ∧
    (t.state = TraderState.SecondaryEntry → (priceDiff t price).ge (1 / 100) = true →
      (tick pf gw t price).position = t.position) := by
  refine ⟨?_, ?_, ?_⟩
  · intro hs
    unfold tick
    rw [hs]
    exact handleIdleState_of_failure pf gw t price hfail
  · intro hs hfav
    unfold tick
    rw [hs]
    simp only []
    rw [handleInitialEntryState_of_favorable gw t price hfav]
    exact reducePosition_of_failure gw t _ hfail
  · intro hs hfav
    unfold tick
    rw [hs]
    simp only []
    cases h2 : (priceDiff t price).ge (2 / 100)
    · rw [handleSecondaryEntryState_of_ge_one_lt_two gw t price hfav h2]
      exact reducePosition_of_failure gw t _ hfail
    · rw [handleSecondaryEntryState_of_ge_two gw t price h2]
      exact reducePosition_of_failure gw t _ hfail

/-- Witness for C4: the three sample traders against an exchange that rejects every order. -/
theorem C4_failed_order_keeps_state_witness :
    (tick noParser rejectAll sampleIdle 100).position = sampleIdle.position ∧
    (tick noParser rejectAll sampleLong 101).position = sampleLong.position ∧
    (tick noParser rejectAll sampleSecondaryLong 101).position =
      sampleSecondaryLong.position := by
  refine ⟨?_, ?_, ?_⟩
  · exact (C4_failed_order_keeps_state noParser rejectAll sampleIdle 100
      (Or.inr (fun _ => rfl))).1 rfl
  · exact (C4_failed_order_keeps_state noParser rejectAll sampleLong 101
      (Or.inr (fun _ => rfl))).2.1 rfl
      (by norm_num [priceDiff, sampleLong, fdiv, F64.ge])
  · exact (C4_failed_order_keeps_state noParser rejectAll sampleSecondaryLong 101
      (Or.inr (fun _ => rfl))).2.2 rfl
      (by norm_num [priceDiff, sampleSecondaryLong, sampleLong, fdiv, F64.ge])

/-! ### C7 -/

/-- C7: for every state and every fraction, a successful `reducePosition` subtracts
`min (fraction * entrySize) currentSize` from `currentSize`; that amount is at most
`currentSize`, so the resulting `currentSize` is never negative. -/
theorem C7_reduce_capped_at_remaining (gw : Gateway) (t : Trader) (fraction : ℚ)
    (hm : supportedMarket t.config.Market = true)
    (hok : gw t.orders (Order.mk t.config.Market t.config.Pair
      (if t.isLong then Side.Sell else Side.Buy)
      (sprintf8 (fdiv (min (fraction * t.entrySize) t.currentSize) t.entryPrice))) = true) :
    (reducePosition gw t fraction).currentSize =
        t.currentSize - min (fraction * t.entrySize) t.currentSize ∧
      min (fraction * t.entrySize) t.currentSize ≤ t.currentSize ∧
      0 ≤ (reducePosition gw t fraction).currentSize := by
  rw [← reduceSizeOf_eq_min] at hok ⊢
  rw [reducePosition_of_success gw t _ hm hok]
  have hle : reduceSizeOf t fraction ≤ t.currentSize := by
    rw [reduceSizeOf_eq_min]; exact min_le_right _ _
  refine ⟨rfl, hle, ?_⟩
  show 0 ≤ t.currentSize - reduceSizeOf t fraction
  linarith

/-- Witness for C7: half of the entry size asked from a position with a quarter left. -/
theorem C7_reduce_capped_at_remaining_witness :
    (reducePosition acceptAll sampleLastSlice (1 / 2)).currentSize = 0 := by
  have h := (C7_reduce_capped_at_remaining acceptAll sampleLastSlice (1 / 2) (by decide) rfl).1
  rw [h]
  norm_num [sampleLastSlice, sampleLong]

/-! ### C8 -/

theorem tick_of_Idle (pf : FloatParser) (gw : Gateway) (t : Trader) (price : ℚ)
    (hs : t.state = TraderState.Idle) : tick pf gw t price = handleIdleState pf gw t price := by
  unfold tick; rw [hs]

theorem tick_of_InitialEntry (pf : FloatParser) (gw : Gateway) (t : Trader) (price : ℚ)
    (hs : t.state = TraderState.InitialEntry) :
    tick pf gw t price = handleInitialEntryState gw t price := by
  unfold tick; rw [hs]

theorem tick_of_SecondaryEntry (pf : FloatParser) (gw : Gateway) (t : Trader) (price : ℚ)
    (hs : t.state = TraderState.SecondaryEntry) :
    tick pf gw t price = handleSecondaryEntryState gw t price := by
  unfold tick; rw [hs]

theorem enterLongPosition_state (gw : Gateway) (t : Trader) (price : ℚ) :
    (enterLongPosition gw t price).state = t.state ∨
      (enterLongPosition gw t price).state = TraderState.InitialEntry := by
  unfold enterLongPosition submitOrder
  simp only []
  split_ifs <;> simp

theorem enterShortPosition_state (gw : Gateway) (t : Trader) (price : ℚ) :
    (enterShortPosition gw t price).state = t.state ∨
      (enterShortPosition gw t price).state = TraderState.InitialEntry := by
  unfold enterShortPosition submitOrder
  simp only []
  split_ifs <;> simp

theorem handleIdleState_state (pf : FloatParser) (gw : Gateway) (t : Trader) (price : ℚ) :
    (handleIdleState pf gw t price).state = t.state ∨
      (handleIdleState pf gw t price).state = TraderState.InitialEntry := by
  unfold handleIdleState
  simp only []
  split_ifs
  all_goals first
    | exact Or.inl rfl
    | exact enterLongPosition_state gw t price
    | exact enterShortPosition_state gw t price

/-- C8 (the claim fails): a long position with the last 25 of 100 left, tick at 101 with
the order accepted.  The reduction brings `currentSize` to 0 and the same tick ends in Idle;
the next tick at the same price opens a new position and ends in InitialEntry, so the
machine does not pass to SecondaryEntry. -/
theorem C8_counterexample :
    (tick noParser acceptAll sampleLastSlice 101).position =
      { phase := TraderState.Idle, isLong := true, entryPrice := 100,
        entrySize := 100, currentSize := 0 } ∧
    (tick noParser acceptAll (tick noParser acceptAll sampleLastSlice 101) 101).position =
      { phase := TraderState.InitialEntry, isLong := true, entryPrice := 101,
        entrySize := 100, currentSize := 100 } ∧
    (tick noParser acceptAll (tick noParser acceptAll sampleLastSlice 101) 101).state ≠
      TraderState.SecondaryEntry := by
  have h1 : tick noParser acceptAll sampleLastSlice 101 =
      { sampleLastSlice with
        state := TraderState.Idle, currentSize := 0,
        orders := [Order.mk "spot" "BTCUSDT" Side.Sell
          (sprintf8 (fdiv (reduceSizeOf sampleLastSlice (25 / 100)) 100))] } := by
    have hr : reduceSizeOf sampleLastSlice (25 / 100) = 25 := by
      norm_num [reduceSizeOf, sampleLastSlice, sampleLong]
    simp [tick, handleInitialEntryState, handleLongPosition, sampleLastSlice, sampleLong,
      sampleConfig, fdiv, F64.ge, reducePosition, PlaceMarketOrder, submitOrder, acceptAll,
      supportedMarket, hr]
    norm_num [reduceSizeOf]
  have h2 : (tick noParser acceptAll (tick noParser acceptAll sampleLastSlice 101) 101).position =
      { phase := TraderState.InitialEntry, isLong := true, entryPrice := 101,
        entrySize := 100, currentSize := 100 } := by
    rw [h1]
    simp [tick, handleIdleState, enterLongPosition, sampleLastSlice, sampleLong, sampleConfig,
      submitOrder, acceptAll, supportedMarket, Trader.position, toUpper_eq_empty_iff]
    norm_num
  refine ⟨?_, h2, ?_⟩
  · rw [h1]
    simp [Trader.position, sampleLastSlice, sampleLong]
  · have h3 := congrArg PositionState.phase h2
    simp only [Trader.position] at h3
    rw [h3]
    decide

/-- C8 (amended): when a reduction in InitialEntry (entry price positive, favorable move at
least 1%, order accepted) takes the whole remaining size (`currentSize` at most a quarter of
`entrySize`), that same tick ends in Idle with `currentSize = 0`; the next tick, whatever
its price and whatever the exchange answers, is an Idle tick and ends in Idle or in
InitialEntry, never in SecondaryEntry. -/
theorem C8_last_reduction_ends_in_Idle (pf : FloatParser) (gw gw2 : Gateway) (t : Trader)
    (price price2 : ℚ)
    (hs : t.state = TraderState.InitialEntry)
    (hp : 0 < t.entryPrice)
    (hfav : 1 / 100 ≤ (if t.isLong then (price - t.entryPrice) / t.entryPrice
                        else (t.entryPrice - price) / t.entryPrice))
    (hm : supportedMarket t.config.Market = true)
    (hok : gw t.orders (Order.mk t.config.Market t.config.Pair
      (if t.isLong then Side.Sell else Side.Buy)
      (sprintf8 (fdiv (min (25 / 100 * t.entrySize) t.currentSize) t.entryPrice))) = true)
    (hlast : t.currentSize ≤ 25 / 100 * t.entrySize) :
    (tick pf gw t price).state = TraderState.Idle ∧
      (tick pf gw t price).currentSize = 0 ∧
      ((tick pf gw2 (tick pf gw t price) price2).state = TraderState.Idle ∨
        (tick pf gw2 (tick pf gw t price) price2).state = TraderState.InitialEntry) ∧
      (tick pf gw2 (tick pf gw t price) price2).state ≠ TraderState.SecondaryEntry := by
  have htick : tick pf gw t price = handleInitialEntryState gw t price := by
    unfold tick; rw [hs]
  have hmin : min (25 / 100 * t.entrySize) t.currentSize = t.currentSize := min_eq_right hlast
  have hred : reduceSizeOf t (25 / 100) = t.currentSize := by
    rw [reduceSizeOf_eq_min, hmin]
  have hst : (tick pf gw t price).state = TraderState.Idle := by
    rw [htick, handleInitialEntryState_of_favorable gw t price
      (priceDiff_ge_of_pos t price _ hp hfav)]
    rw [← reduceSizeOf_eq_min] at hok
    rw [reducePosition_of_success gw t _ hm hok]
    simp [hred]
  have hsz : (tick pf gw t price).currentSize = 0 := by
    rw [htick, handleInitialEntryState_of_favorable gw t price
      (priceDiff_ge_of_pos t price _ hp hfav)]
    rw [← reduceSizeOf_eq_min] at hok
    rw [reducePosition_of_success gw t _ hm hok]
    simp [hred]
  have hnext : (tick pf gw2 (tick pf gw t price) price2).state = TraderState.Idle ∨
      (tick pf gw2 (tick pf gw t price) price2).state = TraderState.InitialEntry := by
    have h := handleIdleState_state pf gw2 (tick pf gw t price) price2
    rw [hst] at h
    rw [tick_of_Idle pf gw2 _ price2 hst]
    exact h
  refine ⟨hst, hsz, hnext, ?_⟩
  rcases hnext with h | h <;> rw [h] <;> decide

/-- Witness for the amended C8: the last slice of the sample long position. -/
theorem C8_last_reduction_ends_in_Idle_witness :
    (tick noParser acceptAll sampleLastSlice 101).state = TraderState.Idle ∧
    (tick noParser acceptAll (tick noParser acceptAll sampleLastSlice 101) 99).state ≠
      TraderState.SecondaryEntry := by
  have h := C8_last_reduction_ends_in_Idle noParser acceptAll acceptAll sampleLastSlice 101 99
    rfl (by norm_num [sampleLastSlice, sampleLong]) (by norm_num [sampleLastSlice, sampleLong])
    (by decide) rfl (by norm_num [sampleLastSlice, sampleLong])
  exact ⟨h.1, h.2.2.2⟩

/-! ### C9 -/

/-- C9: on an Idle tick with a non-empty pair, a positive price and an accepted order, a
position is opened when the entry signal is "market" or when it parses as a limit price `P`
with (long and `price ≤ P`) or (short and `price ≥ P`): exactly one order is submitted (buy
for long, sell for short) and the result is InitialEntry with `entryPrice = price`,
`entrySize = currentSize = MaxPosition` and `isLong` unchanged.  When the signal is not
"market" and either does not parse or the limit condition fails, no order is placed and
the trader is unchanged. -/
theorem C9_idle_entry (pf : FloatParser) (gw : Gateway) (t : Trader) (price : ℚ)
    (hs : t.state = TraderState.Idle) (hpair : t.config.Pair ≠ "") (hprice : 0 < price)
    (hm : supportedMarket t.config.Market = true)
    (hok : gw t.orders (Order.mk t.config.Market (toUpper t.config.Pair)
      (if t.isLong then Side.Buy else Side.Sell)
      (formatQuantity (fdiv t.config.MaxPosition price))) = true) :
    ((t.config.EntrySignal = "market" ∨
        ((pf t.config.EntrySignal).2 = false ∧
          ((t.isLong = true ∧ price ≤ (pf t.config.EntrySignal).1) ∨
            (t.isLong = false ∧ (pf t.config.EntrySignal).1 ≤ price)))) →
      (tick pf gw t price).position =
          { phase := TraderState.InitialEntry, isLong := t.isLong, entryPrice := price,
            entrySize := t.config.MaxPosition, currentSize := t.config.MaxPosition } ∧
        (tick pf gw t price).orders =
          t.orders ++ [Order.mk t.config.Market (toUpper t.config.Pair)
            (if t.isLong then Side.Buy else Side.Sell)
            (formatQuantity (fdiv t.config.MaxPosition price))]) ∧
    ((t.config.EntrySignal ≠ "market" ∧
        ((pf t.config.EntrySignal).2 = true ∨
          ¬ ((t.isLong = true ∧ price ≤ (pf t.config.EntrySignal).1) ∨
            (t.isLong = false ∧ (pf t.config.EntrySignal).1 ≤ price)))) →
      tick pf gw t price = t) := by
  rw [tick_of_Idle pf gw t price hs]
  have hlong : t.isLong = true →
      (enterLongPosition gw t price).position =
          { phase := TraderState.InitialEntry, isLong := t.isLong, entryPrice := price,
            entrySize := t.config.MaxPosition, currentSize := t.config.MaxPosition } ∧
        (enterLongPosition gw t price).orders =
          t.orders ++ [Order.mk t.config.Market (toUpper t.config.Pair)
            (if t.isLong then Side.Buy else Side.Sell)
            (formatQuantity (fdiv t.config.MaxPosition price))] := by
    intro hl
    rw [hl] at hok
    rw [enterLongPosition_of_success gw t price hpair hprice hm (by simpa using hok)]
    simp [Trader.position, hl]
  have hshort : t.isLong = false →
      (enterShortPosition gw t price).position =
          { phase := TraderState.InitialEntry, isLong := t.isLong, entryPrice := price,
            entrySize := t.config.MaxPosition, currentSize := t.config.MaxPosition } ∧
        (enterShortPosition gw t price).orders =
          t.orders ++ [Order.mk t.config.Market (toUpper t.config.Pair)
            (if t.isLong then Side.Buy else Side.Sell)
            (formatQuantity (fdiv t.config.MaxPosition price))] := by
    intro hl
    rw [hl] at hok
    rw [enterShortPosition_of_success gw t price hpair hm (by simpa using hok)]
    simp [Trader.position, hl]
  constructor
  · intro h
    unfold handleIdleState
    by_cases hsig : t.config.EntrySignal = "market"
    · rw [if_pos hsig]
      cases hl : t.isLong
      · simpa [hl] using hshort hl
      · simpa [hl] using hlong hl
    · rw [if_neg hsig]
      rcases h with h | ⟨herr, hcond⟩
      · exact absurd h hsig
      · simp only [herr, Bool.false_eq_true, if_false]
        rcases hcond with ⟨hl, hle⟩ | ⟨hl, hle⟩
        · rw [if_pos ⟨hl, hle⟩]
          exact hlong hl
        · have hn : ¬ (t.isLong = true ∧ price ≤ (pf t.config.EntrySignal).1) := by
            rintro ⟨h1, -⟩
            rw [hl] at h1
            exact absurd h1 (by decide)
          rw [if_neg hn, if_pos ⟨by simp [hl], hle⟩]
          exact hshort hl
  · rintro ⟨hsig, h⟩
    unfold handleIdleState
    rw [if_neg hsig]
    rcases h with herr | hcond
    · simp [herr]
    · by_cases herr : (pf t.config.EntrySignal).2 = true
      · simp [herr]
      · have hn1 : ¬ (t.isLong = true ∧ price ≤ (pf t.config.EntrySignal).1) :=
          fun h => hcond (Or.inl h)
        have hn2 : ¬ (¬ t.isLong = true ∧ price ≥ (pf t.config.EntrySignal).1) := by
          rintro ⟨h1, h2⟩
          exact hcond (Or.inr ⟨by simpa using h1, h2⟩)
        simp only []
        rw [if_neg herr, if_neg hn1, if_neg hn2]

/-- Witness for C9: a market entry at 99, and a long limit of 100 not reached at 101. -/
theorem C9_idle_entry_witness :
    (tick parser100 acceptAll sampleIdle 99).position =
      { phase := TraderState.InitialEntry, isLong := true, entryPrice := 99,
        entrySize := 100, currentSize := 100 } ∧
    tick parser100 acceptAll { sampleIdle with config := { sampleConfig with EntrySignal := "100" } }
        101 =
      { sampleIdle with config := { sampleConfig with EntrySignal := "100" } } := by
  constructor
  · exact ((C9_idle_entry parser100 acceptAll sampleIdle 99 rfl (by decide) (by norm_num)
      (by decide) rfl).1 (Or.inl rfl)).1
  · exact (C9_idle_entry parser100 acceptAll
      { sampleIdle with config := { sampleConfig with EntrySignal := "100" } } 101 rfl
      (by decide) (by norm_num) (by decide) rfl).2
      ⟨by decide, Or.inr (by norm_num [parser100, sampleIdle, NewTrader])⟩

/-! ### C10 -/

/-- C10: in SecondaryEntry with `entryPrice > 0`, a tick whose order is accepted lowers
`currentSize` by `min (0.25 * entrySize) currentSize` when the favorable move is at least
2%, and by `min (0.5 * entrySize) currentSize` when it is at least 1% and below 2%; the
phase becomes Idle if the new `currentSize` is `≤ 0` and stays SecondaryEntry otherwise. -/
theorem C10_secondary_favorable_reduces (gw : Gateway) (t : Trader) (price : ℚ)
    (hs : t.state = TraderState.SecondaryEntry)
    (hp : 0 < t.entryPrice)
    (hm : supportedMarket t.config.Market = true)
    (hok : ∀ q, gw t.orders (Order.mk t.config.Market t.config.Pair
      (if t.isLong then Side.Sell else Side.Buy) q) = true) :
    (2 / 100 ≤ (if t.isLong then (price - t.entryPrice) / t.entryPrice
                 else (t.entryPrice - price) / t.entryPrice) →
      (handleSecondaryEntryState gw t price).currentSize =
          t.currentSize - min (25 / 100 * t.entrySize) t.currentSize ∧
        (handleSecondaryEntryState gw t price).state =
          (if (handleSecondaryEntryState gw t price).currentSize ≤ 0 then TraderState.Idle
           else TraderState.SecondaryEntry)) ∧
    (1 / 100 ≤ (if t.isLong then (price - t.entryPrice) / t.entryPrice
                 else (t.entryPrice - price) / t.entryPrice) →
      (if t.isLong then (price - t.entryPrice) / t.entryPrice
        else (t.entryPrice - price) / t.entryPrice) < 2 / 100 →
      (handleSecondaryEntryState gw t price).currentSize =
          t.currentSize - min (5 / 10 * t.entrySize) t.currentSize ∧
        (handleSecondaryEntryState gw t price).state =
          (if (handleSecondaryEntryState gw t price).currentSize ≤ 0 then TraderState.Idle
           else TraderState.SecondaryEntry)) := by
  constructor
  · intro h2
    rw [handleSecondaryEntryState_of_ge_two gw t price (priceDiff_ge_of_pos t price _ hp h2)]
    rw [← reduceSizeOf_eq_min]
    rw [reducePosition_of_success gw t _ hm (hok _)]
    simp [hs]
  · intro h1 h2
    have hlt : (priceDiff t price).ge (2 / 100) = false := by
      unfold priceDiff
      cases hl : t.isLong <;> simp [hl] at h2 ⊢ <;>
        simp [fdiv_of_ne _ _ (ne_of_gt hp), F64.ge, h2]
    rw [handleSecondaryEntryState_of_ge_one_lt_two gw t price
      (priceDiff_ge_of_pos t price _ hp h1) hlt]
    rw [← reduceSizeOf_eq_min]
    rw [reducePosition_of_success gw t _ hm (hok _)]
    simp [hs]

/-- Witness for C10: the sample position in SecondaryEntry at the prices 102 and 101. -/
theorem C10_secondary_favorable_reduces_witness :
    (handleSecondaryEntryState acceptAll sampleSecondaryLong 102).currentSize = 25 ∧
    (handleSecondaryEntryState acceptAll sampleSecondaryLong 101).currentSize = 0 ∧
    (handleSecondaryEntryState acceptAll sampleSecondaryLong 101).state = TraderState.Idle := by
  have h := C10_secondary_favorable_reduces acceptAll sampleSecondaryLong 102 rfl
    (by norm_num [sampleSecondaryLong, sampleLong]) (by decide) (fun _ => rfl)
  have h' := C10_secondary_favorable_reduces acceptAll sampleSecondaryLong 101 rfl
    (by norm_num [sampleSecondaryLong, sampleLong]) (by decide) (fun _ => rfl)
  have ha := h.1 (by norm_num [sampleSecondaryLong, sampleLong])
  have hb := h'.2 (by norm_num [sampleSecondaryLong, sampleLong])
    (by norm_num [sampleSecondaryLong, sampleLong])
  refine ⟨?_, ?_, ?_⟩
  · rw [ha.1]; norm_num [sampleSecondaryLong, sampleLong]
  · rw [hb.1]; norm_num [sampleSecondaryLong, sampleLong]
  · rw [hb.2, hb.1]; norm_num [sampleSecondaryLong, sampleLong]

/-! ### C5 -/

theorem hasSuffix_depth_100ms (a : String) :
    hasSuffix (a ++ "@depth10@100ms") "@trade" = false ∧
    hasSuffix (a ++ "@depth10@100ms") "@aggTrade" = false ∧
    hasSuffix (a ++ "@depth10@100ms") "@depth10" = false := by
  simp [hasSuffix, List.isSuffixOf, String.data_append, List.isPrefixOf]

/-- C5 (evaluation of the code): for the markets "usdm" and "coinm" and every pair,
`getStreams` subscribes to the stream `<pair>@depth10@100ms`, and `processMessage` takes the
default branch for that name whatever the message: the store is left as it was.  The same
well-formed depth message is applied when it arrives under the spot name `<pair>@depth10`. -/
theorem C5_derivative_depth_stream_dropped (pf : FloatParser) (pair signal : String)
    (maxPosition : ℚ) (ds : DataStore) (data : JMap) :
    getStreams (Config.mk pair "usdm" signal maxPosition) =
        [toLower pair ++ "@aggTrade", toLower pair ++ "@depth10@100ms"] ∧
      processMessage pf (Config.mk pair "usdm" signal maxPosition) ds
        (toLower pair ++ "@depth10@100ms") data = some ds ∧
      getStreams (Config.mk pair "coinm" signal maxPosition) =
        [toLower pair ++ "@aggTrade", toLower pair ++ "@depth10@100ms"] ∧
      processMessage pf (Config.mk pair "coinm" signal maxPosition) ds
        (toLower pair ++ "@depth10@100ms") data = some ds ∧
      processMessage parser100 sampleConfig NewDataStore "btcusdt@depth10" sampleDepth =
        some ⟨[("BTCUSDT",
          { MarketData.new "BTCUSDT" with LastUpdateID := 7, Bids := [(100, 100)] })]⟩ ∧
      processMessage parser100 { sampleConfig with Market := "usdm" } NewDataStore
        "btcusdt@depth10@100ms" sampleDepth = some NewDataStore := by
  obtain ⟨h1, h2, h3⟩ := hasSuffix_depth_100ms (toLower pair)
  refine ⟨by simp [getStreams], ?_, by simp [getStreams], ?_, ?_, ?_⟩
  · simp [processMessage, h1, h2, h3]
  · simp [processMessage, h1, h2, h3]
  · simp [processMessage, hasSuffix, List.isSuffixOf, List.isPrefixOf, UpdateDepth, sampleDepth,
      sampleConfig, NewDataStore, asFloat64, asSlice, parseOrders, parseOrder, List.lookup,
      snapshotOf, MarketData.new, upsert, toInt64, parser100, parseFloat, asStringOrEmpty]
  · simp [processMessage, hasSuffix, List.isSuffixOf, List.isPrefixOf]

/-! ### C6 -/

/-- C6 (evaluation of the code): a trade message without the field `p`, a depth message
with a one-element level and a depth message whose level is not an array each make the
store update fail its unchecked type assertion or index (a run-time panic, `none`), so
`processMessage` does not return normally on them. -/
theorem C6_malformed_message_panics :
    processMessage parser100 sampleConfig NewDataStore "btcusdt@trade" tradeWithoutPrice = none ∧
    processMessage parser100 sampleConfig NewDataStore "btcusdt@depth10" depthShortLevel = none ∧
    processMessage parser100 sampleConfig NewDataStore "btcusdt@depth10" depthScalarLevel = none ∧
    processMessage parser100 sampleConfig NewDataStore "btcusdt@aggTrade" [] = none := by
  refine ⟨?_, ?_, ?_, ?_⟩
  · simp [processMessage, hasSuffix, List.isSuffixOf, List.isPrefixOf, UpdateTrade,
      tradeWithoutPrice, asFloat64, asString, List.lookup]
  · simp [processMessage, hasSuffix, List.isSuffixOf, List.isPrefixOf, UpdateDepth,
      depthShortLevel, asFloat64, asSlice, parseOrders, parseOrder, List.lookup]
  · simp [processMessage, hasSuffix, List.isSuffixOf, List.isPrefixOf, UpdateDepth,
      depthScalarLevel, asFloat64, asSlice, parseOrders, parseOrder, List.lookup]
  · simp [processMessage, hasSuffix, List.isSuffixOf, List.isPrefixOf, UpdateAggTrade,
      asFloat64, List.lookup]

/-! ### C11 -/

theorem handleSecondaryEntryState_of_adverse (gw : Gateway) (t : Trader) (price : ℚ)
    (hp : 0 < t.entryPrice)
    (hadv : (if t.isLong then (price - t.entryPrice) / t.entryPrice
             else (t.entryPrice - price) / t.entryPrice) ≤ -(1 / 100)) :
    handleSecondaryEntryState gw t price =
      { closePosition gw t with state := TraderState.Idle } := by
  unfold handleSecondaryEntryState
  cases hl : t.isLong
  · rw [hl] at hadv
    simp only [Bool.false_eq_true, if_false] at hadv ⊢
    unfold handleSecondaryShortPosition
    have h3 : ¬ ((3 : ℚ) / 100 ≤ (t.entryPrice - price) / t.entryPrice) := by
      intro h; linarith
    have h2 : ¬ ((2 : ℚ) / 100 ≤ (t.entryPrice - price) / t.entryPrice) := by
      intro h; linarith
    have h1 : ¬ ((1 : ℚ) / 100 ≤ (t.entryPrice - price) / t.entryPrice) := by
      intro h; linarith
    simp only [fdiv_of_ne _ _ (ne_of_gt hp), F64.ge, F64.le, decide_eq_true_eq, h3, h2, h1,
      hadv, if_true, if_false]
  · rw [hl] at hadv
    simp only [if_true] at hadv ⊢
    unfold handleSecondaryLongPosition
    have h3 : ¬ ((3 : ℚ) / 100 ≤ (price - t.entryPrice) / t.entryPrice) := by
      intro h; linarith
    have h2 : ¬ ((2 : ℚ) / 100 ≤ (price - t.entryPrice) / t.entryPrice) := by
      intro h; linarith
    have h1 : ¬ ((1 : ℚ) / 100 ≤ (price - t.entryPrice) / t.entryPrice) := by
      intro h; linarith
    simp only [fdiv_of_ne _ _ (ne_of_gt hp), F64.ge, F64.le, decide_eq_true_eq, h3, h2, h1,
      hadv, if_true, if_false]

/-- C11: in SecondaryEntry with `entryPrice > 0`, a tick at a price whose move is at most
-1% and whose close order is accepted submits exactly one market order, for the whole
remaining size `currentSize / entryPrice` (sell for a long, buy for a short), sets
`currentSize` to 0 and the phase to Idle; `entryPrice`, `entrySize`, `isLong` and the
configuration are unchanged and no second order is submitted. -/
theorem C11_secondary_adverse_closes (pf : FloatParser) (gw : Gateway) (t : Trader) (price : ℚ)
    (hs : t.state = TraderState.SecondaryEntry)
    (hp : 0 < t.entryPrice)
    (hadv : (if t.isLong then (price - t.entryPrice) / t.entryPrice
             else (t.entryPrice - price) / t.entryPrice) ≤ -(1 / 100))
    (hm : supportedMarket t.config.Market = true)
    (hok : gw t.orders (Order.mk t.config.Market t.config.Pair
      (if t.isLong then Side.Sell else Side.Buy)
      (sprintf8 (fdiv t.currentSize t.entryPrice))) = true) :
    tick pf gw t price =
      { t with
        orders := t.orders ++ [Order.mk t.config.Market t.config.Pair
          (if t.isLong then Side.Sell else Side.Buy)
          (sprintf8 (fdiv t.currentSize t.entryPrice))],
        currentSize := 0,
        state := TraderState.Idle } := by
  rw [tick_of_SecondaryEntry pf gw t price hs,
    handleSecondaryEntryState_of_adverse gw t price hp hadv,
    closePosition_of_success gw t hm hok]

/-- Witness for C11: the sample position in SecondaryEntry at the price 99. -/
theorem C11_secondary_adverse_closes_witness :
    (tick noParser acceptAll sampleSecondaryLong 99).position =
      { phase := TraderState.Idle, isLong := true, entryPrice := 100,
        entrySize := 100, currentSize := 0 } ∧
    (tick noParser acceptAll sampleSecondaryLong 99).orders.length = 1 := by
  have h := C11_secondary_adverse_closes noParser acceptAll sampleSecondaryLong 99 rfl
    (by norm_num [sampleSecondaryLong, sampleLong])
    (by norm_num [sampleSecondaryLong, sampleLong]) (by decide) rfl
  rw [h]
  simp [Trader.position, sampleSecondaryLong, sampleLong]

/-! ### C15 -/

theorem fixed8_quarter : fixed8 (25 / 100) = "0.25000000" := by
  have h : |(25 : ℚ) / 100| * 100000000 = ((25000000 : ℕ) : ℚ) := by
    rw [abs_of_nonneg (by norm_num)]; norm_num
  have hr : roundHalfEven (|(25 : ℚ) / 100| * 100000000) = 25000000 := by
    rw [h]
    simp [roundHalfEven]
  have hd : Nat.toDigits 10 25000000 = ['2', '5', '0', '0', '0', '0', '0', '0'] := by decide
  have hz : Nat.toDigits 10 0 = ['0'] := by decide
  have hneg : ¬ ((25 : ℚ) / 100 < 0) := by norm_num
  unfold fixed8
  simp only [hr, hneg, if_false]
  have h1 : 25000000 / 100000000 = 0 := by decide
  have h2 : 25000000 % 100000000 = 25000000 := by decide
  rw [h1, h2, hd, hz]
  decide

/-- C15 (evaluation of the code): a reduction of notional 25 at entry price 100, and the
close of a remaining notional 25 at entry price 100, are sent to the exchange with the
quantity "0.25000000", the plain `%.8f` text; `formatQuantity` renders the same value as
"0.25". -/
theorem C15_reduce_and_close_send_untrimmed :
    (reducePosition acceptAll sampleLong (25 / 100)).orders =
      [Order.mk "spot" "BTCUSDT" Side.Sell "0.25000000"] ∧
    (closePosition acceptAll sampleLastSlice).orders =
      [Order.mk "spot" "BTCUSDT" Side.Sell "0.25000000"] ∧
    formatQuantity (fdiv 25 100) = "0.25" := by
  have hq : fdiv 25 100 = F64.fin (25 / 100) := fdiv_of_ne _ _ (by norm_num)
  refine ⟨?_, ?_, ?_⟩
  · have hr : reduceSizeOf sampleLong (25 / 100) = 25 := by
      norm_num [reduceSizeOf, sampleLong]
    rw [reducePosition_of_success acceptAll sampleLong (25 / 100) (by decide) rfl, hr]
    simp [sampleLong, sampleConfig, hq, sprintf8, fixed8_quarter]
  · rw [closePosition_of_success acceptAll sampleLastSlice (by decide) rfl]
    simp [sampleLastSlice, sampleLong, sampleConfig, hq, sprintf8, fixed8_quarter]
  · rw [hq]
    unfold formatQuantity sprintf8
    simp only [fixed8_quarter]
    decide

/-! ### C17 -/

theorem hasSuffix_trade_aggTrade (s : String) :
    ¬ (hasSuffix s "@trade" = true ∧ hasSuffix s "@aggTrade" = true) := by
  unfold hasSuffix
  simp only [List.isSuffixOf]
  generalize s.data.reverse = r
  rcases r with _ | ⟨c1, _ | ⟨c2, _ | ⟨c3, _ | ⟨c4, _ | ⟨c5, r⟩⟩⟩⟩⟩ <;>
    simp [List.isPrefixOf]
  intro h1 h2 h3 h4 h5
  subst h5
  simp

theorem hasSuffix_trade_depth (s : String) :
    ¬ (hasSuffix s "@trade" = true ∧ hasSuffix s "@depth10" = true) := by
  unfold hasSuffix
  simp only [List.isSuffixOf]
  generalize s.data.reverse = r
  rcases r with _ | ⟨c1, r⟩ <;> simp [List.isPrefixOf]
  intro h1
  subst h1
  simp

theorem hasSuffix_aggTrade_depth (s : String) :
    ¬ (hasSuffix s "@aggTrade" = true ∧ hasSuffix s "@depth10" = true) := by
  unfold hasSuffix
  simp only [List.isSuffixOf]
  generalize s.data.reverse = r
  rcases r with _ | ⟨c1, r⟩ <;> simp [List.isPrefixOf]
  intro h1
  subst h1
  simp

/-- C17: `processMessage` classifies by the suffix of the stream name.  A name ending in
"@trade" gives the result of one `UpdateTrade` call, one ending in "@aggTrade" that of one
`UpdateAggTrade` call, one ending in "@depth10" that of one `UpdateDepth` call, each for the
configured pair; no name has two of the three suffixes; and for a name with none of them
the store is returned unchanged, without a panic. -/
theorem C17_suffix_classification (pf : FloatParser) (cfg : Config) (ds : DataStore)
    (stream : String) (data : JMap) :
    (hasSuffix stream "@trade" = true →
      processMessage pf cfg ds stream data = UpdateTrade pf ds cfg.Pair data) ∧
    (hasSuffix stream "@aggTrade" = true →
      processMessage pf cfg ds stream data = UpdateAggTrade pf ds cfg.Pair data) ∧
    (hasSuffix stream "@depth10" = true →
      processMessage pf cfg ds stream data = UpdateDepth pf ds cfg.Pair data) ∧
    ¬ (hasSuffix stream "@trade" = true ∧ hasSuffix stream "@aggTrade" = true) ∧
    ¬ (hasSuffix stream "@trade" = true ∧ hasSuffix stream "@depth10" = true) ∧
    ¬ (hasSuffix stream "@aggTrade" = true ∧ hasSuffix stream "@depth10" = true) ∧
    (hasSuffix stream "@trade" = false → hasSuffix stream "@aggTrade" = false →
      hasSuffix stream "@depth10" = false →
      processMessage pf cfg ds stream data = some ds) := by
  have hta := hasSuffix_trade_aggTrade stream
  have htd := hasSuffix_trade_depth stream
  have had := hasSuffix_aggTrade_depth stream
  refine ⟨?_, ?_, ?_, hta, htd, had, ?_⟩
  · intro h
    simp [processMessage, h]
  · intro h
    have ht : hasSuffix stream "@trade" = false := by
      cases h' : hasSuffix stream "@trade"
      · rfl
      · exact absurd ⟨h', h⟩ hta
    simp [processMessage, h, ht]
  · intro h
    have ht : hasSuffix stream "@trade" = false := by
      cases h' : hasSuffix stream "@trade"
      · rfl
      · exact absurd ⟨h', h⟩ htd
    have ha : hasSuffix stream "@aggTrade" = false := by
      cases h' : hasSuffix stream "@aggTrade"
      · rfl
      · exact absurd ⟨h', h⟩ had
    simp [processMessage, h, ht, ha]
  · intro h1 h2 h3
    simp [processMessage, h1, h2, h3]

/-- Witness for C17: one stream name for each of the four branches. -/
theorem C17_suffix_classification_witness :
    processMessage parser100 sampleConfig NewDataStore "btcusdt@trade" tradeWithoutPrice =
      UpdateTrade parser100 NewDataStore "BTCUSDT" tradeWithoutPrice ∧
    processMessage parser100 sampleConfig NewDataStore "btcusdt@aggTrade" sampleDepth =
      UpdateAggTrade parser100 NewDataStore "BTCUSDT" sampleDepth ∧
    processMessage parser100 sampleConfig NewDataStore "btcusdt@depth10" sampleDepth =
      UpdateDepth parser100 NewDataStore "BTCUSDT" sampleDepth ∧
    processMessage parser100 sampleConfig NewDataStore "btcusdt@kline_1m" sampleDepth =
      some NewDataStore := by
  refine ⟨?_, ?_, ?_, ?_⟩
  · exact (C17_suffix_classification parser100 sampleConfig NewDataStore "btcusdt@trade"
      tradeWithoutPrice).1 (by decide)
  · exact (C17_suffix_classification parser100 sampleConfig NewDataStore "btcusdt@aggTrade"
      sampleDepth).2.1 (by decide)
  · exact (C17_suffix_classification parser100 sampleConfig NewDataStore "btcusdt@depth10"
      sampleDepth).2.2.1 (by decide)
  · exact (C17_suffix_classification parser100 sampleConfig NewDataStore "btcusdt@kline_1m"
      sampleDepth).2.2.2.2.2.2 (by decide) (by decide) (by decide)

/-! ### C18 -/

/-- C18: for every list of well-formed levels `[priceString, quantityString]`,
`parseOrders` returns (without a panic) the list of the pairs
`(parseFloat price, parseFloat quantity)` in the same order: same length, and the element
at every index is the parsed level at that index. -/
theorem C18_parseOrders_keeps_order (pf : FloatParser) (levels : List (String × String)) :
    parseOrders pf (levels.map (fun l => JVal.arr [JVal.str l.1, JVal.str l.2])) =
        some (levels.map (fun l => (parseFloat pf l.1, parseFloat pf l.2))) ∧
      (levels.map (fun l => (parseFloat pf l.1, parseFloat pf l.2))).length = levels.length ∧
      ∀ i, (levels.map (fun l => (parseFloat pf l.1, parseFloat pf l.2))).get? i =
        (levels.get? i).map (fun l => (parseFloat pf l.1, parseFloat pf l.2)) := by
  refine ⟨?_, by simp, fun i => by simp⟩
  induction levels with
  | nil => rfl
  | cons l rest ih =>
    simp only [List.map_cons, parseOrders, parseOrder, asSlice, List.get?, asStringOrEmpty, ih]

/-! ### C19 -/

/-- C19: for each market in spot, usdm, coinm and every pair, `getStreams` returns exactly
two names, each the lower-cased pair followed by a stream marker: "@trade" and "@depth10"
for spot, "@aggTrade" and "@depth10@100ms" for usdm and for coinm (for the spot pair
"BTCUSDT": "btcusdt@trade" and "btcusdt@depth10"). -/
theorem C19_getStreams_two_names (pair signal : String) (maxPosition : ℚ) :
    getStreams (Config.mk pair "spot" signal maxPosition) =
        [toLower pair ++ "@trade", toLower pair ++ "@depth10"] ∧
      getStreams (Config.mk pair "usdm" signal maxPosition) =
        [toLower pair ++ "@aggTrade", toLower pair ++ "@depth10@100ms"] ∧
      getStreams (Config.mk pair "coinm" signal maxPosition) =
        [toLower pair ++ "@aggTrade", toLower pair ++ "@depth10@100ms"] ∧
      (getStreams (Config.mk pair "spot" signal maxPosition)).length = 2 ∧
      (getStreams (Config.mk pair "usdm" signal maxPosition)).length = 2 ∧
      (getStreams (Config.mk pair "coinm" signal maxPosition)).length = 2 ∧
      getStreams sampleConfig = ["btcusdt@trade", "btcusdt@depth10"] := by
  refine ⟨?_, ?_, ?_, ?_, ?_, ?_, by decide⟩ <;> simp [getStreams]

/-! ### The store: what a successful update returns -/

theorem lookup_upsert_self (s : String) (md : MarketData) (l : List (String × MarketData)) :
    (upsert s md l).lookup s = some md := by
  induction l with
  | nil => simp [upsert, List.lookup]
  | cons kv rest ih =>
    obtain ⟨k, v⟩ := kv
    unfold upsert
    by_cases h : k = s
    · simp [h, List.lookup]
    · have h' : (s == k) = false := by simpa using fun h' => h h'.symm
      simp [h, List.lookup, h', ih]

theorem lookup_upsert_of_ne (s k : String) (md : MarketData) (l : List (String × MarketData))
    (hk : k ≠ s) : (upsert s md l).lookup k = l.lookup k := by
  induction l with
  | nil =>
    have h' : (k == s) = false := by simpa using hk
    simp [upsert, List.lookup, h']
  | cons kv rest ih =>
    obtain ⟨k1, v⟩ := kv
    unfold upsert
    by_cases h : k1 = s
    · subst h
      have h' : (k == k1) = false := by simpa using hk
      simp [List.lookup, h']
    · simp only [h, if_false, List.lookup]
      rw [ih]

theorem length_upsert (s : String) (md : MarketData) (l : List (String × MarketData)) :
    (upsert s md l).length = l.length + (if (l.lookup s).isSome then 0 else 1) := by
  induction l with
  | nil => simp [upsert, List.lookup]
  | cons kv rest ih =>
    obtain ⟨k, v⟩ := kv
    unfold upsert
    by_cases h : k = s
    · simp [h, List.lookup]
    · have h' : (s == k) = false := by simpa using fun h' => h h'.symm
      simp only [h, if_false, List.lookup, h', List.length_cons, ih]
      omega

theorem othersKept_upsert (ds : DataStore) (s : String) (md : MarketData) :
    othersKept ds (DataStore.mk (upsert s md ds.data)) s := by
  refine ⟨fun k hk => ?_, ?_⟩
  · exact lookup_upsert_of_ne s k md ds.data hk
  · exact length_upsert s md ds.data

theorem UpdateTrade_eq_some (pf : FloatParser) (ds ds' : DataStore) (s : String) (data : JMap)
    (h : UpdateTrade pf ds s data = some ds') :
    ∃ e t p q tt m, asFloat64 (data.lookup "E") = some e ∧
      asFloat64 (data.lookup "t") = some t ∧
      asString (data.lookup "p") = some p ∧ asString (data.lookup "q") = some q ∧
      asFloat64 (data.lookup "T") = some tt ∧ asBool (data.lookup "m") = some m ∧
      ds' = DataStore.mk (upsert s
        { snapshotOf ds s with
          EventTime := unixMilli e, TradeID := toInt64 t, Price := (pf p).1,
          Quantity := (pf q).1, TradeTime := unixMilli tt, IsBuyerMM := m } ds.data) := by
  unfold UpdateTrade at h
  simp only [Option.bind_eq_bind, Option.bind_eq_some, Option.pure_def, Option.some.injEq] at h
  obtain ⟨e, he, t, ht, p, hp, q, hq, tt, htt, m, hm, rfl⟩ := h
  exact ⟨e, t, p, q, tt, m, he, ht, hp, hq, htt, hm, rfl⟩

theorem UpdateAggTrade_eq_some (pf : FloatParser) (ds ds' : DataStore) (s : String)
    (data : JMap) (h : UpdateAggTrade pf ds s data = some ds') :
    ∃ e a p q f l tt m, asFloat64 (data.lookup "E") = some e ∧
      asFloat64 (data.lookup "a") = some a ∧
      asString (data.lookup "p") = some p ∧ asString (data.lookup "q") = some q ∧
      asFloat64 (data.lookup "f") = some f ∧ asFloat64 (data.lookup "l") = some l ∧
      asFloat64 (data.lookup "T") = some tt ∧ asBool (data.lookup "m") = some m ∧
      ds' = DataStore.mk (upsert s
        { snapshotOf ds s with
          EventTime := unixMilli e, AggTradeID := toInt64 a, Price := (pf p).1,
          Quantity := (pf q).1, FirstTradeID := toInt64 f, LastTradeID := toInt64 l,
          TradeTime := unixMilli tt, IsBuyerMaker := m } ds.data) := by
  unfold UpdateAggTrade at h
  simp only [Option.bind_eq_bind, Option.bind_eq_some, Option.pure_def, Option.some.injEq] at h
  obtain ⟨e, he, a, ha, p, hp, q, hq, f, hf, l, hl, tt, htt, m, hm, rfl⟩ := h
  exact ⟨e, a, p, q, f, l, tt, m, he, ha, hp, hq, hf, hl, htt, hm, rfl⟩

theorem UpdateDepth_eq_some (pf : FloatParser) (ds ds' : DataStore) (s : String) (data : JMap)
    (h : UpdateDepth pf ds s data = some ds') :
    ∃ u bs bids as asks, asFloat64 (data.lookup "lastUpdateId") = some u ∧
      asSlice (data.lookup "bids") = some bs ∧ parseOrders pf bs = some bids ∧
      asSlice (data.lookup "asks") = some as ∧ parseOrders pf as = some asks ∧
      ds' = DataStore.mk (upsert s
        { snapshotOf ds s with
          LastUpdateID := toInt64 u, Bids := bids, Asks := asks } ds.data) := by
  unfold UpdateDepth at h
  simp only [Option.bind_eq_bind, Option.bind_eq_some, Option.pure_def, Option.some.injEq] at h
  obtain ⟨u, hu, bs, hbs, bids, hbids, as, has, asks, hasks, rfl⟩ := h
  exact ⟨u, bs, bids, as, asks, hu, hbs, hbids, has, hasks, rfl⟩

/-! ### C12 -/

/-- C12: a store update that returns writes only the fields of its kind on the snapshot of
its own symbol (putting the old values back into those fields gives the snapshot found
before, or the fresh snapshot of the first write, whose `Symbol` is kept too): `UpdateDepth`
writes `LastUpdateID`, `Bids`, `Asks`; `UpdateTrade` writes `EventTime`, `TradeID`, `Price`,
`Quantity`, `TradeTime`, `IsBuyerMM`; `UpdateAggTrade` writes `EventTime`, `AggTradeID`,
`Price`, `Quantity`, `FirstTradeID`, `LastTradeID`, `TradeTime`, `IsBuyerMaker`.  The
snapshots of all other symbols are as before, and the number of entries grows by one on the
first write for the symbol and not at all on later writes. -/
theorem C12_update_frame (pf : FloatParser) (ds ds' : DataStore) (symbol : String)
    (data : JMap) :
    (UpdateDepth pf ds symbol data = some ds' →
      othersKept ds ds' symbol ∧
      ∃ md, GetMarketData ds' symbol = some md ∧
        { md with
          LastUpdateID := (snapshotOf ds symbol).LastUpdateID,
          Bids := (snapshotOf ds symbol).Bids,
          Asks := (snapshotOf ds symbol).Asks } = snapshotOf ds symbol) ∧
    (UpdateTrade pf ds symbol data = some ds' →
      othersKept ds ds' symbol ∧
      ∃ md, GetMarketData ds' symbol = some md ∧
        { md with
          EventTime := (snapshotOf ds symbol).EventTime,
          TradeID := (snapshotOf ds symbol).TradeID,
          Price := (snapshotOf ds symbol).Price,
          Quantity := (snapshotOf ds symbol).Quantity,
          TradeTime := (snapshotOf ds symbol).TradeTime,
          IsBuyerMM := (snapshotOf ds symbol).IsBuyerMM } = snapshotOf ds symbol) ∧
    (UpdateAggTrade pf ds symbol data = some ds' →
      othersKept ds ds' symbol ∧
      ∃ md, GetMarketData ds' symbol = some md ∧
        { md with
          EventTime := (snapshotOf ds symbol).EventTime,
          AggTradeID := (snapshotOf ds symbol).AggTradeID,
          Price := (snapshotOf ds symbol).Price,
          Quantity := (snapshotOf ds symbol).Quantity,
          FirstTradeID := (snapshotOf ds symbol).FirstTradeID,
          LastTradeID := (snapshotOf ds symbol).LastTradeID,
          TradeTime := (snapshotOf ds symbol).TradeTime,
          IsBuyerMaker := (snapshotOf ds symbol).IsBuyerMaker } = snapshotOf ds symbol) := by
  refine ⟨?_, ?_, ?_⟩
  · intro h
    obtain ⟨u, bs, bids, as, asks, -, -, -, -, -, rfl⟩ := UpdateDepth_eq_some pf ds ds' symbol data h
    exact ⟨othersKept_upsert ds symbol _, _, lookup_upsert_self symbol _ ds.data, rfl⟩
  · intro h
    obtain ⟨e, t, p, q, tt, m, -, -, -, -, -, -, rfl⟩ := UpdateTrade_eq_some pf ds ds' symbol data h
    exact ⟨othersKept_upsert ds symbol _, _, lookup_upsert_self symbol _ ds.data, rfl⟩
  · intro h
    obtain ⟨e, a, p, q, f, l, tt, m, -, -, -, -, -, -, -, -, rfl⟩ :=
      UpdateAggTrade_eq_some pf ds ds' symbol data h
    exact ⟨othersKept_upsert ds symbol _, _, lookup_upsert_self symbol _ ds.data, rfl⟩

theorem UpdateDepth_sample :
    UpdateDepth parser100 NewDataStore "BTCUSDT" sampleDepth = some sampleStore1 := by
  simp [UpdateDepth, sampleDepth, sampleStore1, NewDataStore, asFloat64, asSlice, parseOrders,
    parseOrder, List.lookup, snapshotOf, MarketData.new, upsert, toInt64, parser100, parseFloat,
    asStringOrEmpty]

theorem UpdateTrade_sample :
    UpdateTrade parser100 sampleStore1 "BTCUSDT" sampleTrade = some sampleStore2 := by
  simp [UpdateTrade, sampleTrade, sampleStore1, sampleStore2, asFloat64, asString, asBool,
    List.lookup, snapshotOf, MarketData.new, upsert, parser100]

/-- Witness for C12: the first write (a depth message on the empty store) and a later write
(a trade message) for the same symbol. -/
theorem C12_update_frame_witness :
    othersKept NewDataStore sampleStore1 "BTCUSDT" ∧
    othersKept sampleStore1 sampleStore2 "BTCUSDT" ∧
    NewDataStore.data.length = 0 ∧ sampleStore1.data.length = 1 ∧
    sampleStore2.data.length = 1 :=
  ⟨((C12_update_frame parser100 NewDataStore sampleStore1 "BTCUSDT" sampleDepth).1
      UpdateDepth_sample).1,
   ((C12_update_frame parser100 sampleStore1 sampleStore2 "BTCUSDT" sampleTrade).2.1
      UpdateTrade_sample).1,
   rfl, rfl, rfl⟩

/-! ### C13 -/

theorem snapshotOf_of_get (ds : DataStore) (s : String) (md : MarketData)
    (h : GetMarketData ds s = some md) : snapshotOf ds s = md := by
  unfold GetMarketData at h
  unfold snapshotOf
  rw [h]

theorem applyEvent_other (pf : FloatParser) (ds ds' : DataStore) (e : StoreEvent) (s : String)
    (h : applyEvent pf ds e = some ds') (hs : s ≠ e.symbol) :
    GetMarketData ds' s = GetMarketData ds s := by
  cases e with
  | trade s1 data =>
    obtain ⟨_, _, _, _, _, _, -, -, -, -, -, -, rfl⟩ := UpdateTrade_eq_some pf ds ds' s1 data h
    exact lookup_upsert_of_ne s1 s _ ds.data hs
  | aggTrade s1 data =>
    obtain ⟨_, _, _, _, _, _, _, _, -, -, -, -, -, -, -, -, rfl⟩ :=
      UpdateAggTrade_eq_some pf ds ds' s1 data h
    exact lookup_upsert_of_ne s1 s _ ds.data hs
  | depth s1 data =>
    obtain ⟨_, _, _, _, _, -, -, -, -, -, rfl⟩ := UpdateDepth_eq_some pf ds ds' s1 data h
    exact lookup_upsert_of_ne s1 s _ ds.data hs

theorem applyEvent_tradeType (pf : FloatParser) (ds ds' : DataStore) (e : StoreEvent)
    (h : applyEvent pf ds e = some ds') (ht : e.isTradeType = true) :
    ∃ md, GetMarketData ds' e.symbol = some md ∧
      tradeGroupOf pf e.data = some md.tradeGroup := by
  cases e with
  | trade s1 data =>
    obtain ⟨_, _, _, _, _, _, he, -, hp, hq, htt, -, rfl⟩ :=
      UpdateTrade_eq_some pf ds ds' s1 data h
    refine ⟨_, lookup_upsert_self s1 _ ds.data, ?_⟩
    simp [tradeGroupOf, StoreEvent.data, he, hp, hq, htt, MarketData.tradeGroup]
  | aggTrade s1 data =>
    obtain ⟨_, _, _, _, _, _, _, _, he, -, hp, hq, -, -, htt, -, rfl⟩ :=
      UpdateAggTrade_eq_some pf ds ds' s1 data h
    refine ⟨_, lookup_upsert_self s1 _ ds.data, ?_⟩
    simp [tradeGroupOf, StoreEvent.data, he, hp, hq, htt, MarketData.tradeGroup]
  | depth s1 data => exact absurd ht (by simp [StoreEvent.isTradeType])

theorem applyEvent_depth (pf : FloatParser) (ds ds' : DataStore) (e : StoreEvent)
    (h : applyEvent pf ds e = some ds') (ht : e.isTradeType = false) :
    ∃ md, GetMarketData ds' e.symbol = some md ∧
      depthGroupOf pf e.data = some md.depthGroup := by
  cases e with
  | trade s1 data => exact absurd ht (by simp [StoreEvent.isTradeType])
  | aggTrade s1 data => exact absurd ht (by simp [StoreEvent.isTradeType])
  | depth s1 data =>
    obtain ⟨_, _, _, _, _, hu, hbs, hbids, has, hasks, rfl⟩ :=
      UpdateDepth_eq_some pf ds ds' s1 data h
    refine ⟨_, lookup_upsert_self s1 _ ds.data, ?_⟩
    simp [depthGroupOf, StoreEvent.data, hu, hbs, hbids, has, hasks, MarketData.depthGroup]

theorem applyEvent_keeps_tradeGroup (pf : FloatParser) (ds ds' : DataStore) (e : StoreEvent)
    (s : String) (md : MarketData) (h : applyEvent pf ds e = some ds')
    (hn : ¬ (e.isTradeType = true ∧ e.symbol = s)) (hmd : GetMarketData ds s = some md) :
    ∃ md', GetMarketData ds' s = some md' ∧ md'.tradeGroup = md.tradeGroup := by
  by_cases hs : s = e.symbol
  · cases e with
    | trade s1 data => exact absurd ⟨rfl, hs.symm⟩ hn
    | aggTrade s1 data => exact absurd ⟨rfl, hs.symm⟩ hn
    | depth s1 data =>
      have hs1 : s = s1 := hs
      subst hs1
      obtain ⟨_, _, _, _, _, -, -, -, -, -, rfl⟩ := UpdateDepth_eq_some pf ds ds' s data h
      refine ⟨_, lookup_upsert_self s _ ds.data, ?_⟩
      rw [snapshotOf_of_get ds s md hmd]
      rfl
  · exact ⟨md, by rw [applyEvent_other pf ds ds' e s h hs]; exact hmd, rfl⟩

theorem applyEvent_keeps_depthGroup (pf : FloatParser) (ds ds' : DataStore) (e : StoreEvent)
    (s : String) (md : MarketData) (h : applyEvent pf ds e = some ds')
    (hn : ¬ (e.isTradeType = false ∧ e.symbol = s)) (hmd : GetMarketData ds s = some md) :
    ∃ md', GetMarketData ds' s = some md' ∧ md'.depthGroup = md.depthGroup := by
  by_cases hs : s = e.symbol
  · cases e with
    | trade s1 data =>
      have hs1 : s = s1 := hs
      subst hs1
      obtain ⟨_, _, _, _, _, _, -, -, -, -, -, -, rfl⟩ := UpdateTrade_eq_some pf ds ds' s data h
      refine ⟨_, lookup_upsert_self s _ ds.data, ?_⟩
      rw [snapshotOf_of_get ds s md hmd]
      rfl
    | aggTrade s1 data =>
      have hs1 : s = s1 := hs
      subst hs1
      obtain ⟨_, _, _, _, _, _, _, _, -, -, -, -, -, -, -, -, rfl⟩ :=
        UpdateAggTrade_eq_some pf ds ds' s data h
      refine ⟨_, lookup_upsert_self s _ ds.data, ?_⟩
      rw [snapshotOf_of_get ds s md hmd]
      rfl
    | depth s1 data => exact absurd ⟨rfl, hs.symm⟩ hn
  · exact ⟨md, by rw [applyEvent_other pf ds ds' e s h hs]; exact hmd, rfl⟩

theorem applyEvents_keeps_tradeGroup (pf : FloatParser) (post : List StoreEvent) :
    ∀ (ds ds' : DataStore) (s : String) (md : MarketData),
      applyEvents pf ds post = some ds' →
      (∀ x ∈ post, ¬ (x.isTradeType = true ∧ x.symbol = s)) →
      GetMarketData ds s = some md →
      ∃ md', GetMarketData ds' s = some md' ∧ md'.tradeGroup = md.tradeGroup := by
  induction post with
  | nil =>
    intro ds ds' s md h _ hmd
    simp only [applyEvents, Option.some.injEq] at h
    subst h
    exact ⟨md, hmd, rfl⟩
  | cons e rest ih =>
    intro ds ds' s md h hpost hmd
    unfold applyEvents at h
    cases h1 : applyEvent pf ds e with
    | none => rw [h1] at h; exact absurd h (by simp)
    | some ds1 =>
      rw [h1] at h
      obtain ⟨md1, hget1, hg1⟩ := applyEvent_keeps_tradeGroup pf ds ds1 e s md h1
        (hpost e (List.mem_cons_self _ _)) hmd
      obtain ⟨md2, hget2, hg2⟩ := ih ds1 ds' s md1 h
        (fun x hx => hpost x (List.mem_cons_of_mem _ hx)) hget1
      exact ⟨md2, hget2, hg2.trans hg1⟩

theorem applyEvents_keeps_depthGroup (pf : FloatParser) (post : List StoreEvent) :
    ∀ (ds ds' : DataStore) (s : String) (md : MarketData),
      applyEvents pf ds post = some ds' →
      (∀ x ∈ post, ¬ (x.isTradeType = false ∧ x.symbol = s)) →
      GetMarketData ds s = some md →
      ∃ md', GetMarketData ds' s = some md' ∧ md'.depthGroup = md.depthGroup := by
  induction post with
  | nil =>
    intro ds ds' s md h _ hmd
    simp only [applyEvents, Option.some.injEq] at h
    subst h
    exact ⟨md, hmd, rfl⟩
  | cons e rest ih =>
    intro ds ds' s md h hpost hmd
    unfold applyEvents at h
    cases h1 : applyEvent pf ds e with
    | none => rw [h1] at h; exact absurd h (by simp)
    | some ds1 =>
      rw [h1] at h
      obtain ⟨md1, hget1, hg1⟩ := applyEvent_keeps_depthGroup pf ds ds1 e s md h1
        (hpost e (List.mem_cons_self _ _)) hmd
      obtain ⟨md2, hget2, hg2⟩ := ih ds1 ds' s md1 h
        (fun x hx => hpost x (List.mem_cons_of_mem _ hx)) hget1
      exact ⟨md2, hget2, hg2.trans hg1⟩

theorem applyEvents_append (pf : FloatParser) (pre : List StoreEvent) :
    ∀ (ds ds' : DataStore) (e : StoreEvent) (post : List StoreEvent),
      applyEvents pf ds (pre ++ e :: post) = some ds' →
      ∃ ds1 ds2, applyEvents pf ds pre = some ds1 ∧ applyEvent pf ds1 e = some ds2 ∧
        applyEvents pf ds2 post = some ds' := by
  induction pre with
  | nil =>
    intro ds ds' e post h
    simp only [List.nil_append] at h
    unfold applyEvents at h
    cases h1 : applyEvent pf ds e with
    | none => rw [h1] at h; exact absurd h (by simp)
    | some ds2 =>
      rw [h1] at h
      exact ⟨ds, ds2, rfl, h1, h⟩
  | cons x rest ih =>
    intro ds ds' e post h
    simp only [List.cons_append] at h
    unfold applyEvents at h
    cases h1 : applyEvent pf ds x with
    | none => rw [h1] at h; exact absurd h (by simp)
    | some dsx =>
      rw [h1] at h
      obtain ⟨ds1, ds2, ha, hb, hc⟩ := ih dsx ds' e post h
      refine ⟨ds1, ds2, ?_, hb, hc⟩
      unfold applyEvents
      rw [h1]
      exact ha

theorem applyEvents_absent (pf : FloatParser) (events : List StoreEvent) :
    ∀ (ds ds' : DataStore) (s : String),
      applyEvents pf ds events = some ds' →
      (∀ x ∈ events, x.symbol ≠ s) →
      GetMarketData ds' s = GetMarketData ds s := by
  induction events with
  | nil =>
    intro ds ds' s h _
    simp only [applyEvents, Option.some.injEq] at h
    subst h
    rfl
  | cons e rest ih =>
    intro ds ds' s h hev
    unfold applyEvents at h
    cases h1 : applyEvent pf ds e with
    | none => rw [h1] at h; exact absurd h (by simp)
    | some ds1 =>
      rw [h1] at h
      rw [ih ds1 ds' s h (fun x hx => hev x (List.mem_cons_of_mem _ hx))]
      exact applyEvent_other pf ds ds1 e s h1
        (fun hs => hev e (List.mem_cons_self _ _) hs.symm)

/-- C13: for every sequence of update calls that all return (well-formed messages), the
snapshot that `GetMarketData` gives afterwards for a symbol carries, in event time, price,
quantity and trade time, the values of the last trade-type update for that symbol, and in
last update id, bids and asks the values of the last depth update for that symbol; for a
symbol that no update of the sequence wrote to, starting from the empty store, it gives
`none`. -/
theorem C13_last_writer_wins (pf : FloatParser) :
    (∀ (ds ds' : DataStore) (pre post : List StoreEvent) (e : StoreEvent),
      applyEvents pf ds (pre ++ e :: post) = some ds' →
      e.isTradeType = true →
      (∀ x ∈ post, ¬ (x.isTradeType = true ∧ x.symbol = e.symbol)) →
      ∃ md, GetMarketData ds' e.symbol = some md ∧
        tradeGroupOf pf e.data = some md.tradeGroup) ∧
    (∀ (ds ds' : DataStore) (pre post : List StoreEvent) (e : StoreEvent),
      applyEvents pf ds (pre ++ e :: post) = some ds' →
      e.isTradeType = false →
      (∀ x ∈ post, ¬ (x.isTradeType = false ∧ x.symbol = e.symbol)) →
      ∃ md, GetMarketData ds' e.symbol = some md ∧
        depthGroupOf pf e.data = some md.depthGroup) ∧
    (∀ (ds' : DataStore) (events : List StoreEvent) (s : String),
      applyEvents pf NewDataStore events = some ds' →
      (∀ x ∈ events, x.symbol ≠ s) →
      GetMarketData ds' s = none) := by
  refine ⟨?_, ?_, ?_⟩
  · intro ds ds' pre post e h ht hpost
    obtain ⟨ds1, ds2, -, hb, hc⟩ := applyEvents_append pf pre ds ds' e post h
    obtain ⟨md, hget, hg⟩ := applyEvent_tradeType pf ds1 ds2 e hb ht
    obtain ⟨md', hget', hg'⟩ := applyEvents_keeps_tradeGroup pf post ds2 ds' e.symbol md hc
      hpost hget
    exact ⟨md', hget', by rw [hg', hg]⟩
  · intro ds ds' pre post e h ht hpost
    obtain ⟨ds1, ds2, -, hb, hc⟩ := applyEvents_append pf pre ds ds' e post h
    obtain ⟨md, hget, hg⟩ := applyEvent_depth pf ds1 ds2 e hb ht
    obtain ⟨md', hget', hg'⟩ := applyEvents_keeps_depthGroup pf post ds2 ds' e.symbol md hc
      hpost hget
    exact ⟨md', hget', by rw [hg', hg]⟩
  · intro ds' events s h hev
    rw [applyEvents_absent pf events NewDataStore ds' s h hev]
    rfl

theorem applyEvents_sample :
    applyEvents parser100 NewDataStore sampleEvents = some sampleStore2 := by
  simp [applyEvents, applyEvent, sampleEvents, UpdateTrade, UpdateDepth, sampleTrade,
    sampleDepth, sampleStore2, NewDataStore, asFloat64, asString, asBool, asSlice, parseOrders,
    parseOrder, List.lookup, snapshotOf, MarketData.new, upsert, toInt64, parser100, parseFloat,
    asStringOrEmpty]

/-- Witness for C13: a trade, a depth update and a second trade for "BTCUSDT" on the empty
store; the symbol "ETHUSDT" is never written. -/
theorem C13_last_writer_wins_witness :
    (∃ md, GetMarketData sampleStore2 "BTCUSDT" = some md ∧
      tradeGroupOf parser100 sampleTrade = some md.tradeGroup) ∧
    (∃ md, GetMarketData sampleStore2 "BTCUSDT" = some md ∧
      depthGroupOf parser100 sampleDepth = some md.depthGroup) ∧
    GetMarketData sampleStore2 "ETHUSDT" = none := by
  refine ⟨?_, ?_, ?_⟩
  · exact (C13_last_writer_wins parser100).1 NewDataStore sampleStore2
      [StoreEvent.trade "BTCUSDT" sampleTrade, StoreEvent.depth "BTCUSDT" sampleDepth] []
      (StoreEvent.trade "BTCUSDT" sampleTrade) applyEvents_sample rfl (by simp)
  · exact (C13_last_writer_wins parser100).2.1 NewDataStore sampleStore2
      [StoreEvent.trade "BTCUSDT" sampleTrade] [StoreEvent.trade "BTCUSDT" sampleTrade]
      (StoreEvent.depth "BTCUSDT" sampleDepth) applyEvents_sample rfl
      (by simp [StoreEvent.isTradeType])
  · exact (C13_last_writer_wins parser100).2.2 sampleStore2 sampleEvents "ETHUSDT"
      applyEvents_sample (by simp [sampleEvents, StoreEvent.symbol])

/-! ### What each operation leaves of the trader -/

theorem reducePosition_shape (gw : Gateway) (t : Trader) (p : ℚ) :
    (reducePosition gw t p).config = t.config ∧ (reducePosition gw t p).isLong = t.isLong ∧
      (reducePosition gw t p).entryPrice = t.entryPrice ∧
      (reducePosition gw t p).entrySize = t.entrySize ∧
      ((reducePosition gw t p).currentSize = t.currentSize ∨
        (reducePosition gw t p).currentSize = t.currentSize - reduceSizeOf t p) := by
  unfold reducePosition PlaceMarketOrder submitOrder
  simp only []
  split_ifs <;> simp

theorem closePosition_shape (gw : Gateway) (t : Trader) :
    (closePosition gw t).config = t.config ∧ (closePosition gw t).isLong = t.isLong ∧
      (closePosition gw t).entryPrice = t.entryPrice ∧
      (closePosition gw t).entrySize = t.entrySize ∧
      ((closePosition gw t).position = t.position ∨
        ((closePosition gw t).currentSize = 0 ∧
          (closePosition gw t).state ≠ TraderState.InitialEntry)) := by
  unfold closePosition PlaceMarketOrder submitOrder
  simp only []
  split_ifs <;> simp_all [Trader.position]

theorem enterLongPosition_shape (gw : Gateway) (t : Trader) (price : ℚ) :
    (enterLongPosition gw t price).config = t.config ∧
      ((enterLongPosition gw t price).position = t.position ∨
        ((enterLongPosition gw t price).position =
            { phase := TraderState.InitialEntry, isLong := true, entryPrice := price,
              entrySize := t.config.MaxPosition, currentSize := t.config.MaxPosition } ∧
          0 < price)) := by
  unfold enterLongPosition submitOrder
  simp only []
  split_ifs <;> simp_all [Trader.position]

theorem enterShortPosition_shape (gw : Gateway) (t : Trader) (price : ℚ) :
    (enterShortPosition gw t price).config = t.config ∧
      ((enterShortPosition gw t price).position = t.position ∨
        (enterShortPosition gw t price).position =
          { phase := TraderState.InitialEntry, isLong := false, entryPrice := price,
            entrySize := t.config.MaxPosition, currentSize := t.config.MaxPosition }) := by
  unfold enterShortPosition submitOrder
  simp only []
  split_ifs <;> simp_all [Trader.position]

theorem handleIdleState_cases (pf : FloatParser) (gw : Gateway) (t : Trader) (price : ℚ) :
    handleIdleState pf gw t price = t ∨
      (t.isLong = true ∧ handleIdleState pf gw t price = enterLongPosition gw t price) ∨
      (t.isLong = false ∧ handleIdleState pf gw t price = enterShortPosition gw t price) := by
  unfold handleIdleState
  simp only []
  split_ifs with h1 h2 h3 h4 h5
  · exact Or.inr (Or.inl ⟨h2, rfl⟩)
  · exact Or.inr (Or.inr ⟨by simpa using h2, rfl⟩)
  · exact Or.inl rfl
  · exact Or.inr (Or.inl ⟨h4.1, rfl⟩)
  · exact Or.inr (Or.inr ⟨by simpa using h5.1, rfl⟩)
  · exact Or.inl rfl

theorem handleInitialEntryState_cases (gw : Gateway) (t : Trader) (price : ℚ) :
    handleInitialEntryState gw t price = t ∨
      handleInitialEntryState gw t price = reducePosition gw t (25 / 100) ∨
      ((priceDiff t price).le (-(1 / 100)) = true ∧ t.isLong = true ∧
        handleInitialEntryState gw t price =
          enterShortPosition gw (closePosition gw t) price) ∨
      ((priceDiff t price).le (-(1 / 100)) = true ∧ t.isLong = false ∧
        handleInitialEntryState gw t price =
          enterLongPosition gw (closePosition gw t) price) := by
  unfold handleInitialEntryState priceDiff
  cases hl : t.isLong
  · simp only [Bool.false_eq_true, if_false]
    unfold handleShortPosition
    simp only []
    split_ifs with h1 h2 h3 h4 h5
    · exact Or.inr (Or.inl rfl)
    · exact Or.inr (Or.inl rfl)
    · exact Or.inr (Or.inl rfl)
    · exact Or.inr (Or.inl rfl)
    · exact Or.inr (Or.inr (Or.inr ⟨h5, trivial, rfl⟩))
    · exact Or.inl rfl
  · simp only [if_true]
    unfold handleLongPosition
    simp only []
    split_ifs with h1 h2 h3 h4 h5
    · exact Or.inr (Or.inl rfl)
    · exact Or.inr (Or.inl rfl)
    · exact Or.inr (Or.inl rfl)
    · exact Or.inr (Or.inl rfl)
    · exact Or.inr (Or.inr (Or.inl ⟨h5, trivial, rfl⟩))
    · exact Or.inl rfl

theorem handleSecondaryEntryState_cases (gw : Gateway) (t : Trader) (price : ℚ) :
    handleSecondaryEntryState gw t price = t ∨
      handleSecondaryEntryState gw t price = reducePosition gw t (25 / 100) ∨
      handleSecondaryEntryState gw t price = reducePosition gw t (5 / 10) ∨
      handleSecondaryEntryState gw t price =
        { closePosition gw t with state := TraderState.Idle } := by
  unfold handleSecondaryEntryState
  cases hl : t.isLong
  · simp only [Bool.false_eq_true, if_false]
    unfold handleSecondaryShortPosition
    simp only []
    split_ifs
    · exact Or.inr (Or.inl rfl)
    · exact Or.inr (Or.inl rfl)
    · exact Or.inr (Or.inr (Or.inl rfl))
    · exact Or.inr (Or.inr (Or.inr rfl))
    · exact Or.inl rfl
  · simp only [if_true]
    unfold handleSecondaryLongPosition
    simp only []
    split_ifs
    · exact Or.inr (Or.inl rfl)
    · exact Or.inr (Or.inl rfl)
    · exact Or.inr (Or.inr (Or.inl rfl))
    · exact Or.inr (Or.inr (Or.inr rfl))
    · exact Or.inl rfl

/-! ### C14 -/

/-- C14 (the claim fails): the sample long position in InitialEntry, tick at price 99 with
both orders accepted.  The tick starts in InitialEntry with `isLong = true` and ends with
`isLong = false`. -/
theorem C14_counterexample :
    sampleLong.state = TraderState.InitialEntry ∧ sampleLong.isLong = true ∧
    (tick noParser acceptAll sampleLong 99).isLong = false := by
  refine ⟨rfl, rfl, ?_⟩
  have h := adverse_flip_of_long acceptAll sampleLong 99 rfl (by norm_num [sampleLong])
    (by norm_num [sampleLong]) (by decide) (by decide) (fun _ _ => rfl)
  rw [tick_of_InitialEntry noParser acceptAll sampleLong 99 rfl]
  exact congrArg PositionState.isLong h

/-- C14 (amended): `isLong` is the same after the tick as before on every tick that starts
in Idle, on every tick that starts in SecondaryEntry, and on every tick that starts in
InitialEntry at a price whose move is not `≤ -1%`.  It changes only on an adverse tick that
starts in InitialEntry, and then the opposite entry was made: the tick ends in InitialEntry
with `entryPrice` the tick price and both sizes `MaxPosition`. -/
theorem C14_isLong_changes_only_on_flip (pf : FloatParser) (gw : Gateway) (t : Trader)
    (price : ℚ) :
    (t.state = TraderState.Idle → (tick pf gw t price).isLong = t.isLong) ∧
    (t.state = TraderState.SecondaryEntry → (tick pf gw t price).isLong = t.isLong) ∧
    (t.state = TraderState.InitialEntry → (priceDiff t price).le (-(1 / 100)) = false →
      (tick pf gw t price).isLong = t.isLong) ∧
    (t.state = TraderState.InitialEntry → (tick pf gw t price).isLong ≠ t.isLong →
      (priceDiff t price).le (-(1 / 100)) = true ∧
      (tick pf gw t price).position =
        { phase := TraderState.InitialEntry, isLong := !t.isLong, entryPrice := price,
          entrySize := t.config.MaxPosition, currentSize := t.config.MaxPosition }) := by
  have hinit : t.state = TraderState.InitialEntry →
      (tick pf gw t price).isLong = t.isLong ∨
      ((priceDiff t price).le (-(1 / 100)) = true ∧
        (tick pf gw t price).position =
          { phase := TraderState.InitialEntry, isLong := !t.isLong, entryPrice := price,
            entrySize := t.config.MaxPosition, currentSize := t.config.MaxPosition }) := by
    intro hs
    rw [tick_of_InitialEntry pf gw t price hs]
    have hc := closePosition_shape gw t
    rcases handleInitialEntryState_cases gw t price with h | h | ⟨hadv, hl, h⟩ | ⟨hadv, hl, h⟩
    · rw [h]; exact Or.inl rfl
    · rw [h]; exact Or.inl (reducePosition_shape gw t _).2.1
    · rw [h]
      rcases (enterShortPosition_shape gw (closePosition gw t) price).2 with h1 | h1
      · left
        have h2 := congrArg PositionState.isLong h1
        simp only [Trader.position] at h2
        rw [h2, hc.2.1]
      · right
        refine ⟨hadv, ?_⟩
        rw [h1, hc.1, hl]
        rfl
    · rw [h]
      rcases (enterLongPosition_shape gw (closePosition gw t) price).2 with h1 | ⟨h1, -⟩
      · left
        have h2 := congrArg PositionState.isLong h1
        simp only [Trader.position] at h2
        rw [h2, hc.2.1]
      · right
        refine ⟨hadv, ?_⟩
        rw [h1, hc.1, hl]
        rfl
  refine ⟨?_, ?_, ?_, ?_⟩
  · intro hs
    rw [tick_of_Idle pf gw t price hs]
    rcases handleIdleState_cases pf gw t price with h | ⟨hl, h⟩ | ⟨hl, h⟩
    · rw [h]
    · rw [h]
      rcases (enterLongPosition_shape gw t price).2 with h1 | ⟨h1, -⟩
      · exact congrArg PositionState.isLong h1
      · have h2 := congrArg PositionState.isLong h1
        simp only [Trader.position] at h2
        rw [h2, hl]
    · rw [h]
      rcases (enterShortPosition_shape gw t price).2 with h1 | h1
      · exact congrArg PositionState.isLong h1
      · have h2 := congrArg PositionState.isLong h1
        simp only [Trader.position] at h2
        rw [h2, hl]
  · intro hs
    rw [tick_of_SecondaryEntry pf gw t price hs]
    rcases handleSecondaryEntryState_cases gw t price with h | h | h | h
    · rw [h]
    · rw [h]; exact (reducePosition_shape gw t _).2.1
    · rw [h]; exact (reducePosition_shape gw t _).2.1
    · rw [h]; exact (closePosition_shape gw t).2.1
  · intro hs hle
    rcases hinit hs with h | ⟨hadv, -⟩
    · exact h
    · rw [hle] at hadv
      exact absurd hadv (by decide)
  · intro hs hne
    rcases hinit hs with h | h
    · exact absurd h hne
    · exact h

/-- Witness for the amended C14: an Idle tick, a SecondaryEntry tick and a favorable
InitialEntry tick of sample traders keep `isLong`. -/
theorem C14_isLong_changes_only_on_flip_witness :
    (tick noParser acceptAll sampleIdle 100).isLong = true ∧
    (tick noParser acceptAll sampleSecondaryLong 99).isLong = true ∧
    (tick noParser acceptAll sampleLong 101).isLong = true := by
  refine ⟨?_, ?_, ?_⟩
  · exact (C14_isLong_changes_only_on_flip noParser acceptAll sampleIdle 100).1 rfl
  · exact (C14_isLong_changes_only_on_flip noParser acceptAll sampleSecondaryLong 99).2.1 rfl
  · exact (C14_isLong_changes_only_on_flip noParser acceptAll sampleLong 101).2.2.1 rfl
      (by norm_num [priceDiff, sampleLong, fdiv, F64.le])

/-! ### C16 -/

theorem reducePosition_keeps_bounds (gw : Gateway) (t : Trader) (p : ℚ) (hp : 0 ≤ p)
    (h0 : 0 ≤ t.currentSize) (h1 : t.currentSize ≤ t.entrySize) :
    0 ≤ (reducePosition gw t p).currentSize ∧
      (reducePosition gw t p).currentSize ≤ (reducePosition gw t p).entrySize := by
  obtain ⟨-, -, -, he, hc⟩ := reducePosition_shape gw t p
  have hr1 : reduceSizeOf t p ≤ t.currentSize := by
    rw [reduceSizeOf_eq_min]; exact min_le_right _ _
  have hr0 : 0 ≤ reduceSizeOf t p := by
    rw [reduceSizeOf_eq_min]
    exact le_min (mul_nonneg hp (le_trans h0 h1)) h0
  rw [he]
  rcases hc with hc | hc <;> rw [hc] <;> constructor <;> linarith

theorem closePosition_keeps_bounds (gw : Gateway) (t : Trader)
    (h0 : 0 ≤ t.currentSize) (h1 : t.currentSize ≤ t.entrySize) :
    0 ≤ (closePosition gw t).currentSize ∧
      (closePosition gw t).currentSize ≤ (closePosition gw t).entrySize := by
  obtain ⟨-, -, -, he, hc⟩ := closePosition_shape gw t
  rw [he]
  rcases hc with hc | ⟨hc, -⟩
  · have h2 := congrArg PositionState.currentSize hc
    simp only [Trader.position] at h2
    rw [h2]
    exact ⟨h0, h1⟩
  · rw [hc]
    exact ⟨le_refl _, le_trans h0 h1⟩

theorem enterLongPosition_keeps_bounds (gw : Gateway) (t : Trader) (price : ℚ)
    (hmax : 0 ≤ t.config.MaxPosition)
    (h0 : 0 ≤ t.currentSize) (h1 : t.currentSize ≤ t.entrySize) :
    0 ≤ (enterLongPosition gw t price).currentSize ∧
      (enterLongPosition gw t price).currentSize ≤ (enterLongPosition gw t price).entrySize := by
  rcases (enterLongPosition_shape gw t price).2 with h | ⟨h, -⟩
  · have h2 := congrArg PositionState.currentSize h
    have h3 := congrArg PositionState.entrySize h
    simp only [Trader.position] at h2 h3
    rw [h2, h3]
    exact ⟨h0, h1⟩
  · have h2 := congrArg PositionState.currentSize h
    have h3 := congrArg PositionState.entrySize h
    simp only [Trader.position] at h2 h3
    rw [h2, h3]
    exact ⟨hmax, le_refl _⟩

theorem enterShortPosition_keeps_bounds (gw : Gateway) (t : Trader) (price : ℚ)
    (hmax : 0 ≤ t.config.MaxPosition)
    (h0 : 0 ≤ t.currentSize) (h1 : t.currentSize ≤ t.entrySize) :
    0 ≤ (enterShortPosition gw t price).currentSize ∧
      (enterShortPosition gw t price).currentSize ≤
        (enterShortPosition gw t price).entrySize := by
  rcases (enterShortPosition_shape gw t price).2 with h | h
  · have h2 := congrArg PositionState.currentSize h
    have h3 := congrArg PositionState.entrySize h
    simp only [Trader.position] at h2 h3
    rw [h2, h3]
    exact ⟨h0, h1⟩
  · have h2 := congrArg PositionState.currentSize h
    have h3 := congrArg PositionState.entrySize h
    simp only [Trader.position] at h2 h3
    rw [h2, h3]
    exact ⟨hmax, le_refl _⟩

theorem tick_config (pf : FloatParser) (gw : Gateway) (t : Trader) (price : ℚ) :
    (tick pf gw t price).config = t.config := by
  have hc := (closePosition_shape gw t).1
  cases hs : t.state
  · rw [tick_of_Idle pf gw t price hs]
    rcases handleIdleState_cases pf gw t price with h | ⟨-, h⟩ | ⟨-, h⟩
    · rw [h]
    · rw [h]; exact (enterLongPosition_shape gw t price).1
    · rw [h]; exact (enterShortPosition_shape gw t price).1
  · rw [tick_of_InitialEntry pf gw t price hs]
    rcases handleInitialEntryState_cases gw t price with h | h | ⟨-, -, h⟩ | ⟨-, -, h⟩
    · rw [h]
    · rw [h]; exact (reducePosition_shape gw t _).1
    · rw [h, (enterShortPosition_shape gw _ price).1, hc]
    · rw [h, (enterLongPosition_shape gw _ price).1, hc]
  · rw [tick_of_SecondaryEntry pf gw t price hs]
    rcases handleSecondaryEntryState_cases gw t price with h | h | h | h
    · rw [h]
    · rw [h]; exact (reducePosition_shape gw t _).1
    · rw [h]; exact (reducePosition_shape gw t _).1
    · rw [h]; exact hc

theorem tick_keeps_bounds (pf : FloatParser) (gw : Gateway) (t : Trader) (price : ℚ)
    (hmax : 0 ≤ t.config.MaxPosition)
    (h0 : 0 ≤ t.currentSize) (h1 : t.currentSize ≤ t.entrySize) :
    0 ≤ (tick pf gw t price).currentSize ∧
      (tick pf gw t price).currentSize ≤ (tick pf gw t price).entrySize := by
  have hc := closePosition_keeps_bounds gw t h0 h1
  have hcfg : 0 ≤ (closePosition gw t).config.MaxPosition := by
    rw [(closePosition_shape gw t).1]; exact hmax
  cases hs : t.state
  · rw [tick_of_Idle pf gw t price hs]
    rcases handleIdleState_cases pf gw t price with h | ⟨-, h⟩ | ⟨-, h⟩
    · rw [h]; exact ⟨h0, h1⟩
    · rw [h]; exact enterLongPosition_keeps_bounds gw t price hmax h0 h1
    · rw [h]; exact enterShortPosition_keeps_bounds gw t price hmax h0 h1
  · rw [tick_of_InitialEntry pf gw t price hs]
    rcases handleInitialEntryState_cases gw t price with h | h | ⟨-, -, h⟩ | ⟨-, -, h⟩
    · rw [h]; exact ⟨h0, h1⟩
    · rw [h]; exact reducePosition_keeps_bounds gw t _ (by norm_num) h0 h1
    · rw [h]; exact enterShortPosition_keeps_bounds gw _ price hcfg hc.1 hc.2
    · rw [h]; exact enterLongPosition_keeps_bounds gw _ price hcfg hc.1 hc.2
  · rw [tick_of_SecondaryEntry pf gw t price hs]
    rcases handleSecondaryEntryState_cases gw t price with h | h | h | h
    · rw [h]; exact ⟨h0, h1⟩
    · rw [h]; exact reducePosition_keeps_bounds gw t _ (by norm_num) h0 h1
    · rw [h]; exact reducePosition_keeps_bounds gw t _ (by norm_num) h0 h1
    · rw [h]; exact hc

theorem Run_keeps_bounds (pf : FloatParser) (inputs : List (Gateway × Option ℚ)) :
    ∀ t : Trader, 0 ≤ t.config.MaxPosition → 0 ≤ t.currentSize →
      t.currentSize ≤ t.entrySize →
      0 ≤ (Run pf t inputs).currentSize ∧
        (Run pf t inputs).currentSize ≤ (Run pf t inputs).entrySize := by
  induction inputs with
  | nil => intro t _ h0 h1; exact ⟨h0, h1⟩
  | cons x rest ih =>
    intro t hmax h0 h1
    obtain ⟨gw, o⟩ := x
    cases o with
    | none => exact ih t hmax h0 h1
    | some price =>
      have hb := tick_keeps_bounds pf gw t price hmax h0 h1
      exact ih (tick pf gw t price) (by rw [tick_config]; exact hmax) hb.1 hb.2

/-- C16: in every state that the control loop reaches from the start-up state (Idle, sizes
0) with `MaxPosition ≥ 0`, for every sequence of snapshot prices (or missing snapshots) and
every behaviour of the exchange, `0 ≤ currentSize ≤ entrySize`: what reductions and closes
have taken since an entry never exceeds the entry size. -/
theorem C16_size_within_entry (pf : FloatParser) (cfg : Config) (isBuy : Bool)
    (inputs : List (Gateway × Option ℚ)) (hmax : 0 ≤ cfg.MaxPosition) :
    0 ≤ (Run pf (NewTrader cfg isBuy) inputs).currentSize ∧
      (Run pf (NewTrader cfg isBuy) inputs).currentSize ≤
        (Run pf (NewTrader cfg isBuy) inputs).entrySize :=
  Run_keeps_bounds pf inputs (NewTrader cfg isBuy) hmax (le_refl _) (le_refl _)

/-- Witness for C16: the sample configuration, an entry at 100 followed by ticks at 101,
103 and 98 with every order accepted. -/
theorem C16_size_within_entry_witness :
    0 ≤ (Run noParser (NewTrader sampleConfig true)
        [(acceptAll, some 100), (acceptAll, none), (acceptAll, some 101),
         (acceptAll, some 103), (acceptAll, some 98)]).currentSize ∧
      (Run noParser (NewTrader sampleConfig true)
        [(acceptAll, some 100), (acceptAll, none), (acceptAll, some 101),
         (acceptAll, some 103), (acceptAll, some 98)]).currentSize ≤
      (Run noParser (NewTrader sampleConfig true)
        [(acceptAll, some 100), (acceptAll, none), (acceptAll, some 101),
         (acceptAll, some 103), (acceptAll, some 98)]).entrySize :=
  C16_size_within_entry noParser sampleConfig true _ (by norm_num [sampleConfig])

/-! ### C21 -/

theorem priceDiff_eq_move (t : Trader) (price : ℚ) (hp : 0 < t.entryPrice) :
    priceDiff t price = F64.fin (move t price) := by
  unfold priceDiff move
  cases t.isLong <;> simp [fdiv_of_ne _ _ (ne_of_gt hp)]

theorem fdiv_long_eq_move (t : Trader) (price : ℚ) (hp : 0 < t.entryPrice)
    (hl : t.isLong = true) :
    fdiv (price - t.entryPrice) t.entryPrice = F64.fin (move t price) := by
  rw [fdiv_of_ne _ _ (ne_of_gt hp)]
  simp [move, hl]

theorem fdiv_short_eq_move (t : Trader) (price : ℚ) (hp : 0 < t.entryPrice)
    (hl : t.isLong = false) :
    fdiv (t.entryPrice - price) t.entryPrice = F64.fin (move t price) := by
  rw [fdiv_of_ne _ _ (ne_of_gt hp)]
  simp [move, hl]

theorem handleInitialEntryState_of_band (gw : Gateway) (t : Trader) (price : ℚ)
    (hp : 0 < t.entryPrice) (hlo : -(1 / 100) < move t price) (hhi : move t price < 1 / 100) :
    handleInitialEntryState gw t price = t := by
  have h4 : ¬ ((4 : ℚ) / 100 ≤ move t price) := by intro h; linarith
  have h3 : ¬ ((3 : ℚ) / 100 ≤ move t price) := by intro h; linarith
  have h2 : ¬ ((2 : ℚ) / 100 ≤ move t price) := by intro h; linarith
  have h1 : ¬ ((1 : ℚ) / 100 ≤ move t price) := by intro h; linarith
  have h0 : ¬ (move t price ≤ -(1 / 100)) := by intro h; linarith
  unfold handleInitialEntryState
  cases hl : t.isLong
  · simp only [Bool.false_eq_true, if_false]
    unfold handleShortPosition
    simp only [fdiv_short_eq_move t price hp hl, F64.ge, F64.le, decide_eq_true_eq, h4, h3, h2,
      h1, h0, if_false]
  · simp only [if_true]
    unfold handleLongPosition
    simp only [fdiv_long_eq_move t price hp hl, F64.ge, F64.le, decide_eq_true_eq, h4, h3, h2,
      h1, h0, if_false]

theorem handleSecondaryEntryState_of_band (gw : Gateway) (t : Trader) (price : ℚ)
    (hp : 0 < t.entryPrice) (hlo : -(1 / 100) < move t price) (hhi : move t price < 1 / 100) :
    handleSecondaryEntryState gw t price = t := by
  have h3 : ¬ ((3 : ℚ) / 100 ≤ move t price) := by intro h; linarith
  have h2 : ¬ ((2 : ℚ) / 100 ≤ move t price) := by intro h; linarith
  have h1 : ¬ ((1 : ℚ) / 100 ≤ move t price) := by intro h; linarith
  have h0 : ¬ (move t price ≤ -(1 / 100)) := by intro h; linarith
  unfold handleSecondaryEntryState
  cases hl : t.isLong
  · simp only [Bool.false_eq_true, if_false]
    unfold handleSecondaryShortPosition
    simp only [fdiv_short_eq_move t price hp hl, F64.ge, F64.le, decide_eq_true_eq, h3, h2,
      h1, h0, if_false]
  · simp only [if_true]
    unfold handleSecondaryLongPosition
    simp only [fdiv_long_eq_move t price hp hl, F64.ge, F64.le, decide_eq_true_eq, h3, h2,
      h1, h0, if_false]

/-- C21: in InitialEntry (PrimaryEntry) and in SecondaryEntry with `entryPrice > 0`, a tick
at a price whose move lies strictly between -1% and +1% returns the trader as it was (no
order, position state unchanged).  For every other price exactly one branch acts: one
single reduction for a favorable move however many thresholds it passes (25% in
InitialEntry; in SecondaryEntry 25% from 2% on and 50% from 1% to below 2%), or the
adverse action alone for a move of at most -1%. -/
theorem C21_dead_band_and_first_match (pf : FloatParser) (gw : Gateway) (t : Trader)
    (price : ℚ) (hp : 0 < t.entryPrice) :
    (t.state = TraderState.InitialEntry →
      (-(1 / 100) < move t price → move t price < 1 / 100 → tick pf gw t price = t) ∧
      (1 / 100 ≤ move t price → tick pf gw t price = reducePosition gw t (25 / 100)) ∧
      (move t price ≤ -(1 / 100) →
        tick pf gw t price =
          if t.isLong then enterShortPosition gw (closePosition gw t) price
          else enterLongPosition gw (closePosition gw t) price)) ∧
    (t.state = TraderState.SecondaryEntry →
      (-(1 / 100) < move t price → move t price < 1 / 100 → tick pf gw t price = t) ∧
      (2 / 100 ≤ move t price → tick pf gw t price = reducePosition gw t (25 / 100)) ∧
      (1 / 100 ≤ move t price → move t price < 2 / 100 →
        tick pf gw t price = reducePosition gw t (5 / 10)) ∧
      (move t price ≤ -(1 / 100) →
        tick pf gw t price = { closePosition gw t with state := TraderState.Idle })) := by
  have hge : ∀ c : ℚ, c ≤ move t price → (priceDiff t price).ge c = true := by
    intro c hc
    rw [priceDiff_eq_move t price hp]
    simpa [F64.ge] using hc
  constructor
  · intro hs
    rw [tick_of_InitialEntry pf gw t price hs]
    refine ⟨handleInitialEntryState_of_band gw t price hp, ?_, ?_⟩
    · intro h
      exact handleInitialEntryState_of_favorable gw t price (hge _ h)
    · intro h
      unfold handleInitialEntryState
      cases hl : t.isLong
      · simp only [Bool.false_eq_true, if_false]
        exact handleShortPosition_of_adverse gw t price hp (by simpa [move, hl] using h)
      · simp only [if_true]
        exact handleLongPosition_of_adverse gw t price hp (by simpa [move, hl] using h)
  · intro hs
    rw [tick_of_SecondaryEntry pf gw t price hs]
    refine ⟨handleSecondaryEntryState_of_band gw t price hp, ?_, ?_, ?_⟩
    · intro h
      exact handleSecondaryEntryState_of_ge_two gw t price (hge _ h)
    · intro h1 h2
      refine handleSecondaryEntryState_of_ge_one_lt_two gw t price (hge _ h1) ?_
      rw [priceDiff_eq_move t price hp]
      simpa [F64.ge] using h2
    · intro h
      exact handleSecondaryEntryState_of_adverse gw t price hp (by simpa [move] using h)

/-- Witness for C21: the sample long position at 100.5 (move 0.5%) in both phases, and at
105 (move 5%, four thresholds passed, one reduction). -/
theorem C21_dead_band_and_first_match_witness :
    tick noParser acceptAll sampleLong (201 / 2) = sampleLong ∧
    tick noParser acceptAll sampleSecondaryLong (201 / 2) = sampleSecondaryLong ∧
    tick noParser acceptAll sampleLong 105 = reducePosition acceptAll sampleLong (25 / 100) := by
  refine ⟨?_, ?_, ?_⟩
  · exact ((C21_dead_band_and_first_match noParser acceptAll sampleLong (201 / 2)
      (by norm_num [sampleLong])).1 rfl).1
      (by norm_num [move, sampleLong]) (by norm_num [move, sampleLong])
  · exact ((C21_dead_band_and_first_match noParser acceptAll sampleSecondaryLong (201 / 2)
      (by norm_num [sampleSecondaryLong, sampleLong])).2 rfl).1
      (by norm_num [move, sampleSecondaryLong, sampleLong])
      (by norm_num [move, sampleSecondaryLong, sampleLong])
  · exact ((C21_dead_band_and_first_match noParser acceptAll sampleLong 105
      (by norm_num [sampleLong])).1 rfl).2.1 (by norm_num [move, sampleLong])

/-! ### C23 -/

theorem reducePosition_state (gw : Gateway) (t : Trader) (p : ℚ) :
    (reducePosition gw t p).state = t.state ∨
      (reducePosition gw t p).state = TraderState.Idle := by
  unfold reducePosition PlaceMarketOrder submitOrder
  simp only []
  split_ifs <;> simp

theorem reduceSizeOf_of_zero (t : Trader) (p : ℚ) (hp : 0 ≤ p) (he : 0 ≤ t.entrySize)
    (hc : t.currentSize = 0) : reduceSizeOf t p = 0 := by
  rw [reduceSizeOf_eq_min, hc]
  exact min_eq_right (mul_nonneg hp he)

theorem reducePosition_of_zero (gw : Gateway) (t : Trader) (p : ℚ) (hp : 0 ≤ p)
    (he : 0 ≤ t.entrySize) (hc : t.currentSize = 0) :
    (reducePosition gw t p).currentSize = 0 := by
  have hr := reduceSizeOf_of_zero t p hp he hc
  rcases (reducePosition_shape gw t p).2.2.2.2 with h | h
  · rw [h, hc]
  · rw [h, hc, hr]; norm_num

theorem enter_after_close_secondary (gw : Gateway) (t r : Trader)
    (hs : t.state = TraderState.InitialEntry)
    (hr : r.position = (closePosition gw t).position ∨
      r.position.phase = TraderState.InitialEntry)
    (hsec : r.state = TraderState.SecondaryEntry) : r.currentSize = 0 := by
  have hph : r.position.phase = TraderState.SecondaryEntry := hsec
  rcases hr with h | h
  · have hcs : r.currentSize = (closePosition gw t).currentSize :=
      congrArg PositionState.currentSize h
    have hst : (closePosition gw t).state = TraderState.SecondaryEntry := by
      have := congrArg PositionState.phase h
      simp only [Trader.position] at this
      rw [← this]; exact hsec
    rcases (closePosition_shape gw t).2.2.2.2 with h1 | ⟨h1, -⟩
    · have h2 := congrArg PositionState.phase h1
      simp only [Trader.position] at h2
      rw [hst, hs] at h2
      exact absurd h2 (by decide)
    · rw [hcs, h1]
  · rw [hph] at h
    exact absurd h (by decide)

theorem tick_keeps_secondary_zero (pf : FloatParser) (gw : Gateway) (t : Trader) (price : ℚ)
    (h0 : 0 ≤ t.currentSize) (h1 : t.currentSize ≤ t.entrySize)
    (hz : t.state = TraderState.SecondaryEntry → t.currentSize = 0) :
    (tick pf gw t price).state = TraderState.SecondaryEntry →
      (tick pf gw t price).currentSize = 0 := by
  have he : 0 ≤ t.entrySize := le_trans h0 h1
  cases hs : t.state
  · rw [tick_of_Idle pf gw t price hs]
    intro hsec
    rcases handleIdleState_state pf gw t price with h | h
    · rw [h, hs] at hsec; exact absurd hsec (by decide)
    · rw [h] at hsec; exact absurd hsec (by decide)
  · rw [tick_of_InitialEntry pf gw t price hs]
    rcases handleInitialEntryState_cases gw t price with h | h | ⟨-, -, h⟩ | ⟨-, -, h⟩
    · rw [h]; intro hsec; rw [hs] at hsec; exact absurd hsec (by decide)
    · rw [h]; intro hsec
      rcases reducePosition_state gw t (25 / 100) with h2 | h2
      · rw [h2, hs] at hsec; exact absurd hsec (by decide)
      · rw [h2] at hsec; exact absurd hsec (by decide)
    · rw [h]; intro hsec
      refine enter_after_close_secondary gw t _ hs ?_ hsec
      rcases (enterShortPosition_shape gw (closePosition gw t) price).2 with h2 | h2
      · exact Or.inl h2
      · exact Or.inr (by rw [h2])
    · rw [h]; intro hsec
      refine enter_after_close_secondary gw t _ hs ?_ hsec
      rcases (enterLongPosition_shape gw (closePosition gw t) price).2 with h2 | ⟨h2, -⟩
      · exact Or.inl h2
      · exact Or.inr (by rw [h2])
  · rw [tick_of_SecondaryEntry pf gw t price hs]
    have hc := hz hs
    rcases handleSecondaryEntryState_cases gw t price with h | h | h | h
    · rw [h]; intro _; exact hc
    · rw [h]; intro _; exact reducePosition_of_zero gw t _ (by norm_num) he hc
    · rw [h]; intro _; exact reducePosition_of_zero gw t _ (by norm_num) he hc
    · rw [h]; intro hsec; exact absurd hsec (by simp)

theorem Run_keeps_secondary_zero (pf : FloatParser) (inputs : List (Gateway × Option ℚ)) :
    ∀ t : Trader, 0 ≤ t.config.MaxPosition → 0 ≤ t.currentSize →
      t.currentSize ≤ t.entrySize →
      (t.state = TraderState.SecondaryEntry → t.currentSize = 0) →
      (Run pf t inputs).state = TraderState.SecondaryEntry →
        (Run pf t inputs).currentSize = 0 := by
  induction inputs with
  | nil => intro t _ _ _ hz; exact hz
  | cons x rest ih =>
    intro t hmax h0 h1 hz
    obtain ⟨gw, o⟩ := x
    cases o with
    | none => exact ih t hmax h0 h1 hz
    | some price =>
      have hb := tick_keeps_bounds pf gw t price hmax h0 h1
      exact ih (tick pf gw t price) (by rw [tick_config]; exact hmax) hb.1 hb.2
        (tick_keeps_secondary_zero pf gw t price h0 h1 hz)

/-- C23: in every state that the control loop reaches from the start-up state with
`MaxPosition ≥ 0`, for every sequence of snapshot prices and every behaviour of the
exchange, the phase SecondaryEntry implies `currentSize = 0`. -/
theorem C23_secondary_has_no_size (pf : FloatParser) (cfg : Config) (isBuy : Bool)
    (inputs : List (Gateway × Option ℚ)) (hmax : 0 ≤ cfg.MaxPosition) :
    (Run pf (NewTrader cfg isBuy) inputs).state = TraderState.SecondaryEntry →
      (Run pf (NewTrader cfg isBuy) inputs).currentSize = 0 :=
  Run_keeps_secondary_zero pf inputs (NewTrader cfg isBuy) hmax (le_refl _) (le_refl _)
    (fun _ => rfl)

theorem Run_sample_reaches_secondary :
    (Run noParser (NewTrader sampleConfig true)
      [(acceptAll, some 100), (acceptSecondOnly, some 99)]).state =
      TraderState.SecondaryEntry := by
  simp [Run, tick, NewTrader, handleIdleState, enterLongPosition, sampleConfig, submitOrder,
    acceptAll, supportedMarket, toUpper_eq_empty_iff, handleInitialEntryState,
    handleLongPosition, fdiv, F64.ge, F64.le, closePosition, enterShortPosition,
    PlaceMarketOrder, acceptSecondOnly]
  norm_num
  split_ifs <;> rfl

/-- Witness for C23: an entry at 100, then a tick at 99 on which the close is accepted and
the opposite entry is rejected; the run ends in SecondaryEntry. -/
theorem C23_secondary_has_no_size_witness :
    (Run noParser (NewTrader sampleConfig true)
      [(acceptAll, some 100), (acceptSecondOnly, some 99)]).state =
      TraderState.SecondaryEntry ∧
    (Run noParser (NewTrader sampleConfig true)
      [(acceptAll, some 100), (acceptSecondOnly, some 99)]).currentSize = 0 :=
  ⟨Run_sample_reaches_secondary,
   C23_secondary_has_no_size noParser sampleConfig true _ (by norm_num [sampleConfig])
     Run_sample_reaches_secondary⟩

/-! ### C24 -/

theorem formatQuantity_posInf : formatQuantity (fdiv 100 0) = "+Inf" := by
  have h : fdiv 100 0 = F64.posInf := by simp [fdiv]
  rw [h]
  decide

/-- C24 (evaluation of the code): a trader started short with a market entry signal, first
snapshot price 0, order call returning without error.  `enterShortPosition` has no price
check: it submits a sell order with quantity "+Inf" and the run ends in InitialEntry with
`entryPrice = 0`.  The same happens on the adverse tick of a long position when the
snapshot price is 0.  The long entry at price 0 is refused by the check in
`enterLongPosition` and leaves the trader as it was. -/
theorem C24_short_entry_at_zero_price :
    (Run noParser (NewTrader sampleConfig false) [(acceptAll, some 0)]).position =
      { phase := TraderState.InitialEntry, isLong := false, entryPrice := 0,
        entrySize := 100, currentSize := 100 } ∧
    (Run noParser (NewTrader sampleConfig false) [(acceptAll, some 0)]).orders =
      [Order.mk "spot" "BTCUSDT" Side.Sell "+Inf"] ∧
    (tick noParser acceptAll sampleLong 0).position =
      { phase := TraderState.InitialEntry, isLong := false, entryPrice := 0,
        entrySize := 100, currentSize := 100 } ∧
    Run noParser (NewTrader sampleConfig true) [(acceptAll, some 0)] =
      NewTrader sampleConfig true := by
  have hu : toUpper "BTCUSDT" = "BTCUSDT" := by decide
  refine ⟨?_, ?_, ?_, ?_⟩
  · simp [Run, tick, NewTrader, handleIdleState, enterShortPosition, sampleConfig, submitOrder,
      acceptAll, supportedMarket, toUpper_eq_empty_iff, Trader.position]
  · simp [Run, tick, NewTrader, handleIdleState, enterShortPosition, sampleConfig, submitOrder,
      acceptAll, supportedMarket, toUpper_eq_empty_iff, hu, formatQuantity_posInf]
  · simp [tick, handleInitialEntryState, handleLongPosition, sampleLong, sampleConfig, fdiv,
      F64.ge, F64.le, closePosition, enterShortPosition, PlaceMarketOrder, submitOrder,
      acceptAll, supportedMarket, Trader.position, toUpper_eq_empty_iff]
    norm_num
  · simp [Run, tick, NewTrader, handleIdleState, enterLongPosition, sampleConfig,
      toUpper_eq_empty_iff]

/-! ### C22 -/

theorem formatQuantity_eq_trimQuantity (x : F64) :
    formatQuantity x = trimQuantity (sprintf8 x) := rfl

theorem trimRight_data (s : String) (cut : List Char) :
    (trimRight s cut).data = List.rdropWhile (fun c => decide (c ∈ cut)) s.data := rfl

theorem isDigit_ne_point (c : Char) (h : c.isDigit = true) : c ≠ '.' := by
  intro hc
  subst hc
  exact absurd h (by decide)

theorem mem_of_mem_rdropWhile (p : Char → Bool) (l : List Char) :
    ∀ x, x ∈ List.rdropWhile p l → x ∈ l := by
  induction l using List.reverseRecOn with
  | nil => intro x hx; simp at hx
  | append_singleton l a ih =>
    intro x hx
    by_cases ha : p a = true
    · rw [List.rdropWhile_concat_pos p l a ha] at hx
      exact List.mem_append_left _ (ih x hx)
    · rw [List.rdropWhile_concat_neg p l a ha] at hx
      exact hx

theorem rdropWhile_stops_at (p : Char → Bool) (d : Char) (hd : p d = false)
    (ip fr : List Char) :
    List.rdropWhile p (ip ++ d :: fr) = ip ++ d :: List.rdropWhile p fr := by
  induction fr using List.reverseRecOn with
  | nil =>
    rw [List.rdropWhile_nil]
    exact List.rdropWhile_concat_neg p ip d (by simp [hd])
  | append_singleton l a ih =>
    have hcat : ip ++ d :: (l ++ [a]) = (ip ++ d :: l) ++ [a] := by simp
    rw [hcat]
    by_cases ha : p a = true
    · rw [List.rdropWhile_concat_pos p _ a ha, List.rdropWhile_concat_pos p l a ha, ih]
    · rw [List.rdropWhile_concat_neg p _ a ha, List.rdropWhile_concat_neg p l a ha]
      simp

theorem digitsValue_concat (l : List Char) (a : Char) :
    digitsValue (l ++ [a]) = 10 * digitsValue l + (a.toNat - 48) := by
  simp [digitsValue, List.foldl_append]

theorem fraction_value_rdropWhile (p : Char → Bool) (hp : ∀ a, p a = true → a = '0')
    (fr : List Char) :
    (digitsValue (List.rdropWhile p fr) : ℚ) / 10 ^ (List.rdropWhile p fr).length =
      (digitsValue fr : ℚ) / 10 ^ fr.length := by
  induction fr using List.reverseRecOn with
  | nil => simp
  | append_singleton l a ih =>
    by_cases ha : p a = true
    · rw [List.rdropWhile_concat_pos p l a ha, ih]
      have ha' : a = '0' := hp a ha
      subst ha'
      rw [digitsValue_concat]
      have h0 : ('0' : Char).toNat - 48 = 0 := by decide
      rw [h0, List.length_append, List.length_singleton, pow_succ]
      push_cast
      field_simp
      ring
    · rw [List.rdropWhile_concat_neg p l a ha]

theorem getLast?_after_point (ip g : List Char) (hg : g ≠ []) :
    (ip ++ '.' :: g).getLast? = some (g.getLast hg) := by
  have h1 : ip ++ '.' :: g = (ip ++ ['.']) ++ g := by simp
  rw [h1, List.getLast?_append_of_ne_nil _ hg, List.getLast?_eq_getLast]

theorem rdropWhile_point_of_digits (ip : List Char) (hipd : ∀ c ∈ ip, c.isDigit = true) :
    List.rdropWhile (fun c => decide (c ∈ ['.'])) ip = ip := by
  rw [List.rdropWhile_eq_self_iff]
  intro hl
  have hne := isDigit_ne_point _ (hipd _ (List.getLast_mem hl))
  simpa using hne

/-- The text that the two trimming steps leave of `<ip>.<fr>`. -/
theorem trimQuantity_data (ip fr : List Char) (hipd : ∀ c ∈ ip, c.isDigit = true)
    (hfrd : ∀ c ∈ fr, c.isDigit = true) :
    (trimQuantity (String.mk (ip ++ '.' :: fr))).data =
      if List.rdropWhile (fun c => decide (c ∈ ['0'])) fr = [] then ip
      else ip ++ '.' :: List.rdropWhile (fun c => decide (c ∈ ['0'])) fr := by
  unfold trimQuantity
  rw [trimRight_data, trimRight_data]
  simp only []
  rw [rdropWhile_stops_at (fun c => decide (c ∈ ['0'])) '.' (by decide)]
  by_cases hg : List.rdropWhile (fun c => decide (c ∈ ['0'])) fr = []
  · rw [hg, if_pos rfl]
    rw [List.rdropWhile_concat_pos (fun c => decide (c ∈ ['.'])) ip '.' (by decide)]
    exact rdropWhile_point_of_digits ip hipd
  · rw [if_neg hg]
    rw [List.rdropWhile_eq_self_iff]
    intro hl
    have hlast : (ip ++ '.' :: List.rdropWhile (fun c => decide (c ∈ ['0'])) fr).getLast hl =
        (List.rdropWhile (fun c => decide (c ∈ ['0'])) fr).getLast hg := by
      have h1 := getLast?_after_point ip _ hg
      rw [List.getLast?_eq_getLast _ hl] at h1
      exact Option.some.inj h1
    rw [hlast]
    have hmem := mem_of_mem_rdropWhile _ fr _ (List.getLast_mem hg)
    have hne := isDigit_ne_point _ (hfrd _ hmem)
    simpa using hne

theorem decimalValue_of_digits (ip : List Char) (hipd : ∀ c ∈ ip, c.isDigit = true) :
    decimalValue (String.mk ip) = (digitsValue ip : ℚ) := by
  have hall : ∀ c ∈ ip, (fun c : Char => c != '.') c = true := by
    intro c hc
    simpa using isDigit_ne_point c (hipd c hc)
  have h1 : ip.takeWhile (fun c => c != '.') = ip := List.takeWhile_eq_self_iff.mpr hall
  have h2 : ip.dropWhile (fun c => c != '.') = [] := by
    have := List.takeWhile_append_dropWhile (fun c => c != '.') ip
    rw [h1] at this
    simpa using this
  unfold decimalValue
  simp only [h1, h2]
  simp [digitsValue]

theorem decimalValue_of_point (ip g : List Char) (hipd : ∀ c ∈ ip, c.isDigit = true) :
    decimalValue (String.mk (ip ++ '.' :: g)) =
      (digitsValue ip : ℚ) + (digitsValue g : ℚ) / 10 ^ g.length := by
  have hall : ∀ c ∈ ip, (fun c : Char => c != '.') c = true := by
    intro c hc
    simpa using isDigit_ne_point c (hipd c hc)
  unfold decimalValue
  simp only [List.takeWhile_append_of_pos hall, List.dropWhile_append_of_pos hall]
  simp


/-- C22: for every text `<digits>.<digits>` (in particular one or more digits, a point and
exactly 8 digits, the `%.8f` rendering of a quantity), the trimming done by
`formatQuantity` returns a text that denotes the same decimal number, does not end in the
point, has no trailing zero when it still contains the point, and starts with the integer
part unchanged (its digits up to the point, or the whole text when the point is gone). -/
theorem C22_trim_keeps_number (ip fr : List Char)
    (hipd : ∀ c ∈ ip, c.isDigit = true) (hfrd : ∀ c ∈ fr, c.isDigit = true) :
    decimalValue (trimQuantity (String.mk (ip ++ '.' :: fr))) =
        decimalValue (String.mk (ip ++ '.' :: fr)) ∧
      (trimQuantity (String.mk (ip ++ '.' :: fr))).data.getLast? ≠ some '.' ∧
      ('.' ∈ (trimQuantity (String.mk (ip ++ '.' :: fr))).data →
        (trimQuantity (String.mk (ip ++ '.' :: fr))).data.getLast? ≠ some '0') ∧
      (trimQuantity (String.mk (ip ++ '.' :: fr))).data.takeWhile (fun c => c != '.') = ip ∧
      ∀ x, formatQuantity x = trimQuantity (sprintf8 x) := by
  have hall : ∀ c ∈ ip, (fun c : Char => c != '.') c = true := by
    intro c hc
    simpa using isDigit_ne_point c (hipd c hc)
  have hnotin : '.' ∉ ip := fun h => absurd (hipd _ h) (by decide)
  have hdata := trimQuantity_data ip fr hipd hfrd
  have hval := fraction_value_rdropWhile (fun c => decide (c ∈ ['0']))
    (fun a ha => by simpa using ha) fr
  by_cases hg : List.rdropWhile (fun c => decide (c ∈ ['0'])) fr = []
  · rw [hg, if_pos rfl] at hdata
    have hstr : trimQuantity (String.mk (ip ++ '.' :: fr)) = String.mk ip := String.ext hdata
    rw [hg] at hval
    refine ⟨?_, ?_, ?_, ?_, formatQuantity_eq_trimQuantity⟩
    · rw [hstr, decimalValue_of_digits ip hipd, decimalValue_of_point ip fr hipd, ← hval]
      simp [digitsValue]
    · rw [hdata]
      intro h
      exact hnotin (List.mem_of_getLast?_eq_some h)
    · rw [hdata]
      intro h
      exact absurd h hnotin
    · rw [hdata]
      exact List.takeWhile_eq_self_iff.mpr hall
  · rw [if_neg hg] at hdata
    have hstr : trimQuantity (String.mk (ip ++ '.' :: fr)) =
        String.mk (ip ++ '.' :: List.rdropWhile (fun c => decide (c ∈ ['0'])) fr) :=
      String.ext hdata
    have hlast := getLast?_after_point ip _ hg
    have hmem := mem_of_mem_rdropWhile _ fr _ (List.getLast_mem hg)
    refine ⟨?_, ?_, ?_, ?_, formatQuantity_eq_trimQuantity⟩
    · rw [hstr, decimalValue_of_point ip _ hipd, decimalValue_of_point ip fr hipd, hval]
    · rw [hdata, hlast]
      intro h
      have h1 := Option.some.inj h
      exact isDigit_ne_point _ (hfrd _ hmem) h1
    · intro _
      rw [hdata, hlast]
      intro h
      have h1 := Option.some.inj h
      have hnot := List.rdropWhile_last_not (fun c => decide (c ∈ ['0'])) fr hg
      rw [h1] at hnot
      exact hnot (by decide)
    · rw [hdata, List.takeWhile_append_of_pos hall]
      simp

/-- Witness for C22: the renderings of 100, 0 and 0.25. -/
theorem C22_trim_keeps_number_witness :
    trimQuantity "100.00000000" = "100" ∧ trimQuantity "0.00000000" = "0" ∧
    trimQuantity "0.25000000" = "0.25" ∧
    decimalValue (trimQuantity "0.25000000") = decimalValue "0.25000000" ∧
    decimalValue (trimQuantity "100.00000000") = decimalValue "100.00000000" := by
  refine ⟨by decide, by decide, by decide, ?_, ?_⟩
  · exact (C22_trim_keeps_number ['0'] ['2', '5', '0', '0', '0', '0', '0', '0']
      (by decide) (by decide)).1
  · exact (C22_trim_keeps_number ['1', '0', '0'] ['0', '0', '0', '0', '0', '0', '0', '0']
      (by decide) (by decide)).1

/-! ### Rounding to `float64` -/

theorem roundHalfEven_of_near (q : ℚ) (n : ℕ) (h1 : (n : ℚ) - 1 / 2 < q)
    (h2 : q < (n : ℚ) + 1 / 2) : roundHalfEven q = n := by
  unfold roundHalfEven
  by_cases hq : (n : ℚ) ≤ q
  · have hf : ⌊q⌋ = (n : ℤ) := by
      rw [Int.floor_eq_iff]
      push_cast
      constructor <;> linarith
    simp only [hf, Int.toNat_ofNat]
    rw [if_pos (by linarith)]
  · push_neg at hq
    rcases Nat.eq_zero_or_pos n with h0 | hpos
    · subst h0
      simp only [Nat.cast_zero] at h1 h2 hq
      have hf : ⌊q⌋ = -1 := by
        rw [Int.floor_eq_iff]
        push_cast
        constructor <;> linarith
      have ht : Int.toNat (-1) = 0 := rfl
      simp only [hf, ht, Nat.cast_zero]
      rw [if_pos (by linarith)]
    · have hf : ⌊q⌋ = ((n - 1 : ℕ) : ℤ) := by
        rw [Int.floor_eq_iff]
        push_cast [Nat.cast_sub hpos]
        constructor <;> linarith
      simp only [hf, Int.toNat_ofNat]
      have hc : (((n - 1 : ℕ) : ℚ)) = (n : ℚ) - 1 := by
        push_cast [Nat.cast_sub hpos]; ring
      rw [hc, if_neg (by linarith), if_pos (by linarith)]
      omega

theorem roundHalfEven_natCast (n : ℕ) : roundHalfEven (n : ℚ) = n :=
  roundHalfEven_of_near (n : ℚ) n (by linarith) (by linarith)

theorem roundHalfEven_tie (f : ℕ) :
    roundHalfEven ((f : ℚ) + 1 / 2) = if f % 2 = 0 then f else f + 1 := by
  unfold roundHalfEven
  have hf : ⌊(f : ℚ) + 1 / 2⌋ = (f : ℤ) := by
    rw [Int.floor_eq_iff]
    push_cast
    constructor <;> linarith
  simp only [hf, Int.toNat_ofNat]
  have hr : (f : ℚ) + 1 / 2 - (f : ℚ) = 1 / 2 := by ring
  rw [hr, if_neg (lt_irrefl _), if_neg (lt_irrefl _)]

theorem log_two_eq (x : ℚ) (k : ℤ) (hx : 0 < x) (h1 : (2 : ℚ) ^ k ≤ x)
    (h2 : x < (2 : ℚ) ^ (k + 1)) : Int.log 2 x = k := by
  have hb : 1 < 2 := by norm_num
  have ha : k ≤ Int.log 2 x := (Int.zpow_le_iff_le_log hb hx).1 (by exact_mod_cast h1)
  have hc : Int.log 2 x < k + 1 := (Int.lt_zpow_iff_log_lt hb hx).1 (by exact_mod_cast h2)
  omega

/-- Evaluation of `roundF64` at a positive value with known binade and rounded significand. -/
theorem roundF64_eval (x : ℚ) (k : ℤ) (n : ℕ) (hx : 0 < x) (h1 : (2 : ℚ) ^ k ≤ x)
    (h2 : x < (2 : ℚ) ^ (k + 1)) (hn : roundHalfEven (x / 2 ^ (k - 52)) = n) :
    roundF64 x = (n : ℚ) * 2 ^ (k - 52) := by
  unfold roundF64
  rw [if_neg (ne_of_gt hx)]
  simp only [abs_of_pos hx, log_two_eq x k hx h1 h2, hn]
  rw [if_neg (not_lt.mpr (le_of_lt hx))]

theorem roundF64_zero : roundF64 0 = 0 := by
  simp [roundF64]

/-- A value with a significand of exactly 53 bits is a `float64` value. -/
theorem roundF64_mantissa (n : ℕ) (j : ℤ) (h1 : 2 ^ 52 ≤ n) (h2 : n < 2 ^ 53) :
    roundF64 ((n : ℚ) * 2 ^ j) = (n : ℚ) * 2 ^ j := by
  have hpow : (0 : ℚ) < 2 ^ j := zpow_pos (by norm_num) j
  have hn1 : (2 : ℚ) ^ (52 : ℕ) ≤ (n : ℚ) := by exact_mod_cast h1
  have hn2 : (n : ℚ) < 2 ^ (53 : ℕ) := by exact_mod_cast h2
  have hnpos : (0 : ℚ) < n := lt_of_lt_of_le (by positivity) hn1
  have e1 : (2 : ℚ) ^ (j + 52) = 2 ^ (52 : ℕ) * 2 ^ j := by
    rw [zpow_add₀ (by norm_num : (2 : ℚ) ≠ 0), mul_comm]
    norm_cast
  have e2 : (2 : ℚ) ^ (j + 52 + 1) = 2 ^ (53 : ℕ) * 2 ^ j := by
    have : j + 52 + 1 = j + 53 := by ring
    rw [this, zpow_add₀ (by norm_num : (2 : ℚ) ≠ 0), mul_comm]
    norm_cast
  have h := roundF64_eval ((n : ℚ) * 2 ^ j) (j + 52) n (mul_pos hnpos hpow)
    (by rw [e1]; exact mul_le_mul_of_nonneg_right hn1 (le_of_lt hpow))
    (by rw [e2]; exact mul_lt_mul_of_pos_right hn2 hpow)
    (by
      have : j + 52 - 52 = j := by ring
      rw [this, mul_div_assoc, div_self (ne_of_gt hpow), mul_one]
      exact roundHalfEven_natCast n)
  have : j + 52 - 52 = j := by ring
  rw [this] at h
  exact h

/-- Halving commutes with rounding (the exponent range is not bounded). -/
theorem roundF64_half (x : ℚ) : roundF64 (x / 2) = roundF64 x / 2 := by
  by_cases hx : x = 0
  · subst hx; simp [roundF64]
  · have hx2 : x / 2 ≠ 0 := by
      intro h; apply hx; linarith
    have habs : |x / 2| = |x| / 2 := by
      rw [abs_div, abs_of_pos (by norm_num : (0 : ℚ) < 2)]
    have hpos : 0 < |x| := abs_pos.mpr hx
    have hb : 1 < 2 := by norm_num
    have hlog : Int.log 2 (|x| / 2) = Int.log 2 |x| - 1 := by
      apply log_two_eq _ _ (by linarith)
      · have h := Int.zpow_log_le_self hb hpos
        have h' : (2 : ℚ) ^ Int.log 2 |x| ≤ |x| := by exact_mod_cast h
        rw [zpow_sub_one₀ (by norm_num : (2 : ℚ) ≠ 0)]
        rw [div_eq_mul_inv]
        exact mul_le_mul_of_nonneg_right h' (by norm_num)
      · have h := Int.lt_zpow_succ_log_self hb |x|
        have h' : |x| < (2 : ℚ) ^ (Int.log 2 |x| + 1) := by exact_mod_cast h
        have e : Int.log 2 |x| - 1 + 1 = Int.log 2 |x| := by ring
        rw [e]
        rw [zpow_add_one₀ (by norm_num : (2 : ℚ) ≠ 0)] at h'
        linarith
    have hulp : (2 : ℚ) ^ (Int.log 2 |x| - 1 - 52) = 2 ^ (Int.log 2 |x| - 52) / 2 := by
      have e : Int.log 2 |x| - 1 - 52 = Int.log 2 |x| - 52 - 1 := by ring
      rw [e, zpow_sub_one₀ (by norm_num : (2 : ℚ) ≠ 0), div_eq_mul_inv]
    have hneg : (x / 2 < 0) ↔ (x < 0) := by
      constructor <;> intro h <;> linarith
    have hulppos : (0 : ℚ) < 2 ^ (Int.log 2 |x| - 52) := zpow_pos (by norm_num) _
    unfold roundF64
    rw [if_neg hx, if_neg hx2]
    simp only [habs, hlog, hulp, hneg]
    have hq : |x| / 2 / (2 ^ (Int.log 2 |x| - 52) / 2) = |x| / 2 ^ (Int.log 2 |x| - 52) := by
      field_simp
    rw [hq]
    split_ifs <;> ring

theorem roundF64_quarter (e : ℚ) (h : roundF64 e = e) :
    roundF64 (e * (25 / 100)) = e * (25 / 100) := by
  have h1 : e * (25 / 100) = e / 2 / 2 := by ring
  rw [h1, roundF64_half, roundF64_half, h]

theorem roundF64_one : roundF64 1 = 1 := by
  have h := roundF64_mantissa 4503599627370496 (-52) (by norm_num) (by norm_num)
  have e : ((4503599627370496 : ℕ) : ℚ) * 2 ^ (-52 : ℤ) = 1 := by norm_num
  rw [e] at h
  exact h

/-- With the identity for `fl` the rounded tick is the exact tick. -/
theorem tickFl_id (pf : FloatParser) (gw : Gateway) (t : Trader) (p : ℚ) :
    tickFl id pf gw t p = tick pf gw t p := by
  have hdiv : ∀ a b, fdivFl id a b = fdiv a b := by
    intro a b; unfold fdivFl; cases fdiv a b <;> rfl
  simp only [tickFl, tick, handleIdleStateFl, handleIdleState, handleInitialEntryStateFl,
    handleInitialEntryState, handleSecondaryEntryStateFl, handleSecondaryEntryState,
    handleLongPositionFl, handleLongPosition, handleShortPositionFl, handleShortPosition,
    handleSecondaryLongPositionFl, handleSecondaryLongPosition, handleSecondaryShortPositionFl,
    handleSecondaryShortPosition, reducePositionFl, reducePosition, reduceSizeOfFl,
    reduceSizeOf, closePositionFl, closePosition, enterLongPositionFl, enterLongPosition,
    enterShortPositionFl, enterShortPosition, hdiv, id]

/-! ### C25 -/

theorem tickFl_of_InitialEntry (fl : ℚ → ℚ) (pf : FloatParser) (gw : Gateway) (t : Trader)
    (price : ℚ) (hs : t.state = TraderState.InitialEntry) :
    tickFl fl pf gw t price = handleInitialEntryStateFl fl gw t price := by
  unfold tickFl; rw [hs]

theorem handleInitialEntryStateFl_of_favorable (fl : ℚ → ℚ) (gw : Gateway) (t : Trader)
    (price : ℚ) (h : (priceDiffFl fl t price).ge (fl (1 / 100)) = true) :
    handleInitialEntryStateFl fl gw t price = reducePositionFl fl gw t (25 / 100) := by
  unfold handleInitialEntryStateFl
  unfold priceDiffFl at h
  cases hl : t.isLong
  · rw [hl] at h
    simp only [Bool.false_eq_true, if_false] at h ⊢
    unfold handleShortPositionFl
    simp only [h, if_true]
    split_ifs <;> rfl
  · rw [hl] at h
    simp only [if_true] at h ⊢
    unfold handleLongPositionFl
    simp only [h, if_true]
    split_ifs <;> rfl

theorem priceDiffFl_congr (fl : ℚ → ℚ) (t t' : Trader) (price : ℚ)
    (hl : t'.isLong = t.isLong) (he : t'.entryPrice = t.entryPrice) :
    priceDiffFl fl t' price = priceDiffFl fl t price := by
  unfold priceDiffFl
  rw [hl, he]

/-- One favorable tick in InitialEntry with rounded arithmetic, for a slice `q` that does
not exceed the current size and a rounded difference `c`. -/
theorem tickFl_favorable_step (pf : FloatParser) (gw : Gateway) (t : Trader) (price q c : ℚ)
    (hs : t.state = TraderState.InitialEntry)
    (hfav : (priceDiffFl roundF64 t price).ge (roundF64 (1 / 100)) = true)
    (hm : supportedMarket t.config.Market = true) (hok : ∀ h o, gw h o = true)
    (hq : roundF64 (t.entrySize * (25 / 100)) = q) (hle : ¬ q > t.currentSize)
    (hc : roundF64 (t.currentSize - q) = c) :
    (tickFl roundF64 pf gw t price).config = t.config ∧
      (tickFl roundF64 pf gw t price).isLong = t.isLong ∧
      (tickFl roundF64 pf gw t price).entryPrice = t.entryPrice ∧
      (tickFl roundF64 pf gw t price).entrySize = t.entrySize ∧
      (tickFl roundF64 pf gw t price).currentSize = c ∧
      (tickFl roundF64 pf gw t price).state =
        (if c ≤ 0 then TraderState.Idle else TraderState.InitialEntry) := by
  have hr : reduceSizeOfFl roundF64 t (25 / 100) = q := by
    unfold reduceSizeOfFl
    simp only [hq]
    rw [if_neg hle]
  rw [tickFl_of_InitialEntry roundF64 pf gw t price hs,
    handleInitialEntryStateFl_of_favorable roundF64 gw t price hfav]
  unfold reducePositionFl PlaceMarketOrder submitOrder
  simp only [hm, if_true, hok, hr, hc]
  split_ifs <;> simp_all

theorem sampleLongDust_favorable :
    (priceDiffFl roundF64 sampleLongDust 101).ge (roundF64 (1 / 100)) = true := by
  have h1 : (101 : ℚ) - 100 = 1 := by norm_num
  have h2 : fdiv 1 100 = F64.fin (1 / 100) := fdiv_of_ne _ _ (by norm_num)
  simp [priceDiffFl, sampleLongDust, fdivFl, h1, roundF64_one, h2, F64.ge]

theorem sampleLong_favorable :
    (priceDiffFl roundF64 sampleLong 101).ge (roundF64 (1 / 100)) = true := by
  have h1 : (101 : ℚ) - 100 = 1 := by norm_num
  have h2 : fdiv 1 100 = F64.fin (1 / 100) := fdiv_of_ne _ _ (by norm_num)
  simp [priceDiffFl, sampleLong, fdivFl, h1, roundF64_one, h2, F64.ge]

theorem roundF64_size1000_1 : roundF64 size1000_1 = size1000_1 := by
  have h := roundF64_mantissa 8796972631510221 (-43) (by norm_num) (by norm_num)
  have e : ((8796972631510221 : ℕ) : ℚ) * 2 ^ (-43 : ℤ) = size1000_1 := by
    norm_num [size1000_1]
  rw [e] at h
  exact h

/-- The first rounded difference: three quarters of the size, rounded up in the last bit. -/
theorem dust_round_one :
    roundF64 (size1000_1 - size1000_1 * (25 / 100)) = 6597729473632666 / 8796093022208 := by
  have hx : size1000_1 - size1000_1 * (25 / 100) = 26390917894530663 / 35184372088832 := by
    norm_num [size1000_1]
  rw [hx, roundF64_eval _ 9 6597729473632666 (by norm_num) (by norm_num) (by norm_num)
    (roundHalfEven_of_near _ _ (by norm_num) (by norm_num))]
  norm_num

/-- The second rounded difference: a tie, resolved to the even significand. -/
theorem dust_round_two :
    roundF64 (6597729473632666 / 8796093022208 - size1000_1 * (25 / 100)) =
      8796972631510222 / 17592186044416 := by
  have hx : (6597729473632666 : ℚ) / 8796093022208 - size1000_1 * (25 / 100) =
      17593945263020443 / 35184372088832 := by
    norm_num [size1000_1]
  have ht : roundHalfEven ((17593945263020443 : ℚ) / 35184372088832 / 2 ^ ((8 : ℤ) - 52)) =
      8796972631510222 := by
    have e : (17593945263020443 : ℚ) / 35184372088832 / 2 ^ ((8 : ℤ) - 52) =
        ((8796972631510221 : ℕ) : ℚ) + 1 / 2 := by norm_num
    rw [e, roundHalfEven_tie]
    norm_num
  rw [hx, roundF64_eval _ 8 8796972631510222 (by norm_num) (by norm_num) (by norm_num) ht]
  norm_num

/-- The third difference is a `float64` value: it is one unit in the last place above a
quarter of the size. -/
theorem dust_round_three :
    roundF64 (8796972631510222 / 17592186044416 - size1000_1 * (25 / 100)) =
      8796972631510223 / 35184372088832 := by
  have hx : (8796972631510222 : ℚ) / 17592186044416 - size1000_1 * (25 / 100) =
      ((8796972631510223 : ℕ) : ℚ) * 2 ^ (-45 : ℤ) := by
    norm_num [size1000_1]
  rw [hx, roundF64_mantissa 8796972631510223 (-45) (by norm_num) (by norm_num)]
  norm_num

/-- The fourth difference is the residue 2^-44. -/
theorem dust_round_four :
    roundF64 (8796972631510223 / 35184372088832 - size1000_1 * (25 / 100)) =
      1 / 17592186044416 := by
  have hx : (8796972631510223 : ℚ) / 35184372088832 - size1000_1 * (25 / 100) =
      ((4503599627370496 : ℕ) : ℚ) * 2 ^ (-96 : ℤ) := by
    norm_num [size1000_1]
  rw [hx, roundF64_mantissa 4503599627370496 (-96) (by norm_num) (by norm_num)]
  norm_num

/-- C25 (the claim fails): a long position in InitialEntry opened at price 100 with entry
size and current size the `float64` value of 1000.1, and four ticks at the price 101 (1%
favorable) with every order accepted.  With the `float64` rounding of the three
subtractions a quarter slice plus one unit in the last place is left after the third tick,
so the fourth reduction leaves `currentSize = 2^-44 > 0` and the phase stays
InitialEntry. -/
theorem C25_counterexample :
    (RunFl roundF64 noParser sampleLongDust
      [(acceptAll, some 101), (acceptAll, some 101), (acceptAll, some 101),
       (acceptAll, some 101)]).currentSize = 1 / 17592186044416 ∧
    (RunFl roundF64 noParser sampleLongDust
      [(acceptAll, some 101), (acceptAll, some 101), (acceptAll, some 101),
       (acceptAll, some 101)]).state = TraderState.InitialEntry := by
  have hq0 : roundF64 (sampleLongDust.entrySize * (25 / 100)) = size1000_1 * (25 / 100) :=
    roundF64_quarter size1000_1 roundF64_size1000_1
  have hok : ∀ (h : List Order) (o : Order), acceptAll h o = true := fun _ _ => rfl
  -- first tick
  obtain ⟨a1, b1, c1, d1, e1, f1⟩ := tickFl_favorable_step noParser acceptAll sampleLongDust
    101 (size1000_1 * (25 / 100)) (6597729473632666 / 8796093022208) rfl
    sampleLongDust_favorable (by decide) hok hq0
    (by norm_num [sampleLongDust, size1000_1]) dust_round_one
  rw [if_neg (by norm_num)] at f1
  -- second tick
  obtain ⟨a2, b2, c2, d2, e2, f2⟩ := tickFl_favorable_step noParser acceptAll
    (tickFl roundF64 noParser acceptAll sampleLongDust 101)
    101 (size1000_1 * (25 / 100)) (8796972631510222 / 17592186044416) f1
    (by rw [priceDiffFl_congr roundF64 sampleLongDust _ 101 b1 c1]
        exact sampleLongDust_favorable)
    (by rw [a1]; decide) hok (by rw [d1]; exact hq0)
    (by rw [e1]; norm_num [size1000_1]) (by rw [e1]; exact dust_round_two)
  rw [if_neg (by norm_num)] at f2
  -- third tick
  obtain ⟨a3, b3, c3, d3, e3, f3⟩ := tickFl_favorable_step noParser acceptAll
    (tickFl roundF64 noParser acceptAll (tickFl roundF64 noParser acceptAll sampleLongDust 101)
      101)
    101 (size1000_1 * (25 / 100)) (8796972631510223 / 35184372088832) f2
    (by rw [priceDiffFl_congr roundF64 sampleLongDust _ 101 (b2.trans b1) (c2.trans c1)]
        exact sampleLongDust_favorable)
    (by rw [a2, a1]; decide) hok (by rw [d2, d1]; exact hq0)
    (by rw [e2]; norm_num [size1000_1]) (by rw [e2]; exact dust_round_three)
  rw [if_neg (by norm_num)] at f3
  -- fourth tick
  obtain ⟨-, -, -, -, e4, f4⟩ := tickFl_favorable_step noParser acceptAll
    (tickFl roundF64 noParser acceptAll (tickFl roundF64 noParser acceptAll
      (tickFl roundF64 noParser acceptAll sampleLongDust 101) 101) 101)
    101 (size1000_1 * (25 / 100)) (1 / 17592186044416) f3
    (by rw [priceDiffFl_congr roundF64 sampleLongDust _ 101 (b3.trans (b2.trans b1))
          (c3.trans (c2.trans c1))]
        exact sampleLongDust_favorable)
    (by rw [a3, a2, a1]; decide) hok (by rw [d3, d2, d1]; exact hq0)
    (by rw [e3]; norm_num [size1000_1]) (by rw [e3]; exact dust_round_four)
  rw [if_neg (by norm_num)] at f4
  exact ⟨e4, f4⟩

/-- C25 (amended): in InitialEntry (PrimaryEntry) with `currentSize = entrySize > 0`, on
ticks at prices that the code finds at least 1% favorable and with every order accepted,
every tick performs one 25% reduction, also when the ticks carry the same price.  When
`entrySize` and three quarters of it are `float64` values (the subtractions are then
exact), four such ticks bring `currentSize` to exactly 0 and the phase to Idle, and after
the first three a quarter of the entry size is left in InitialEntry. -/
theorem C25_four_ticks_close_when_exact (pf : FloatParser) (gw : Gateway) (t : Trader)
    (p1 p2 p3 p4 : ℚ)
    (hs : t.state = TraderState.InitialEntry)
    (he : 0 < t.entrySize) (hc : t.currentSize = t.entrySize)
    (hfl : roundF64 t.entrySize = t.entrySize)
    (h34 : roundF64 (75 / 100 * t.entrySize) = 75 / 100 * t.entrySize)
    (hm : supportedMarket t.config.Market = true) (hok : ∀ h o, gw h o = true)
    (h1 : (priceDiffFl roundF64 t p1).ge (roundF64 (1 / 100)) = true)
    (h2 : (priceDiffFl roundF64 t p2).ge (roundF64 (1 / 100)) = true)
    (h3 : (priceDiffFl roundF64 t p3).ge (roundF64 (1 / 100)) = true)
    (h4 : (priceDiffFl roundF64 t p4).ge (roundF64 (1 / 100)) = true) :
    (RunFl roundF64 pf t
        [(gw, some p1), (gw, some p2), (gw, some p3), (gw, some p4)]).currentSize = 0 ∧
      (RunFl roundF64 pf t
        [(gw, some p1), (gw, some p2), (gw, some p3), (gw, some p4)]).state =
        TraderState.Idle ∧
      (RunFl roundF64 pf t [(gw, some p1), (gw, some p2), (gw, some p3)]).currentSize =
        25 / 100 * t.entrySize ∧
      (RunFl roundF64 pf t [(gw, some p1), (gw, some p2), (gw, some p3)]).state =
        TraderState.InitialEntry ∧
      (∀ (gw' : Gateway) (t' : Trader) (price : ℚ), t'.state = TraderState.InitialEntry →
        (priceDiffFl roundF64 t' price).ge (roundF64 (1 / 100)) = true →
        tickFl roundF64 pf gw' t' price = reducePositionFl roundF64 gw' t' (25 / 100)) := by
  have hq := roundF64_quarter t.entrySize hfl
  have hhalf : roundF64 (t.entrySize / 2) = t.entrySize / 2 := by
    rw [roundF64_half, hfl]
  -- first tick
  obtain ⟨a1, b1, c1, d1, e1, f1⟩ := tickFl_favorable_step pf gw t p1
    (t.entrySize * (25 / 100)) (75 / 100 * t.entrySize) hs h1 hm hok hq
    (by rw [hc]; intro h; linarith)
    (by
      have : t.currentSize - t.entrySize * (25 / 100) = 75 / 100 * t.entrySize := by
        rw [hc]; ring
      rw [this, h34])
  rw [if_neg (by linarith)] at f1
  -- second tick
  obtain ⟨a2, b2, c2, d2, e2, f2⟩ := tickFl_favorable_step pf gw (tickFl roundF64 pf gw t p1) p2
    (t.entrySize * (25 / 100)) (t.entrySize / 2) f1
    (by rw [priceDiffFl_congr roundF64 t _ p2 b1 c1]; exact h2)
    (by rw [a1]; exact hm) hok (by rw [d1]; exact hq)
    (by rw [e1]; intro h; linarith)
    (by
      have : 75 / 100 * t.entrySize - t.entrySize * (25 / 100) = t.entrySize / 2 := by ring
      rw [e1, this, hhalf])
  rw [if_neg (by linarith)] at f2
  -- third tick
  obtain ⟨a3, b3, c3, d3, e3, f3⟩ := tickFl_favorable_step pf gw
    (tickFl roundF64 pf gw (tickFl roundF64 pf gw t p1) p2) p3
    (t.entrySize * (25 / 100)) (25 / 100 * t.entrySize) f2
    (by rw [priceDiffFl_congr roundF64 t _ p3 (b2.trans b1) (c2.trans c1)]; exact h3)
    (by rw [a2, a1]; exact hm) hok (by rw [d2, d1]; exact hq)
    (by rw [e2]; intro h; linarith)
    (by
      have : t.entrySize / 2 - t.entrySize * (25 / 100) = t.entrySize * (25 / 100) := by ring
      rw [e2, this, hq]; ring)
  rw [if_neg (by linarith)] at f3
  -- fourth tick
  obtain ⟨-, -, -, -, e4, f4⟩ := tickFl_favorable_step pf gw
    (tickFl roundF64 pf gw (tickFl roundF64 pf gw (tickFl roundF64 pf gw t p1) p2) p3) p4
    (t.entrySize * (25 / 100)) 0 f3
    (by rw [priceDiffFl_congr roundF64 t _ p4 (b3.trans (b2.trans b1))
          (c3.trans (c2.trans c1))]; exact h4)
    (by rw [a3, a2, a1]; exact hm) hok (by rw [d3, d2, d1]; exact hq)
    (by rw [e3]; intro h; linarith)
    (by
      have : 25 / 100 * t.entrySize - t.entrySize * (25 / 100) = 0 := by ring
      rw [e3, this, roundF64_zero])
  rw [if_pos (le_refl _)] at f4
  refine ⟨e4, f4, e3, f3, ?_⟩
  intro gw' t' price hs' hfav
  rw [tickFl_of_InitialEntry roundF64 pf gw' t' price hs',
    handleInitialEntryStateFl_of_favorable roundF64 gw' t' price hfav]

/-- Witness for the amended C25: the sample long position (entry price 100, size 100) and
four ticks at the same price 101. -/
theorem C25_four_ticks_close_when_exact_witness :
    (RunFl roundF64 noParser sampleLong
      [(acceptAll, some 101), (acceptAll, some 101), (acceptAll, some 101),
       (acceptAll, some 101)]).currentSize = 0 ∧
    (RunFl roundF64 noParser sampleLong
      [(acceptAll, some 101), (acceptAll, some 101), (acceptAll, some 101),
       (acceptAll, some 101)]).state = TraderState.Idle := by
  have r100 : roundF64 100 = 100 := by
    have h := roundF64_mantissa 7036874417766400 (-46) (by norm_num) (by norm_num)
    have e : ((7036874417766400 : ℕ) : ℚ) * 2 ^ (-46 : ℤ) = 100 := by norm_num
    rw [e] at h
    exact h
  have r75 : roundF64 (75 / 100 * 100) = 75 / 100 * 100 := by
    have h := roundF64_mantissa 5277655813324800 (-46) (by norm_num) (by norm_num)
    have e : ((5277655813324800 : ℕ) : ℚ) * 2 ^ (-46 : ℤ) = 75 / 100 * 100 := by norm_num
    rw [e] at h
    exact h
  have h := C25_four_ticks_close_when_exact noParser acceptAll sampleLong 101 101 101 101 rfl
    (by norm_num [sampleLong]) rfl r100 r75 (by decide) (fun _ _ => rfl)
    sampleLong_favorable sampleLong_favorable sampleLong_favorable sampleLong_favorable
  exact ⟨h.1, h.2.1⟩

end SimpleStrat
